import Mathlib

/-! Rendering / invalidation engine of `src/display.cpp`.

A shallow embedding of the viewport geometry, the viewport manager, the
invalidation tracker, the frame pass, the tile pass and the time-of-day
transition of `display`, followed by theorems about them.

Conventions of the embedding.

* C++ `int` is modelled by `Int`.  `a / b` and `a % b` on `int` truncate toward
  zero, so they are `Int.tdiv` and `Int.tmod`; a zero divisor is undefined
  behaviour and is modelled by `none` (`cdiv`, `cmod`).  Signed overflow is
  undefined behaviour as well; the embedding computes on unbounded integers, so
  the theorems speak of the runs in which no `int` overflows.
* Member functions become functions of the `display` record; mutating members
  return the new record.  Calls into collaborators that only produce pixels
  (`draw_tile`, `draw_minimap`, ...) are recorded as `event`s, in call order.
* Values that come from collaborators outside `display.cpp` (the theme, the
  terrain builder, the flag animations, the report generator, the clock, the
  unit map, the viewing team, the image cache) are parameters: fields of
  `display`, of `env`, of `tick` or of `scene`.
* A `double` is a finite binary floating-point value; the one division on
  `double` is IEEE 754 binary64 division, rounded to nearest, ties to even.
-/

namespace Wesnoth

/-! ## Machine arithmetic -/

/-- C++ `a / b` on `int`: truncation toward zero, undefined for `b = 0`. -/
def cdiv (a b : Int) : Option Int :=
  if b = 0 then none else some (Int.tdiv a b)

/-- C++ `a % b` on `int`: sign of the dividend, undefined for `b = 0`. -/
def cmod (a b : Int) : Option Int :=
  if b = 0 then none else some (Int.tmod a b)

/-- Modelled from the spec: `maximum<int>` of `util.hpp` is not among the
sources; the spec calls the minimum zoom "the larger of the two ratios". -/
def maximum (a b : Int) : Int := if a < b then b else a

/-- Modelled from the spec: `is_odd` of `util.hpp` is not among the sources;
the spec offsets "odd columns" by half the row height.  Oddness is taken on the
mathematical integer, so it is also right for negative columns. -/
def is_odd (n : Int) : Bool := decide (n % 2 = 1)

/-! ## Data model -/

/-- A `gamemap::location`: column `x`, row `y`. -/
structure location where
  x : Int
  y : Int
deriving DecidableEq, Repr

/-- An `SDL_Rect`.  The SDL type has unsigned `w` and `h`; statements that need
it assume `0 ≤ w` and `0 ≤ h`. -/
structure SDL_Rect where
  x : Int
  y : Int
  w : Int
  h : Int
deriving DecidableEq, Repr

/-- The part of `gamemap` that `display` reads: the dimensions `x()`, `y()`,
whether the map is `empty()`, and the village predicate. -/
structure gamemap where
  x : Int
  y : Int
  empty : Bool
  is_village : location → Bool

/-- One element of a sidebar report. -/
structure element where
  image : String
  text : String
  tooltip : String
deriving DecidableEq, Repr

/-- A `reports::report` is a vector of elements, compared element-wise. -/
abbrev report := List element

/-- The members of `display` that the viewport, the invalidation tracker and
the frame pass read or write.  `map_area` is what `map_area()` returns (the
theme's main map rectangle), `teams_size` is `teams_.size()`. -/
structure display where
  xpos_ : Int
  ypos_ : Int
  zoom_ : Int
  map_ : gamemap
  map_area : SDL_Rect
  teams_size : Nat
  currentTeam_ : Nat
  redrawMinimap_ : Bool
  lastDraw_ : Int
  drawSkips_ : Int
  invalidateAll_ : Bool
  invalidated_ : List location
  invalidateUnit_ : Bool
  invalidateGameStatus_ : Bool
  panelsDrawn_ : Bool
  reportRects_ : Nat → SDL_Rect
  reports_ : Nat → report

def DefaultZoom : Int := 72

def MaxZoom : Int := 200

def empty_rect : SDL_Rect := ⟨0, 0, 0, 0⟩

/-- The member initialisers of the constructor `display::display`. -/
def display.construct (map : gamemap) (area : SDL_Rect) (teams : Nat) : display :=
  { xpos_ := 0, ypos_ := 0, zoom_ := DefaultZoom, map_ := map, map_area := area,
    teams_size := teams, currentTeam_ := 0, redrawMinimap_ := false,
    lastDraw_ := 0, drawSkips_ := 0, invalidateAll_ := true, invalidated_ := [],
    invalidateUnit_ := true, invalidateGameStatus_ := true, panelsDrawn_ := false,
    reportRects_ := fun _ => empty_rect, reports_ := fun _ => [] }

/-! ## Hex geometry -/

/-- `MinZoom(map, viewport)`. -/
def MinZoom (map : gamemap) (viewport : SDL_Rect) : Option Int := do
  let min_zoom1 ← cdiv viewport.w (Int.tdiv (map.x * 3) 4)
  let min_zoom2 ← cdiv viewport.h map.y
  pure (maximum min_zoom1 min_zoom2)

/-- `display::hex_size`. -/
def hex_size (d : display) : Int := d.zoom_

/-- `display::hex_width`. -/
def hex_width (d : display) : Int := Int.tdiv (d.zoom_ * 3) 4

/-- `display::get_location_x`. -/
def get_location_x (d : display) (loc : location) : Int :=
  d.map_area.x + loc.x * hex_width d - d.xpos_

/-- `display::get_location_y`. -/
def get_location_y (d : display) (loc : location) : Int :=
  d.map_area.y + loc.y * d.zoom_ - d.ypos_
    + (if is_odd loc.x then Int.tdiv d.zoom_ 2 else 0)

/-- The `(x_modifier, y_modifier)` selection of `pixel_position_to_hex`: the
position of the pixel inside its tessellation cell decides whether the hex is
the cell's base hex or one of its neighbours. -/
def hex_modifier (s x_mod y_mod : Int) : Int × Int :=
  if y_mod < Int.tdiv s 2 then
    if x_mod * 2 + y_mod < Int.tdiv s 2 then (-1, -1)
    else if x_mod * 2 - y_mod < Int.tdiv (s * 3) 2 then (0, 0)
    else (1, -1)
  else
    if x_mod * 2 - (y_mod - Int.tdiv s 2) < 0 then (-1, 0)
    else if x_mod * 2 + (y_mod - Int.tdiv s 2) < s * 2 then (0, 0)
    else (1, 0)

/-- `display::pixel_position_to_hex`, with both direction out-parameters
`NULL`: the hex under the map pixel `(x, y)`. -/
def pixel_position_to_hex (d : display) (x y : Int) : Option location := do
  let s := hex_size d
  let tesselation_x_size := Int.tdiv (s * 3) 2
  let tesselation_y_size := s
  let x_quot ← cdiv x tesselation_x_size
  let x_base := x_quot * 2
  let x_mod ← cmod x tesselation_x_size
  let y_base ← cdiv y tesselation_y_size
  let y_mod ← cmod y tesselation_y_size
  let m := hex_modifier s x_mod y_mod
  pure ⟨x_base + m.1, y_base + m.2⟩

/-- The map pixel of the top-left corner of the rectangle that
`get_location_x`/`get_location_y` give for `loc`: the screen position with the
map-area origin and the scroll offset removed. -/
def hex_to_pixel (d : display) (loc : location) : Int × Int :=
  (get_location_x d loc - d.map_area.x + d.xpos_,
   get_location_y d loc - d.map_area.y + d.ypos_)

/-- `display::get_visible_hex_bounds`: the pair `(topleft, bottomright)`. -/
def get_visible_hex_bounds (d : display) : Option (location × location) := do
  let rect := d.map_area
  let tile_width := hex_width d
  let topleft_x ← cdiv d.xpos_ tile_width
  let topleft_y ←
    cdiv (d.ypos_ - (if is_odd topleft_x then Int.tdiv d.zoom_ 2 else 0)) d.zoom_
  let bottomright_x ← cdiv (d.xpos_ + rect.w) tile_width
  let bottomright_y ←
    cdiv ((d.ypos_ + rect.h) - (if is_odd bottomright_x then Int.tdiv d.zoom_ 2 else 0))
      d.zoom_
  let topleft_x := if topleft_x > -1 then topleft_x - 1 else topleft_x
  let topleft_y := if topleft_y > -1 then topleft_y - 1 else topleft_y
  let bottomright_x :=
    if bottomright_x < d.map_.x then bottomright_x + 1 else bottomright_x
  let bottomright_y :=
    if bottomright_y < d.map_.y then bottomright_y + 1 else bottomright_y
  pure (⟨topleft_x, topleft_y⟩, ⟨bottomright_x, bottomright_y⟩)

/-! ## Invalidation tracker -/

/-- Modelled from the spec: `gamemap::location::operator<` is not among the
sources; the spec orders a HexCoord "by (col,row)", that is lexicographically. -/
def location.lt (a b : location) : Bool :=
  decide (a.x < b.x) || (decide (a.x = b.x) && decide (a.y < b.y))

/-- `std::set<gamemap::location>::insert` on the set's elements in iteration
order: the element is placed at its position, unless it is already there. -/
def set_insert (l : location) : List location → List location
  | [] => [l]
  | h :: t =>
    if location.lt l h then l :: h :: t
    else if location.lt h l then h :: set_insert l t
    else h :: t

/-- `display::team_valid`. -/
def team_valid (d : display) : Bool := decide (d.currentTeam_ < d.teams_size)

/-- `display::invalidate`. -/
def invalidate (d : display) (loc : location) : display :=
  if !d.invalidateAll_ then { d with invalidated_ := set_insert loc d.invalidated_ }
  else d

/-- `display::invalidate_all`. -/
def invalidate_all (d : display) : display :=
  { d with invalidateAll_ := true, invalidated_ := [] }

/-- The integers `lo, lo+1, ..., hi` of a loop `for(i = lo; i <= hi; ++i)`. -/
def int_range (lo hi : Int) : List Int :=
  (List.range (hi + 1 - lo).toNat).map (fun (i : Nat) => lo + (i : Int))

/-- The hexes visited by the nested loops
`for(x = topleft.x; x <= bottomright.x; ++x) for(y = topleft.y; y <= bottomright.y; ++y)`,
in visiting order. -/
def hex_range (topleft bottomright : location) : List location :=
  (int_range topleft.x bottomright.x).flatMap
    (fun x => (int_range topleft.y bottomright.y).map (fun y => (⟨x, y⟩ : location)))

/-- What one frame reads from the animation state and from the clock:
`frame_changed()` of each flag after `update_current_frame()`, the result of
`builder_.update_animation(loc)`, and the two readings of `SDL_GetTicks()` in
`draw`. -/
structure tick where
  flags_frame_changed : List Bool
  update_animation : location → Bool
  current_time : Int
  time_after : Int

/-- `display::invalidate_animations`. -/
def invalidate_animations (t : tick) (d : display) : Option display := do
  let (topleft, bottomright) ← get_visible_hex_bounds d
  let animate_flags := t.flags_frame_changed.any id
  pure { d with
    invalidated_ :=
      (hex_range topleft bottomright).foldl
        (fun s loc =>
          if t.update_animation loc || (d.map_.is_village loc && animate_flags)
          then set_insert loc s else s)
        d.invalidated_ }

/-! ## Frame pass -/

/-- The calls a frame makes into the pixel-producing collaborators, recorded
in call order.  `draw_report n` is recorded when slot `n` is really redrawn,
that is when `draw_report` gets past its cache test. -/
inductive event where
  | draw_panel (i : Nat)
  | draw_label (i : Nat)
  | draw_tile (x y : Int)
  | draw_minimap
  | draw_report (n : Nat)
  | update_display
deriving DecidableEq, Repr

/-- What `draw` reads from the theme, the report generator and the unit map:
the number of theme panels and labels, the rectangle of each status item
(`none` when `get_status_item` returns `NULL`), the report generated for each
slot, whether `draw_sidebar` finds a visible unit to report on, and the
constants of the `reports::TYPE` enumeration. -/
structure env where
  panels : Nat
  labels : Nat
  status_item : Nat → Option SDL_Rect
  generate_report : Nat → report
  unit_shown : Bool
  REPORT_CLOCK : Nat
  UNIT_REPORTS_BEGIN : Nat
  UNIT_REPORTS_END : Nat
  STATUS_REPORTS_BEGIN : Nat
  STATUS_REPORTS_END : Nat

/-- `display::draw_report`, up to the cache test and the cache update.  The
backing surfaces hold pixels and are not modelled: the assignment
`rect = new_rect`, made when `new_rect != rect || surf == NULL`, leaves `rect`
equal to `new_rect` in every case. -/
def draw_report (e : env) (d : display) (report_num : Nat) : display × List event :=
  if !team_valid d then (d, [])
  else
    match e.status_item report_num with
    | some new_rect =>
      let report := e.generate_report report_num
      if d.reportRects_ report_num = new_rect ∧ d.reports_ report_num = report then (d, [])
      else
        ({ d with
            reports_ := Function.update d.reports_ report_num report,
            reportRects_ := Function.update d.reportRects_ report_num new_rect },
         [event.draw_report report_num])
    | none => (d, [])

/-- A loop `for(r = first; r != last; ++r) draw_report(TYPE(r))` over a range of
the `reports::TYPE` enumeration (`first <= last`). -/
def draw_reports (e : env) (d : display) (first last : Nat) : display × List event :=
  (List.range' first (last - first)).foldl
    (fun acc r => let res := draw_report e acc.1 r; (res.1, acc.2 ++ res.2))
    (d, [])

/-- `display::draw_game_status`. -/
def draw_game_status (e : env) (d : display) : display × List event :=
  if d.teams_size = 0 then (d, [])
  else draw_reports e d e.STATUS_REPORTS_BEGIN e.STATUS_REPORTS_END

/-- `display::draw_sidebar`. -/
def draw_sidebar (e : env) (d : display) : display × List event :=
  let r1 := draw_report e d e.REPORT_CLOCK
  if r1.1.teams_size = 0 then r1
  else
    let r2 : display × List event :=
      if r1.1.invalidateUnit_ then
        let r :=
          if e.unit_shown then draw_reports e r1.1 e.UNIT_REPORTS_BEGIN e.UNIT_REPORTS_END
          else (r1.1, [])
        ({ r.1 with invalidateUnit_ := false }, r.2)
      else (r1.1, [])
    let r3 : display × List event :=
      if r2.1.invalidateGameStatus_ then
        let r := draw_game_status e r2.1
        ({ r.1 with invalidateGameStatus_ := false }, r.2)
      else (r2.1, [])
    (r3.1, r1.2 ++ r2.2 ++ r3.2)

/-- The state of a frame pass between its steps: the display, the events so
far and the local `changed`. -/
structure frame where
  d : display
  events : List event
  changed : Bool

/-- First step of `display::draw`: the static panels and labels. -/
def draw_panels (e : env) (f : frame) : frame :=
  if !f.d.panelsDrawn_ then
    { d := { f.d with reports_ := fun _ => [], invalidateGameStatus_ := true,
                      panelsDrawn_ := true },
      events := f.events ++ (List.range e.panels).map event.draw_panel
                  ++ (List.range e.labels).map event.draw_label,
      changed := true }
  else f

/-- Second step of `display::draw`: consuming the invalidation. -/
def draw_tiles (f : frame) : Option frame :=
  if f.d.invalidateAll_ && !f.d.map_.empty then do
    let (topleft, bottomright) ← get_visible_hex_bounds f.d
    pure { d := { f.d with invalidateAll_ := false, redrawMinimap_ := true },
           events := f.events
             ++ (hex_range topleft bottomright).map (fun l => event.draw_tile l.x l.y),
           changed := true }
  else if !f.d.map_.empty then
    pure { d := { f.d with invalidated_ := [] },
           events := f.events ++ f.d.invalidated_.map (fun l => event.draw_tile l.x l.y),
           changed := f.changed || !f.d.invalidated_.isEmpty }
  else pure f

/-- Third step of `display::draw`: the minimap. -/
def draw_minimap_step (f : frame) : frame :=
  if f.d.redrawMinimap_ then
    { d := { f.d with redrawMinimap_ := false },
      events := f.events ++ [event.draw_minimap], changed := true }
  else f

/-- Fourth step of `display::draw`: the sidebar. -/
def draw_sidebar_step (e : env) (f : frame) : frame :=
  if !f.d.map_.empty then
    let r := draw_sidebar e f.d
    { d := r.1, events := f.events ++ r.2, changed := true }
  else f

/-- Last step of `display::draw`: pacing and presentation. -/
def draw_present (t : tick) (update force : Bool) (f : frame) : display × List event :=
  let max_skips : Int := 5
  let time_between_draws : Int := 20
  let wait_time := f.d.lastDraw_ + time_between_draws - t.current_time
  if update then
    let d := { f.d with lastDraw_ := t.time_after }
    if decide (wait_time ≥ 0) || decide (d.drawSkips_ ≥ max_skips) || force then
      if f.changed || force then (d, f.events ++ [event.update_display])
      else (d, f.events)
    else ({ d with drawSkips_ := d.drawSkips_ + 1 }, f.events)
  else (f.d, f.events)

/-- `display::draw(update, force)`: the new display and the events of the
frame. -/
def draw (e : env) (t : tick) (d : display) (update force : Bool) :
    Option (display × List event) := do
  let d0 ← invalidate_animations t d
  let f1 := draw_panels e { d := d0, events := [], changed := false }
  let f2 ← draw_tiles f1
  let f3 := draw_minimap_step f2
  let f4 := draw_sidebar_step e f3
  pure (draw_present t update force f4)

/-! ## Viewport manager -/

/-- `display::bounds_check_position`. -/
def bounds_check_position (d : display) : Option display := do
  let min_zoom ← MinZoom d.map_ d.map_area
  let d := if d.zoom_ < min_zoom then { d with zoom_ := min_zoom } else d
  let d := if d.zoom_ > MaxZoom then { d with zoom_ := MaxZoom } else d
  let tile_width := hex_width d
  let xend := tile_width * d.map_.x + Int.tdiv tile_width 3
  let yend := d.zoom_ * d.map_.y + Int.tdiv d.zoom_ 2
  let d :=
    if d.xpos_ + d.map_area.w > xend
    then { d with xpos_ := d.xpos_ - (d.xpos_ + d.map_area.w - xend) } else d
  let d :=
    if d.ypos_ + d.map_area.h > yend
    then { d with ypos_ := d.ypos_ - (d.ypos_ + d.map_area.h - yend) } else d
  let d := if d.xpos_ < 0 then { d with xpos_ := 0 } else d
  let d := if d.ypos_ < 0 then { d with ypos_ := 0 } else d
  pure d

/-- `display::scroll`. -/
def scroll (d : display) (xmove ymove : Int) : Option display := do
  let orig_x := d.xpos_
  let orig_y := d.ypos_
  let d ← bounds_check_position { d with xpos_ := d.xpos_ + xmove, ypos_ := d.ypos_ + ymove }
  if orig_x ≠ d.xpos_ ∨ orig_y ≠ d.ypos_ then pure (invalidate_all d) else pure d

/-- `display::zoom`: the new display and the events of the redraw it forces.
`MinZoom` is evaluated only when `amount != 0 && team_valid()` holds. -/
def zoom (e : env) (t : tick) (d : display) (amount : Int) :
    Option (display × List event) :=
  let new_zoom := d.zoom_ + amount
  if amount ≠ 0 ∧ team_valid d = true then do
    let min_zoom ← MinZoom d.map_ d.map_area
    if new_zoom ≥ min_zoom ∧ new_zoom ≤ MaxZoom then do
      let area := d.map_area
      let dx ← cdiv ((d.xpos_ + Int.tdiv area.w 2) * amount) d.zoom_
      let dy ← cdiv ((d.ypos_ + Int.tdiv area.h 2) * amount) d.zoom_
      let d ← bounds_check_position
        { d with xpos_ := d.xpos_ + dx, ypos_ := d.ypos_ + dy, zoom_ := new_zoom }
      draw e t (invalidate_all d) true false
    else pure (d, [])
  else pure (d, [])

/-- A display at zoom `z` over `map`, otherwise as constructed. -/
def display.at_zoom (map : gamemap) (area : SDL_Rect) (z : Int) : display :=
  { display.construct map area 1 with zoom_ := z }

/-- A map of the given size without villages. -/
def plain_map (w h : Int) : gamemap :=
  { x := w, y := h, empty := decide (w = 0), is_village := fun _ => false }

/-- The pixel width `xend` of the map that `bounds_check_position` clamps
against. -/
def map_pixel_width (d : display) : Int :=
  hex_width d * d.map_.x + Int.tdiv (hex_width d) 3

/-- The pixel height `yend` of the map that `bounds_check_position` clamps
against. -/
def map_pixel_height (d : display) : Int :=
  d.zoom_ * d.map_.y + Int.tdiv d.zoom_ 2

/-- The scroll offset is non-negative, and the far edge of the visible
rectangle is inside the map's pixel bounds in each dimension in which the map
is at least as large as the viewport. -/
def viewport_clamped (d : display) : Prop :=
  0 ≤ d.xpos_ ∧ 0 ≤ d.ypos_
  ∧ d.xpos_ + d.map_area.w ≤ maximum (map_pixel_width d) d.map_area.w
  ∧ d.ypos_ + d.map_area.h ≤ maximum (map_pixel_height d) d.map_area.h

/-- The hexes `draw_tile` was called for, in call order. -/
def tiles_drawn (events : List event) : List location :=
  events.filterMap (fun ev =>
    match ev with
    | event.draw_tile x y => some (⟨x, y⟩ : location)
    | _ => none)

/-- The guard of `display::zoom`. -/
def zoom_accepted (d : display) (amount min_zoom : Int) : Prop :=
  amount ≠ 0 ∧ team_valid d = true
    ∧ d.zoom_ + amount ≥ min_zoom ∧ d.zoom_ + amount ≤ MaxZoom

/-- No animation advanced a frame during the tick. -/
def tick.still (t : tick) : Prop :=
  t.flags_frame_changed.any id = false ∧ ∀ loc, t.update_animation loc = false

/-- The viewport members: everything the geometry functions read. -/
def same_view (a b : display) : Prop :=
  b.xpos_ = a.xpos_ ∧ b.ypos_ = a.ypos_ ∧ b.zoom_ = a.zoom_ ∧ b.map_ = a.map_
    ∧ b.map_area = a.map_area

/-- Everything but the four members the sidebar writes. -/
def same_outside_sidebar (a b : display) : Prop :=
  b.xpos_ = a.xpos_ ∧ b.ypos_ = a.ypos_ ∧ b.zoom_ = a.zoom_ ∧ b.map_ = a.map_
    ∧ b.map_area = a.map_area ∧ b.teams_size = a.teams_size
    ∧ b.currentTeam_ = a.currentTeam_ ∧ b.redrawMinimap_ = a.redrawMinimap_
    ∧ b.lastDraw_ = a.lastDraw_ ∧ b.drawSkips_ = a.drawSkips_
    ∧ b.invalidateAll_ = a.invalidateAll_ ∧ b.invalidated_ = a.invalidated_
    ∧ b.panelsDrawn_ = a.panelsDrawn_

/-- Only `draw_report` events. -/
def report_events (evs : List event) : Prop :=
  ∀ ev ∈ evs, ∃ n, ev = event.draw_report n

/-- The body of `invalidate_animations` once the visible bounds are known. -/
def invalidate_animations_in (t : tick) (d : display) (topleft bottomright : location) :
    display :=
  { d with
    invalidated_ :=
      (hex_range topleft bottomright).foldl
        (fun s loc =>
          if t.update_animation loc
              || (d.map_.is_village loc && t.flags_frame_changed.any id)
          then set_insert loc s else s)
        d.invalidated_ }

/-- The invalidation step of `draw` once the visible bounds are known. -/
def draw_tiles_in (topleft bottomright : location) (f : frame) : frame :=
  if f.d.invalidateAll_ && !f.d.map_.empty then
    { d := { f.d with invalidateAll_ := false, redrawMinimap_ := true },
      events := f.events
        ++ (hex_range topleft bottomright).map (fun l => event.draw_tile l.x l.y),
      changed := true }
  else if !f.d.map_.empty then
    { d := { f.d with invalidated_ := [] },
      events := f.events ++ f.d.invalidated_.map (fun l => event.draw_tile l.x l.y),
      changed := f.changed || !f.d.invalidated_.isEmpty }
  else f

/-- The frame pass of `draw` once the visible bounds are known. -/
def draw_in (e : env) (t : tick) (d : display) (update force : Bool)
    (topleft bottomright : location) : display × List event :=
  draw_present t update force
    (draw_sidebar_step e
      (draw_minimap_step
        (draw_tiles_in topleft bottomright
          (draw_panels e
            { d := invalidate_animations_in t d topleft bottomright, events := [],
              changed := false }))))

/-- The zoom clamp of `bounds_check_position`: raise to `min_zoom`, then lower
to `MaxZoom`. -/
def clamp_zoom (min_zoom : Int) (d : display) : display :=
  let d := if d.zoom_ < min_zoom then { d with zoom_ := min_zoom } else d
  if d.zoom_ > MaxZoom then { d with zoom_ := MaxZoom } else d

/-- The far-edge clamp of `bounds_check_position`: pull the offset back so that
the visible rectangle ends at `xend`, `yend`. -/
def clamp_far_edge (d : display) : display :=
  let tile_width := hex_width d
  let xend := tile_width * d.map_.x + Int.tdiv tile_width 3
  let yend := d.zoom_ * d.map_.y + Int.tdiv d.zoom_ 2
  let d :=
    if d.xpos_ + d.map_area.w > xend
    then { d with xpos_ := d.xpos_ - (d.xpos_ + d.map_area.w - xend) } else d
  if d.ypos_ + d.map_area.h > yend
  then { d with ypos_ := d.ypos_ - (d.ypos_ + d.map_area.h - yend) } else d

/-- The near-edge clamp of `bounds_check_position`: no negative offset. -/
def clamp_near_edge (d : display) : display :=
  let d := if d.xpos_ < 0 then { d with xpos_ := 0 } else d
  if d.ypos_ < 0 then { d with ypos_ := 0 } else d

/-- Everything but the scroll offset and the zoom level. -/
def same_outside_view (a b : display) : Prop :=
  b.map_ = a.map_ ∧ b.map_area = a.map_area ∧ b.teams_size = a.teams_size
    ∧ b.currentTeam_ = a.currentTeam_ ∧ b.redrawMinimap_ = a.redrawMinimap_
    ∧ b.lastDraw_ = a.lastDraw_ ∧ b.drawSkips_ = a.drawSkips_
    ∧ b.invalidateAll_ = a.invalidateAll_ ∧ b.invalidated_ = a.invalidated_
    ∧ b.invalidateUnit_ = a.invalidateUnit_
    ∧ b.invalidateGameStatus_ = a.invalidateGameStatus_
    ∧ b.panelsDrawn_ = a.panelsDrawn_ ∧ b.reportRects_ = a.reportRects_
    ∧ b.reports_ = a.reports_

/-- The elements of a `std::set`, in iteration order: strictly increasing. -/
def set_sorted (s : List location) : Prop :=
  s.Pairwise (fun a b => location.lt a b = true)

/-- The loop of `invalidate_animations` over the visible hexes: the dirty set
after marking every hex whose animation advanced. -/
def mark_animated (t : tick) (map : gamemap) (locs s : List location) : List location :=
  locs.foldl
    (fun s loc =>
      if t.update_animation loc || (map.is_village loc && t.flags_frame_changed.any id)
      then set_insert loc s else s)
    s

/-- The tracker members, and the map they are consumed against. -/
def same_tracker (a b : display) : Prop :=
  b.invalidateAll_ = a.invalidateAll_ ∧ b.invalidated_ = a.invalidated_ ∧ b.map_ = a.map_

/-- The sentinel and the explicit dirty set exclude each other. -/
def tracker_exclusive (d : display) : Prop :=
  d.invalidateAll_ = true → d.invalidated_ = []

/-- Slot `n` of the report cache is up to date: `draw_report` would find its
rectangle and its content unchanged. -/
def report_cached (e : env) (d : display) (n : Nat) : Prop :=
  team_valid d = true → ∀ r, e.status_item n = some r →
    d.reportRects_ n = r ∧ d.reports_ n = e.generate_report n

/-- The sidebar has nothing to redraw: the clock slot is up to date and, when
there are teams, neither the unit nor the game status is invalidated. -/
def sidebar_settled (e : env) (d : display) : Prop :=
  report_cached e d e.REPORT_CLOCK
    ∧ (d.teams_size ≠ 0 → d.invalidateUnit_ = false ∧ d.invalidateGameStatus_ = false)

/-- A display on which a frame without animation has nothing to redraw. -/
def frame_settled (e : env) (d : display) : Prop :=
  d.panelsDrawn_ = true ∧ d.redrawMinimap_ = false
    ∧ (d.map_.empty = false →
        d.invalidateAll_ = false ∧ d.invalidated_ = [] ∧ sidebar_settled e d)

/-! ## Sample data -/

/-- A 640x480 map area at the screen origin. -/
def sample_area : SDL_Rect := ⟨0, 0, 640, 480⟩

/-- A freshly constructed display over a 40x30 map. -/
def sample_display : display := display.construct (plain_map 40 30) sample_area 1

/-- A display over a 63x40 map at zoom 21. -/
def wide_display : display := display.at_zoom (plain_map 63 40) sample_area 21

/-- A theme with one panel, one label and four report slots. -/
def sample_env : env :=
  { panels := 1
    labels := 1
    status_item := fun n => if n < 4 then some ⟨(n : Int) * 10, 0, 10, 10⟩ else none
    generate_report := fun n => [⟨"", toString n, ""⟩]
    unit_shown := true
    REPORT_CLOCK := 3
    UNIT_REPORTS_BEGIN := 0
    UNIT_REPORTS_END := 1
    STATUS_REPORTS_BEGIN := 1
    STATUS_REPORTS_END := 4 }

/-- A tick in which no animation advances. -/
def still_tick : tick :=
  { flags_frame_changed := [false]
    update_animation := fun _ => false
    current_time := 0
    time_after := 15 }

/-- A tick in which the terrain animation of hex (0, 0) advances. -/
def anim_tick : tick :=
  { flags_frame_changed := [false]
    update_animation := fun loc => decide (loc = ⟨0, 0⟩)
    current_time := 0
    time_after := 15 }

/-- A display in the PARTIAL state with two dirty hexes. -/
def partial_display : display :=
  { sample_display with invalidateAll_ := false, invalidated_ := [⟨1, 1⟩, ⟨2, 3⟩] }


/-! ## Presentation -/

/-- The steps of `draw` that come before the pacing, once the visible bounds
are known: the frame that `draw_present` decides on.  Its `changed` is the
local `changed` of `draw` at that point. -/
def draw_frame_in (e : env) (t : tick) (d : display) (topleft bottomright : location) :
    frame :=
  draw_sidebar_step e
    (draw_minimap_step
      (draw_tiles_in topleft bottomright
        (draw_panels e
          { d := invalidate_animations_in t d topleft bottomright, events := [],
            changed := false })))

/-- No `update_display` among the events. -/
def not_presented (evs : List event) : Prop := event.update_display ∉ evs

/-- A display whose report slots already have the rectangles of `sample_env`
in the cache, with empty content. -/
def stale_report_display : display :=
  { sample_display with reportRects_ := fun n => ⟨(n : Int) * 10, 0, 10, 10⟩ }

/-! ## Floating point

`unit_energy` is a `double`.  The values that occur are quotients of two `int`s
and decimal literals, so a finite binary floating-point value, an integer
significand times a power of two, is all that is needed; infinities and NaN do
not occur, because the one division is guarded by `max_hitpoints() > 0`. -/

/-- A finite binary floating-point value `m * 2^e`. -/
structure double where
  m : Int
  e : Int
deriving DecidableEq, Repr

/-- The rational number a `double` stands for. -/
def double.toRat (a : double) : ℚ := (a.m : ℚ) * (2 : ℚ) ^ a.e

/-- `a < b` on `double`: both significands are brought to the smaller of the
two exponents and compared as integers. -/
def double.lt (a b : double) : Bool :=
  let k := min a.e b.e
  decide (a.m * 2 ^ (a.e - k).toNat < b.m * 2 ^ (b.e - k).toNat)

/-- The integer nearest to `n / d` for `d > 0`, a tie going to the even
integer: the IEEE 754 default rounding (round to nearest, ties to even). -/
def round_half_even (n d : Int) : Int :=
  let q := n / d
  let r := n % d
  if 2 * r < d then q else if d < 2 * r then q + 1 else if q % 2 = 0 then q else q + 1

/-- `bit_length_aux fuel n`: the number of binary digits of `n`, given enough
fuel. -/
def bit_length_aux : Nat → Nat → Nat
  | 0, _ => 0
  | fuel + 1, n => if n = 0 then 0 else bit_length_aux fuel (n / 2) + 1

/-- The number of binary digits of `n`; 0 for `n = 0`. -/
def bit_length (n : Nat) : Nat := bit_length_aux n n

/-- The binary exponent `E` of the quotient of two positive integers,
`2^E <= a/b < 2^(E+1)`: the difference of the bit lengths, or one less, as one
comparison decides. -/
def quotient_exponent (a b : Nat) : Int :=
  let e0 : Int := (bit_length a : Int) - (bit_length b : Int)
  let ge : Bool :=
    if 0 ≤ e0 then decide (b * 2 ^ e0.toNat ≤ a) else decide (b ≤ a * 2 ^ (-e0).toNat)
  if ge then e0 else e0 - 1

/-- The integer nearest to `(a / b) / 2^s`, ties to even. -/
def scaled_round (a b : Nat) (s : Int) : Int :=
  if 0 ≤ s then round_half_even a (b * 2 ^ s.toNat)
  else round_half_even (a * 2 ^ (-s).toNat) b

/-- The quotient `a / b` of two positive integers, rounded to a significand of
53 bits: with `E` the exponent of the quotient, the significand is the integer
nearest to `(a / b) / 2^(E-52)`, which lies between `2^52` and `2^53`. -/
def double_div_pos (a b : Nat) : double :=
  let s := quotient_exponent a b - 52
  ⟨scaled_round a b s, s⟩

/-- `double(a) / double(b)` for `int`s `a` and `b != 0`: IEEE 754 binary64
division.  An `int` converts to `double` exactly, and the quotient of two
`int`s is zero or of magnitude between `2^-31` and `2^31`, in the normal range,
so the result is the quotient rounded to 53 bits, with the sign of `a / b`. -/
def double_div (a b : Int) : double :=
  if a = 0 then ⟨0, 0⟩
  else
    let q := double_div_pos a.natAbs b.natAbs
    if (decide (a < 0)) != (decide (b < 0)) then ⟨-q.m, q.e⟩ else q

/-- A decimal literal `n / 10^k` of type `double`, such as `0.33`: the
binary64 value nearest to it. -/
def double_literal (n : Int) (k : Nat) : double := double_div n (10 ^ k)

/-- An `SDL_Color` (the `unused` byte is left out). -/
structure SDL_Color where
  r : Int
  g : Int
  b : Int
deriving DecidableEq, Repr

/-- The energy-bar fragment of `display::draw_unit_on_tile`: `unit_energy`
from the hit points, then the colour of the band `unit_energy` falls in. -/
def energy_bar_colour (hitpoints max_hitpoints : Int) : double × SDL_Color :=
  let unit_energy : double :=
    if max_hitpoints > 0 then double_div hitpoints max_hitpoints else double_literal 0 0
  let energy_colour : SDL_Color :=
    if double.lt unit_energy (double_literal 33 2) then ⟨200, 0, 0⟩
    else if double.lt unit_energy (double_literal 66 2) then ⟨200, 200, 0⟩
    else ⟨0, 200, 0⟩
  (unit_energy, energy_colour)

/-! ## Tile pass -/

/-- Modelled from the spec: the enumeration `image::TYPE` of `image.hpp` is not
among the sources; the spec names the rendering modes "image_type:
scaled/greyed/brightened/semi-brightened/unmasked". -/
inductive image.TYPE where
  | SCALED
  | UNMASKED
  | GREYED
  | BRIGHTENED
  | SEMI_BRIGHTENED
deriving DecidableEq, Repr

/-- The three values of `ADJACENT_TERRAIN_TYPE` that `draw_tile` passes to
`draw_terrain_on_tile`. -/
inductive ADJACENT_TERRAIN_TYPE where
  | ADJACENT_BACKGROUND
  | ADJACENT_FOREGROUND
  | ADJACENT_FOGSHROUD
deriving DecidableEq, Repr

/-- A `surface`: `none` is `NULL`, otherwise a label of the image.  Pixels are
not modelled. -/
abbrev surface := Option String

/-- The members of `time_of_day` that `display` reads. -/
structure time_of_day where
  image_mask : String
  red : Int
  green : Int
  blue : Int
deriving DecidableEq, Repr

/-- What `display` reads of a `unit`.  `invisible` is the value of
`u.invisible(...)`, an external predicate of terrain, time of day and
neighbouring units. -/
structure unit where
  image : String
  image_halo : String
  side : Nat
  hitpoints : Int
  max_hitpoints : Int
  experience : Int
  can_advance : Bool
  can_recruit : Bool
  invisible : Bool
  overlays : List String
deriving DecidableEq, Repr

/-- What the tile pass and the time-of-day transition read from the
collaborators of `display`: the video lock, the unit map, the viewing team
(`teams_[currentTeam_]`), the map, the game status, the image cache, the halo
manager and the configuration. -/
structure scene where
  update_locked : Bool
  units_ : location → Option unit
  team_shrouded : location → Bool
  team_fogged : location → Bool
  is_enemy : Nat → Bool
  find_visible_unit : location → Bool
  on_board : location → Bool
  get_time_of_day : time_of_day
  get_previous_time_of_day : time_of_day
  timeofday_at : location → time_of_day
  get_image : String → surface
  get_flag : location → surface
  overlays_ : location → List String
  foot_image : location → surface
  halo_add : Int → Int → String → Int
  adjust_surface_alpha : surface → Int → surface
  ftofxp_one : Int
  fxpdiv : Int → Int → Int
  scroll_speed : Int
  shift_key : Bool
  tiny_gui : Bool
  debug : Bool
  cross_image : String

/-- The members of `display` that the tile pass, the scroll animation and the
time-of-day transition read or write, on top of those of `display`.
`pathsList_` is `none` for `NULL` and otherwise lists the keys of `routes`;
`route_steps` is `route_.steps`. -/
structure renderer extends display where
  haloes_ : location → Option Int
  mouseoverHex_ : location
  selectedHex_ : location
  highlighted_locations_ : List location
  pathsList_ : Option (List location)
  route_steps : List location
  route_move_left : Int
  grid_ : Bool
  debugHighlights_ : List location
  hiddenUnit_ : location
  hideEnergy_ : Bool
  tod_hex_mask1 : surface
  tod_hex_mask2 : surface
  turbo_ : Bool
  first_turn_ : Bool

/-- One thing a tile pass does to the screen or to the halo manager, recorded
in call order.  `terrain` stands for the blits of the images that
`get_terrain_images` returns; image lookups that yield `NULL` record
nothing. -/
inductive layer where
  | halo_remove (handle : Int)
  | halo_add (x y : Int) (name : String)
  | terrain (image_type : image.TYPE) (type : ADJACENT_TERRAIN_TYPE)
  | flag
  | overlay (name : String) (image_type : image.TYPE)
  | unseen
  | footstep
  | unit_sprite
  | energy_bar (height : Int) (filled : double) (colour : SDL_Color)
  | experience_bar
  | crown
  | unit_overlay (name : String)
  | movement_info
  | fog
  | tod_hex_mask1
  | tod_hex_mask2
  | tod_mask (name : String)
  | grid
  | cross
  | update_rect (x y w h : Int)
deriving DecidableEq, Repr

/-- `display::shrouded`. -/
def shrouded (g : scene) (r : renderer) (x y : Int) : Bool :=
  if team_valid r.todisplay then g.team_shrouded ⟨x, y⟩ else false

/-- `display::fogged`. -/
def fogged (g : scene) (r : renderer) (x y : Int) : Bool :=
  if team_valid r.todisplay then g.team_fogged ⟨x, y⟩ else false

/-- `display::turbo`. -/
def turbo (g : scene) (r : renderer) : Bool :=
  let res := r.turbo_
  if g.shift_key then !res else res

/-- `display::draw_halo_on_tile`: the halo table is brought in line with the
unit on the hex, before any clipping. -/
def draw_halo_on_tile (g : scene) (r : renderer) (x y : Int) : renderer × List layer :=
  let loc : location := ⟨x, y⟩
  let xpos := get_location_x r.todisplay loc
  let ypos := get_location_y r.todisplay loc
  let halo_it := r.haloes_ loc
  let it := if fogged g r x y then none else g.units_ loc
  match halo_it, it with
  | some handle, none =>
    ({ r with haloes_ := Function.update r.haloes_ loc none }, [layer.halo_remove handle])
  | none, some u =>
    if u.image_halo ≠ "" then
      let hx := xpos + Int.tdiv (hex_width r.todisplay) 2
      let hy := ypos + Int.tdiv (hex_size r.todisplay) 2
      ({ r with
          haloes_ := Function.update r.haloes_ loc (some (g.halo_add hx hy u.image_halo)) },
       [layer.halo_add hx hy u.image_halo])
    else (r, [])
  | _, _ => (r, [])

/-- `display::draw_terrain_on_tile`. -/
def draw_terrain_on_tile (r : renderer) (x y : Int) (image_type : image.TYPE)
    (type : ADJACENT_TERRAIN_TYPE) : List layer :=
  let loc : location := ⟨x, y⟩
  let xpos := get_location_x r.todisplay loc
  let ypos := get_location_y r.todisplay loc
  let clip_rect := r.map_area
  if xpos > clip_rect.x + clip_rect.w ∨ ypos > clip_rect.y + clip_rect.h
      ∨ xpos + r.zoom_ < clip_rect.x ∨ ypos + r.zoom_ < clip_rect.y then []
  else [layer.terrain image_type type]

/-- `display::draw_footstep`.  `foot_image loc` is the image that the direction
of the step and the movement cost select from the footstep tables, `NULL` when
the table is empty or the image is missing. -/
def draw_footstep (g : scene) (r : renderer) (loc : location) : List layer :=
  let i := r.route_steps.indexOf loc
  if i = 0 ∨ i = r.route_steps.length then []
  else
    match g.foot_image loc with
    | none => []
    | some _ => [layer.footstep]

/-- `display::draw_movement_info`: the text is drawn on the last step of the
route when it is not empty. -/
def draw_movement_info (g : scene) (r : renderer) (loc : location) : List layer :=
  let i := r.route_steps.indexOf loc
  let show_time := decide (i + 1 = r.route_steps.length)
  if show_time = false then []
  else
    let un := r.route_steps.head?.bind g.units_
    let defense := !g.tiny_gui && un.isSome && decide (r.zoom_ ≥ DefaultZoom)
    let moves := decide (r.route_move_left > 0) && decide (r.route_move_left < 10)
    if defense || moves then [layer.movement_info] else []

/-- The tail of `display::draw_unit_on_tile`, after its last early return: the
sprite unless the unit is hidden, the energy bar when an energy image was
chosen (`with_energy`), the experience bar, the leader crown and the unit's
overlays. -/
def unit_layers (g : scene) (r : renderer) (loc : location) (u : unit)
    (with_energy : Bool) : List layer :=
  let bar := energy_bar_colour u.hitpoints u.max_hitpoints
  (if loc ≠ r.hiddenUnit_ then [layer.unit_sprite] else [])
    ++ (if with_energy
        then [layer.energy_bar (Int.tdiv (u.max_hitpoints * 2) 3) bar.1 bar.2] else [])
    ++ (if u.experience > 0 ∧ u.can_advance = true then [layer.experience_bar] else [])
    ++ (if u.can_recruit = true ∧ (g.get_image "misc/leader-crown.png").isSome
        then [layer.crown] else [])
    ++ (u.overlays.filter (fun ov => (g.get_image ov).isSome)).map layer.unit_overlay

/-- `display::draw_unit_on_tile`, with the layers it draws.  The attributes
that only shade pixels (`highlight_ratio`, `blend_with`, the choice among the
energy images, the ellipses) are left out.  `none` is the undefined behaviour
of `teams_[currentTeam_]` with an invalid viewing team. -/
def draw_unit_on_tile (g : scene) (r : renderer) (x y : Int)
    (unit_image_override : surface) : Option (List layer) :=
  if g.update_locked then some []
  else
    let loc : location := ⟨x, y⟩
    let xpos := get_location_x r.todisplay loc
    let ypos := get_location_y r.todisplay loc
    match g.units_ loc with
    | none => some []
    | some u =>
      let clip_rect := r.map_area
      if xpos > clip_rect.x + clip_rect.w ∨ ypos > clip_rect.y + clip_rect.h
          ∨ xpos + r.zoom_ < clip_rect.x ∨ ypos + r.zoom_ < clip_rect.y then some []
      else
        let with_energy := decide (loc ≠ r.hiddenUnit_) || !r.hideEnergy_
        let unit_image : surface :=
          if with_energy && unit_image_override.isNone
          then g.get_image u.image else unit_image_override
        if with_energy && unit_image.isNone then some []
        else if unit_image.isNone || fogged g r x y then some []
        else if !team_valid r.todisplay then none
        else if g.is_enemy u.side && u.invisible then some []
        else some (unit_layers g r loc u with_energy)

/-- The rendering mode that `display::draw_tile` computes for a hex: the
assignments to `image_type`, in the order of the source. -/
def tile_image_type (g : scene) (r : renderer) (loc : location) : image.TYPE :=
  let image_type := image.TYPE.SCALED
  let tod := g.get_time_of_day
  let tod_at := g.timeofday_at loc
  let image_type :=
    if r.tod_hex_mask1 ≠ none ∨ r.tod_hex_mask2 ≠ none ∨ tod.image_mask ≠ tod_at.image_mask
    then image.TYPE.UNMASKED else image_type
  let image_type :=
    match r.pathsList_ with
    | some routes => if loc ∉ routes then image.TYPE.GREYED else image_type
    | none => image_type
  let un := g.find_visible_unit loc
  if (loc = r.mouseoverHex_ ∧ g.on_board r.mouseoverHex_ = true)
      ∨ (loc = r.selectedHex_ ∧ un = true) then image.TYPE.BRIGHTENED
  else if loc ∈ r.highlighted_locations_ then image.TYPE.SEMI_BRIGHTENED
  else image_type

/-- The time-of-day step of `display::draw_tile`: the two transition masks
when one of them is set, otherwise the single mask of the hex. -/
def draw_tod_mask (g : scene) (r : renderer) (mask : String) : List layer :=
  if r.tod_hex_mask1 ≠ none ∨ r.tod_hex_mask2 ≠ none then
    (if r.tod_hex_mask1 ≠ none then [layer.tod_hex_mask1] else [])
      ++ (if r.tod_hex_mask2 ≠ none then [layer.tod_hex_mask2] else [])
  else if mask ≠ "" then
    (if (g.get_image mask).isSome then [layer.tod_mask mask] else [])
  else []

/-- `display::draw_tile(x, y, unit_image)`: the renderer after the call and the
layers drawn, in order.  `none` is the undefined behaviour of
`teams_[currentTeam_]` with an invalid viewing team. -/
def draw_tile (g : scene) (r : renderer) (x y : Int) (unit_image : surface) :
    Option (renderer × List layer) :=
  if g.update_locked then some (r, [])
  else
    let h := draw_halo_on_tile g r x y
    let r := h.1
    let loc : location := ⟨x, y⟩
    let xpos := get_location_x r.todisplay loc
    let ypos := get_location_y r.todisplay loc
    let clip_rect := r.map_area
    if xpos ≥ clip_rect.x + clip_rect.w ∨ ypos ≥ clip_rect.y + clip_rect.h
        ∨ xpos + r.zoom_ < clip_rect.x ∨ ypos + r.zoom_ < clip_rect.y then some (r, h.2)
    else
      let is_shrouded := shrouded g r x y
      let mask := (g.timeofday_at loc).image_mask
      if !team_valid r.todisplay then none
      else
        let image_type := tile_image_type g r loc
        let ground : Option (List layer) :=
          if !is_shrouded then
            some (draw_terrain_on_tile r x y image_type
                    ADJACENT_TERRAIN_TYPE.ADJACENT_BACKGROUND
              ++ (if (g.get_flag loc).isSome then [layer.flag] else [])
              ++ ((g.overlays_ loc).filter (fun ov => (g.get_image ov).isSome)).map
                  (fun ov => layer.overlay ov image_type))
          else if (g.get_image "terrain/void.png").isSome then some [layer.unseen]
          else none
        match ground with
        | none => some (r, h.2)
        | some ground => do
          let unit_layers ← draw_unit_on_tile g r x y unit_image
          let above :=
            (if !is_shrouded then
              draw_terrain_on_tile r x y image_type ADJACENT_TERRAIN_TYPE.ADJACENT_FOREGROUND
                ++ draw_movement_info g r loc
             else [])
            ++ (if fogged g r x y && shrouded g r x y == false
                    && (g.get_image "terrain/fog.png").isSome
                then [layer.fog] else [])
            ++ (if !shrouded g r x y then
                  draw_terrain_on_tile r x y image_type
                    ADJACENT_TERRAIN_TYPE.ADJACENT_FOGSHROUD
                else [])
            ++ draw_tod_mask g r mask
            ++ (if r.grid_ && (g.get_image "terrain/grid.png").isSome
                then [layer.grid] else [])
            ++ (if g.debug && decide (loc ∈ r.debugHighlights_)
                    && (g.get_image g.cross_image).isSome
                then [layer.cross] else [])
          pure (r, h.2 ++ ground ++ draw_footstep g r loc ++ unit_layers ++ above
              ++ [layer.update_rect xpos ypos r.zoom_ r.zoom_])

/-- The rendering mode as the spec words it, a single value resolved by one
ordered priority rule: brightened for the hover hex or the selected hex with a
visible unit, else semi-brightened when highlighted, else greyed when a paths
list is set and the hex is off its routes, else unmasked when a time-of-day
transition is running or the local mask differs from the global one, else
scaled. -/
def image_type_by_priority (hover selected_with_unit highlighted off_routes
    tod_differs : Bool) : image.TYPE :=
  if hover || selected_with_unit then image.TYPE.BRIGHTENED
  else if highlighted then image.TYPE.SEMI_BRIGHTENED
  else if off_routes then image.TYPE.GREYED
  else if tod_differs then image.TYPE.UNMASKED
  else image.TYPE.SCALED

/-- The cheap reject of `display::draw_tile` for the hex `(x, y)`: the test
that makes it return before drawing. -/
def tile_rejected (r : renderer) (x y : Int) : Prop :=
  get_location_x r.todisplay ⟨x, y⟩ ≥ r.map_area.x + r.map_area.w
    ∨ get_location_y r.todisplay ⟨x, y⟩ ≥ r.map_area.y + r.map_area.h
    ∨ get_location_x r.todisplay ⟨x, y⟩ + r.zoom_ < r.map_area.x
    ∨ get_location_y r.todisplay ⟨x, y⟩ + r.zoom_ < r.map_area.y

/-- The `zoom_` x `zoom_` pixel rectangle of the hex `(x, y)` and the map-area
clip rectangle have no pixel in common; rectangles that only touch count as
disjoint. -/
def tile_disjoint (r : renderer) (x y : Int) : Prop :=
  get_location_x r.todisplay ⟨x, y⟩ ≥ r.map_area.x + r.map_area.w
    ∨ get_location_y r.todisplay ⟨x, y⟩ ≥ r.map_area.y + r.map_area.h
    ∨ get_location_x r.todisplay ⟨x, y⟩ + r.zoom_ ≤ r.map_area.x
    ∨ get_location_y r.todisplay ⟨x, y⟩ + r.zoom_ ≤ r.map_area.y

/-- A layer that draws the content of the hex itself: terrain, village flag,
overlay, movement information or fog. -/
def layer.is_content : layer → Bool
  | layer.terrain _ _ => true
  | layer.flag => true
  | layer.overlay _ _ => true
  | layer.movement_info => true
  | layer.fog => true
  | _ => false

/-- A layer that draws the unit on the hex: its sprite, bars, crown or
overlays. -/
def layer.is_unit : layer → Bool
  | layer.unit_sprite => true
  | layer.energy_bar _ _ _ => true
  | layer.experience_bar => true
  | layer.crown => true
  | layer.unit_overlay _ => true
  | _ => false

/-- A call into the halo manager: bookkeeping, no pixel on the screen. -/
def layer.is_halo : layer → Bool
  | layer.halo_remove _ => true
  | layer.halo_add _ _ _ => true
  | _ => false

/-- Two renderers that differ at most in the halo table. -/
def same_outside_haloes (a b : renderer) : Prop :=
  b = { a with haloes_ := b.haloes_ }

/-- A scene without units, shroud or fog, in which every image is found and no
time-of-day mask is set. -/
def sample_scene : scene :=
  { update_locked := false
    units_ := fun _ => none
    team_shrouded := fun _ => false
    team_fogged := fun _ => false
    is_enemy := fun side => decide (side ≠ 1)
    find_visible_unit := fun _ => false
    on_board := fun loc => decide (0 ≤ loc.x ∧ loc.x < 40 ∧ 0 ≤ loc.y ∧ loc.y < 30)
    get_time_of_day := ⟨"", 0, 0, 0⟩
    get_previous_time_of_day := ⟨"", 0, 0, 0⟩
    timeofday_at := fun _ => ⟨"", 0, 0, 0⟩
    get_image := fun name => some name
    get_flag := fun _ => none
    overlays_ := fun _ => []
    foot_image := fun _ => some "footsteps/foot-left-n.png"
    halo_add := fun _ _ _ => 1
    adjust_surface_alpha := fun s _ => s
    ftofxp_one := 256
    fxpdiv := fun a b => Int.tdiv (a * 256) b
    scroll_speed := 10
    shift_key := false
    tiny_gui := false
    debug := false
    cross_image := "misc/cross.png" }

/-- The members of a freshly constructed `display` over a 40x30 map: nothing
selected, highlighted or routed, no grid, no transition in progress. -/
def sample_renderer : renderer :=
  { todisplay := sample_display
    haloes_ := fun _ => none
    mouseoverHex_ := ⟨-1, -1⟩
    selectedHex_ := ⟨-1, -1⟩
    highlighted_locations_ := []
    pathsList_ := none
    route_steps := []
    route_move_left := 0
    grid_ := false
    debugHighlights_ := []
    hiddenUnit_ := ⟨-1, -1⟩
    hideEnergy_ := false
    tod_hex_mask1 := none
    tod_hex_mask2 := none
    turbo_ := false
    first_turn_ := true }

/-- A scene with a unit that has a halo on hex (20, 0), outside the map area of
`sample_renderer`. -/
def halo_scene : scene :=
  { sample_scene with
    units_ := fun loc =>
      if loc = ⟨20, 0⟩
      then some ⟨"units/mage.png", "halo/light.png", 1, 20, 24, 0, false, false, false, []⟩
      else none }

/-- The sample renderer scrolled right by one hex size, so that the rectangle
of hex (0, 0) ends where the map area starts. -/
def touching_renderer : renderer := { sample_renderer with xpos_ := 72 }

/-- A scene in which the viewing team has not yet seen any hex, at a time of
day with an image mask. -/
def shrouded_scene : scene :=
  { sample_scene with
    team_shrouded := fun _ => true
    get_time_of_day := ⟨"terrain/night.png", 0, 0, 0⟩
    timeofday_at := fun _ => ⟨"terrain/night.png", 0, 0, 0⟩ }

/-- The sample renderer with the grid switched on. -/
def grid_renderer : renderer := { sample_renderer with grid_ := true }

/-! ## Scroll animation and time-of-day transition -/

/-- The two values of `display::SCROLL_TYPE`. -/
inductive SCROLL_TYPE where
  | SCROLL
  | WARP
deriving DecidableEq, Repr

/-- The calls that a multi-step operation of `display` makes, in call order.
A `draw` carries the events of its frame, an `adjust_surface_alpha` the mask it
fades and the opacity asked for. -/
inductive call where
  | pump
  | scroll (xmove ymove : Int)
  | invalidate_all
  | draw (events : List event)
  | adjust_surface_alpha (mask : surface) (proportion : Int)
  | set_image_mask (mask : String)
  | set_colour_adjustment (red green blue : Int)
deriving DecidableEq, Repr

/-- A `draw()` call. -/
def call.is_draw : call → Bool
  | call.draw _ => true
  | _ => false

/-- A `scroll` call. -/
def call.is_scroll : call → Bool
  | call.scroll _ _ => true
  | _ => false

/-- Modelled from the spec: `image::set_image_mask` and
`image::set_colour_adjustment` of `image.cpp` are not among the sources; the
spec has the engine commit "to the new phase's single mask and color
adjustment".  This is the pair of settings the two calls store. -/
structure image_settings where
  image_mask : String
  red : Int
  green : Int
  blue : Int
deriving DecidableEq, Repr

/-- C `abs` on `int`. -/
def abs (a : Int) : Int := if a < 0 then -a else a

/-- One iteration of the loop of `display::scroll_to_tile`: pump the events,
scroll by one step, and draw unless the frame is skipped under turbo.
`ticks i` is what the `draw()` of iteration `i` reads from the clock and the
animations. -/
def scroll_to_tile_step (e : env) (g : scene) (ticks : Nat → tick)
    (xmove ymove num_moves : Int) (acc : renderer × List call) (i : Nat) :
    Option (renderer × List call) := do
  let dx ← cdiv xmove num_moves
  let dy ← cdiv ymove num_moves
  let d ← scroll acc.1.todisplay dx dy
  let r := { acc.1 with todisplay := d }
  let calls := acc.2 ++ [call.pump, call.scroll dx dy]
  if Int.tmod i 4 ≠ 0 ∧ (i : Int) ≠ num_moves - 1 ∧ turbo g r = true then pure (r, calls)
  else do
    let f ← draw e (ticks i) r.todisplay true false
    pure ({ r with todisplay := f.1 }, calls ++ [call.draw f.2])

/-- `display::scroll_to_tile`.  A negative `num_moves` makes the loop
`for(i = 0; i != num_moves; ++i)` run away; that is `none`, as is a division by
zero. -/
def scroll_to_tile (e : env) (g : scene) (ticks : Nat → tick) (r : renderer) (x y : Int)
    (scroll_type : SCROLL_TYPE) (check_fogged : Bool) : Option (renderer × List call) :=
  if g.update_locked || (check_fogged && fogged g r x y) then some (r, [])
  else
    let loc : location := ⟨x, y⟩
    if g.on_board loc = false then some (r, [])
    else do
      let xpos := get_location_x r.todisplay loc
      let ypos := get_location_y r.todisplay loc
      let speed := g.scroll_speed * 2
      let area := r.map_area
      let desiredxpos := Int.tdiv area.w 2 - Int.tdiv r.zoom_ 2
      let desiredypos := Int.tdiv area.h 2 - Int.tdiv r.zoom_ 2
      let xmove := xpos - desiredxpos
      let ymove := ypos - desiredypos
      let num_moves ← cdiv (if abs xmove > abs ymove then abs xmove else abs ymove) speed
      let num_moves := if scroll_type = SCROLL_TYPE.WARP ∨ turbo g r = true then 1 else num_moves
      if num_moves < 0 then none
      else do
        let s ← (List.range num_moves.toNat).foldlM
          (scroll_to_tile_step e g ticks xmove ymove num_moves) (r, [])
        let d := invalidate_all s.1.todisplay
        let f ← draw e (ticks num_moves.toNat) d true false
        pure ({ s.1 with todisplay := f.1 }, s.2 ++ [call.invalidate_all, call.draw f.2])

/-- One iteration of the cross-fade loop of `display::new_turn`: fade the old
mask out and the new mask in, invalidate everything and draw a frame.  The
pacing (`SDL_GetTicks`, `SDL_Delay`) only spends time. -/
def new_turn_step (e : env) (g : scene) (ticks : Nat → tick) (old_mask new_mask : surface)
    (niterations : Int) (acc : renderer × List call) (i : Nat) :
    Option (renderer × List call) := do
  let r := acc.1
  let r :=
    if old_mask ≠ none then
      let proportion := g.ftofxp_one - g.fxpdiv i niterations
      { r with tod_hex_mask1 := g.adjust_surface_alpha old_mask proportion }
    else r
  let r :=
    if new_mask ≠ none then
      let proportion := g.fxpdiv i niterations
      { r with tod_hex_mask2 := g.adjust_surface_alpha new_mask proportion }
    else r
  let faded : List call :=
    (if old_mask ≠ none
      then [call.adjust_surface_alpha old_mask (g.ftofxp_one - g.fxpdiv i niterations)]
      else [])
    ++ (if new_mask ≠ none
      then [call.adjust_surface_alpha new_mask (g.fxpdiv i niterations)] else [])
  let d := invalidate_all r.todisplay
  let f ← draw e (ticks i) d true false
  pure ({ r with todisplay := f.1 },
    acc.2 ++ faded ++ [call.invalidate_all, call.draw f.2])

/-- `display::new_turn`: the renderer and the image settings on return, and the
calls made. -/
def new_turn (e : env) (g : scene) (ticks : Nat → tick) (r : renderer)
    (img : image_settings) : Option (renderer × image_settings × List call) := do
  let tod := g.get_time_of_day
  let s ←
    if !turbo g r && !r.first_turn_ then do
      let img := { img with image_mask := "" }
      let calls := [call.set_image_mask ""]
      let old_tod := g.get_previous_time_of_day
      let s ←
        if old_tod.image_mask ≠ tod.image_mask then
          let old_mask := g.get_image old_tod.image_mask
          let new_mask := g.get_image tod.image_mask
          let niterations : Int := 10
          (List.range niterations.toNat).foldlM
            (new_turn_step e g ticks old_mask new_mask niterations) (r, calls)
        else pure (r, calls)
      pure ({ s.1 with tod_hex_mask1 := none, tod_hex_mask2 := none }, img, s.2)
    else pure (r, img, [])
  let r := { s.1 with first_turn_ := false }
  let img := { s.2.1 with red := tod.red, green := tod.green, blue := tod.blue }
  let img := { img with image_mask := tod.image_mask }
  pure (r, img,
    s.2.2 ++ [call.set_colour_adjustment tod.red tod.green tod.blue,
              call.set_image_mask tod.image_mask])

/-- A scene at dusk, after a day without image mask. -/
def dusk_scene : scene :=
  { sample_scene with
    get_time_of_day := ⟨"terrain/dusk.png", -15, -20, 0⟩
    get_previous_time_of_day := ⟨"", 0, 0, 0⟩
    timeofday_at := fun _ => ⟨"terrain/dusk.png", -15, -20, 0⟩ }

/-- The sample renderer after its first turn. -/
def later_renderer : renderer := { sample_renderer with first_turn_ := false }

/-- The image settings of a day without mask or colour adjustment. -/
def day_settings : image_settings := ⟨"", 0, 0, 0⟩

/-- A unit of side 1 at half of its hit points. -/
def fighter : unit := ⟨"units/fighter.png", "", 1, 10, 20, 0, false, false, false, []⟩

/-- A unit of side 1 at a fifth of its hit points. -/
def archer : unit := ⟨"units/archer.png", "", 1, 2, 10, 0, false, false, false, []⟩

/-- A scene with two units of the viewing side inside the map area: `fighter`
on hex (2, 1) and `archer` on hex (3, 1). -/
def unit_scene : scene :=
  { sample_scene with
    units_ := fun loc =>
      if loc = ⟨2, 1⟩ then some fighter
      else if loc = ⟨3, 1⟩ then some archer
      else none }

/-- The hex nearest the viewport centre: what `pixel_position_to_hex` returns
for the map pixel `(xpos_ + map_area().w/2, ypos_ + map_area().h/2)`. -/
def centre_hex (d : display) : Option location :=
  pixel_position_to_hex d (d.xpos_ + Int.tdiv d.map_area.w 2)
    (d.ypos_ + Int.tdiv d.map_area.h 2)

/-- The hex lies inside the range `(topleft, bottomright)`. -/
def in_hex_bounds (loc : location) (bounds : location × location) : Prop :=
  bounds.1.x ≤ loc.x ∧ loc.x ≤ bounds.2.x ∧ bounds.1.y ≤ loc.y ∧ loc.y ≤ bounds.2.y

/-- A display over an 800x40 map at zoom 21. -/
def long_display : display := display.at_zoom (plain_map 800 40) sample_area 21

/-- A scene in the morning, a time of day without image mask, after a dawn with
one. -/
def morning_scene : scene :=
  { sample_scene with
    get_time_of_day := ⟨"", 0, 0, 0⟩
    get_previous_time_of_day := ⟨"terrain/dawn.png", -10, -10, 0⟩
    timeofday_at := fun _ => ⟨"", 0, 0, 0⟩ }

/-- A display over a map of a single column, five rows high. -/
def column_display : display := display.construct (plain_map 1 5) sample_area 1

/-! ## Frame sequences -/

/-- A sequence of `draw(true, false)` calls, one per tick: the display after the
last call and, for each call, the skip count it found and whether it presented
the buffer. -/
def draw_sequence (e : env) : List tick → display → Option (display × List (Int × Bool))
  | [], d => some (d, [])
  | t :: ts, d => do
    let f ← draw e t d true false
    let rest ← draw_sequence e ts f.1
    pure (rest.1, (d.drawSkips_, decide (event.update_display ∈ f.2)) :: rest.2)

/-- A tick in which nothing is animated, with the two clock readings given. -/
def tick_at (current_time time_after : Int) : tick :=
  { flags_frame_changed := [false]
    update_animation := fun _ => false
    current_time := current_time
    time_after := time_after }

/-- Five frames that each come more than 20 ms after the one before, then a
frame that is on time, then a late frame again. -/
def late_ticks : List tick :=
  [tick_at 100 110, tick_at 200 210, tick_at 300 310, tick_at 400 410, tick_at 500 510,
   tick_at 515 520, tick_at 700 710]

/-! ## Layer order of a visible hex -/

/-- The place of a layer among the twelve that `display::draw_tile` draws on a
hex that is not shrouded, in the order of the source: background terrain (0),
village flag (1), static overlays (2), footstep (3), unit (4), foreground
terrain (5), movement information (6), fog (7), fog/shroud edges (8),
time-of-day masks (9), grid (10), debug highlight (11).  The calls into the
halo manager, the unseen tile of a shrouded hex and the final `update_rect`
are not among them. -/
def layer.stage : layer → Option Nat
  | layer.terrain _ ADJACENT_TERRAIN_TYPE.ADJACENT_BACKGROUND => some 0
  | layer.flag => some 1
  | layer.overlay _ _ => some 2
  | layer.footstep => some 3
  | layer.unit_sprite => some 4
  | layer.energy_bar _ _ _ => some 4
  | layer.experience_bar => some 4
  | layer.crown => some 4
  | layer.unit_overlay _ => some 4
  | layer.terrain _ ADJACENT_TERRAIN_TYPE.ADJACENT_FOREGROUND => some 5
  | layer.movement_info => some 6
  | layer.fog => some 7
  | layer.terrain _ ADJACENT_TERRAIN_TYPE.ADJACENT_FOGSHROUD => some 8
  | layer.tod_hex_mask1 => some 9
  | layer.tod_hex_mask2 => some 9
  | layer.tod_mask _ => some 9
  | layer.grid => some 10
  | layer.cross => some 11
  | _ => none

/-- Both layers are among the twelve, and the second does not precede the
first in their order. -/
def layer.not_after (a b : layer) : Bool :=
  match a.stage, b.stage with
  | some i, some j => decide (i ≤ j)
  | _, _ => false

/-- Every layer of the list is one of the twelve, at a place from `lo` to `hi`,
and no layer of the list comes before one that precedes it in the order. -/
def layer.staged (lo hi : Nat) (l : List layer) : Prop :=
  (∀ ev ∈ l, ∃ s, layer.stage ev = some s ∧ lo ≤ s ∧ s ≤ hi)
    ∧ l.Pairwise (fun a b => layer.not_after a b = true)

/-! ## Cross-fade proportions -/

/-- Modelled from the spec: `fxpdiv` of `util.hpp` is not among the sources; the
spec has "at step i of N, outgoing mask alpha = 1 - i/N, incoming mask alpha =
i/N".  This is the quotient `x / y` on the fixed-point scale on which `one` is
`ftofxp(1.0)`, with the division of C on `int`. -/
def fxpdiv (one x y : Int) : Int := Int.tdiv (x * one) y

/-- A scene at nightfall: the image mask of dusk gives way to that of the
night. -/
def night_scene : scene :=
  { sample_scene with
    get_time_of_day := ⟨"terrain/night.png", -20, -20, 0⟩
    get_previous_time_of_day := ⟨"terrain/dusk.png", -15, -20, 0⟩
    timeofday_at := fun _ => ⟨"terrain/night.png", -20, -20, 0⟩ }

/-! ## Report elements -/

/-- The step of `display::draw_report` that adds the theme item's prefix and
postfix to a report that is not empty, with the reads it makes of the vector:
each read is the position read and the size of the vector at that time.
`report.begin()` is position 0 and `report.end()` is the position equal to the
size; the result is `none` when a read is at or past the end.  The new element
is `reports::element(str, "", tooltip)`: text `str`, no image. -/
def add_affixes (rep : report) (prefix_str postfix_str : String) :
    List (Nat × Nat) × Option report :=
  let first : List (Nat × Nat) × Option report :=
    if prefix_str ≠ "" then
      ([(0, rep.length)], rep[0]?.map (fun b => (⟨"", prefix_str, b.tooltip⟩ : element) :: rep))
    else ([], some rep)
  match first.2 with
  | none => first
  | some rep1 =>
    if postfix_str ≠ "" then
      (first.1 ++ [(rep1.length, rep1.length)],
       rep1[rep1.length]?.map (fun l => rep1 ++ [(⟨"", postfix_str, l.tooltip⟩ : element)]))
    else first

/-- The variables `x`, `y` and `tallest` of the element loop of
`display::draw_report`. -/
structure layout_state where
  x : Int
  y : Int
  tallest : Int
deriving DecidableEq, Repr

/-- What the element loop does with one element: the element, the values of
`x` and `y` when the loop reaches it, whether it is drawn, and the width and
height of the area drawn (zero when the element is skipped). -/
structure placed where
  el : element
  x : Int
  y : Int
  drawn : Bool
  w : Int
  h : Int
deriving DecidableEq, Repr

/-- Conversion of an `int` to the `Uint16` of `SDL_Rect::w` and `SDL_Rect::h`. -/
def to_uint16 (a : Int) : Int := a % 65536

/-- One iteration of the element loop of `display::draw_report`.
`draw_text rect text x y` is the area that `font::draw_text` returns and
`image_size name` the width and height of the surface that `image::get_image`
returns, `none` for `NULL`.  The `int` variables are taken without overflow. -/
def place_element (draw_text : SDL_Rect → String → Int → Int → SDL_Rect)
    (image_size : String → Option (Int × Int)) (rect : SDL_Rect) (s : layout_state)
    (el : element) : layout_state × placed :=
  if el.text.isEmpty = false then
    let area := draw_text rect el.text s.x s.y
    let tallest := if area.h > s.tallest then area.h else s.tallest
    let p : placed := ⟨el, s.x, s.y, true, area.w, area.h⟩
    if el.text.back = '\n' then (⟨rect.x, s.y + tallest, 0⟩, p)
    else (⟨s.x + area.w, s.y, tallest⟩, p)
  else if el.image.isEmpty = false then
    match image_size el.image with
    | none => (s, ⟨el, s.x, s.y, false, 0, 0⟩)
    | some img =>
      let w := to_uint16 (min (rect.w + rect.x - s.x) img.1)
      let h := to_uint16 (min (rect.h + rect.y - s.y) img.2)
      let tallest := if h > s.tallest then h else s.tallest
      (⟨s.x + w, s.y, tallest⟩, ⟨el, s.x, s.y, true, w, h⟩)
  else (s, ⟨el, s.x, s.y, false, 0, 0⟩)

/-- The element loop of `display::draw_report` from a given state. -/
def place_from (draw_text : SDL_Rect → String → Int → Int → SDL_Rect)
    (image_size : String → Option (Int × Int)) (rect : SDL_Rect) :
    layout_state → List element → List placed
  | _, [] => []
  | s, el :: rest =>
    let r := place_element draw_text image_size rect s el
    r.2 :: place_from draw_text image_size rect r.1 rest

/-- The element loop of `display::draw_report`: it starts with
`x = rect.x, y = rect.y` and `tallest = 0`. -/
def place_elements (draw_text : SDL_Rect → String → Int → Int → SDL_Rect)
    (image_size : String → Option (Int × Int)) (rect : SDL_Rect) (rep : report) :
    List placed :=
  place_from draw_text image_size rect ⟨rect.x, rect.y, 0⟩ rep

/-- The layout as the specification words it: the size that the drawing
primitives give for an element drawn at `(x, y)`, and whether it is drawn.  A
text element has the size of the area that the text primitive returns; an
image element that is found has the size of its image, cut to what is left of
the rectangle from `(x, y)` and stored in the `Uint16` members of the area; an
element with neither text nor image, or whose image is not found, is not drawn
and takes no room. -/
def element_area (draw_text : SDL_Rect → String → Int → Int → SDL_Rect)
    (image_size : String → Option (Int × Int)) (rect : SDL_Rect) (el : element)
    (x y : Int) : Bool × Int × Int :=
  if el.text ≠ "" then
    (true, (draw_text rect el.text x y).w, (draw_text rect el.text x y).h)
  else if el.image ≠ "" then
    match image_size el.image with
    | some img =>
      (true, to_uint16 (min (rect.w + rect.x - x) img.1),
        to_uint16 (min (rect.h + rect.y - y) img.2))
    | none => (false, 0, 0)
  else (false, 0, 0)

/-- The layout as the specification words it: a text element whose last
character is a line break ends its line. -/
def ends_line (el : element) : Bool := !el.text.isEmpty && decide (el.text.back = '\n')

/-- The layout as the specification words it: the elements split into the
completed lines, each ending with its line-breaking element, and the elements
of the line still open. -/
def split_lines : List placed → List (List placed) × List placed
  | [] => ([], [])
  | p :: rest =>
    let r := split_lines rest
    if ends_line p.el then ([p] :: r.1, r.2)
    else
      match r.1 with
      | [] => ([], p :: r.2)
      | l :: ls => ((p :: l) :: ls, r.2)

/-- The layout as the specification words it: the height of the tallest
element of a line. -/
def line_height (line : List placed) : Int := (line.map placed.h).foldr max 0

/-- The layout as the specification words it: element `i` goes at
`x = rect.x +` the widths of the elements before it on its line and
`y = rect.y +` the heights of the lines completed before it. -/
def line_position (rect : SDL_Rect) (ps : List placed) (i : Nat) : Int × Int :=
  let lines := split_lines (ps.take i)
  (rect.x + (lines.2.map placed.w).sum, rect.y + (lines.1.map line_height).sum)

/-- A report of one element with a tooltip. -/
def gold_report : report := [⟨"", "100", "Gold"⟩]

/-- A text primitive that draws every character 8 pixels wide and 12 high. -/
def fixed_font (_ : SDL_Rect) (text : String) (x y : Int) : SDL_Rect :=
  ⟨x, y, 8 * text.length, 12⟩

/-- A report of two lines: a label with a line break, then an image and a
number. -/
def two_line_report : report :=
  [⟨"", "Gold:\n", ""⟩, ⟨"misc/gold.png", "", ""⟩, ⟨"", "100", ""⟩]

/-! ## Village flag -/

/-- `display::get_flag(terrain, x, y)`.  `village` is `map_.is_village(terrain)`,
`owns_village i` is `teams_[i].owns_village(loc)` and `flags_ i` the current
frame of `flags_[i]`.  The loop returns at the first team that passes the test.
`teams_[currentTeam_]` is only reached when the hex is fogged, and `fogged` is
false without a valid viewing team. -/
def get_flag (g : scene) (r : renderer) (owns_village : Nat → Bool) (flags_ : Nat → String)
    (village : Bool) (x y : Int) : surface :=
  if !village then none
  else
    match (List.range r.teams_size).find? (fun i =>
        owns_village i
          && (!fogged g r x y || (!shrouded g r x y && !g.is_enemy (i + 1)))) with
    | some i => g.get_image (flags_ i)
    | none => none

/-- The file name of the flag of team `i`. -/
def team_flag (i : Nat) : String := "terrain/flag-team" ++ toString (i + 1) ++ ".png"

/-- A scene in which the viewing team sees every hex through fog. -/
def fogged_scene : scene := { sample_scene with team_fogged := fun _ => true }

/-! ## Footsteps -/

/-- The values of `gamemap::location::DIRECTION`, in the order in which the
direction-name table of `display.cpp` lists them. -/
def NORTH : Nat := 0

def NORTH_EAST : Nat := 1

def SOUTH_EAST : Nat := 2

def SOUTH : Nat := 3

def SOUTH_WEST : Nat := 4

def NORTH_WEST : Nat := 5

/-- The four lists of footstep images of `game_config`. -/
structure foot_config where
  foot_left_n : List String
  foot_left_nw : List String
  foot_right_n : List String
  foot_right_nw : List String

/-- What `display::draw_footstep` hands to `draw_unit`: the image chosen, the
foot, the direction and the two flips. -/
structure footstep where
  image_str : String
  left_foot : Bool
  direction : Nat
  hflip : Bool
  vflip : Bool
deriving DecidableEq, Repr

/-- The choice of `image_category` in `display::draw_footstep`. -/
def foot_category (cfg : foot_config) (left_foot : Bool) (direction : Nat) : List String :=
  if left_foot then
    if direction = NORTH ∨ direction = SOUTH then cfg.foot_left_n else cfg.foot_left_nw
  else
    if direction = NORTH ∨ direction = SOUTH then cfg.foot_right_n else cfg.foot_right_nw

/-- The direction loop of `display::draw_footstep` for the iterator at index
`i`: the first of the six directions in which the step at `i` has the step at
`i + 1` as its neighbour; the loop leaves the last direction when none fits.
`location_get_direction a n` is `a.get_direction(DIRECTION(n))`. -/
def footstep_direction (location_get_direction : location → Nat → location)
    (steps : List location) (i : Nat) : Nat :=
  if i + 1 ≠ steps.length then
    match steps[i]?, steps[i + 1]? with
    | some a, some b =>
      ((List.range 6).find? (fun n => decide (location_get_direction a n = b))).getD 5
    | _, _ => NORTH
  else NORTH

/-- The choice of `image_str` in `display::draw_footstep`: the first image of
the category, or with a unit on the first step of the route the image at the
movement cost minus one, the last image when that is beyond the list. -/
def foot_image_str (image_category : List String) (move_cost : Option Int) : String :=
  let image_str := image_category.headD ""
  match move_cost with
  | some cost =>
    let move_cost := cost - 1
    if move_cost ≥ (image_category.length : Int) then image_category.getLastD ""
    else if move_cost > 0 then image_category.getD move_cost.toNat ""
    else image_str
  | none => image_str

/-- `display::draw_footstep`, with the image it chooses: `none` when it returns
without drawing.  `movement_cost u loc` is
`u.movement_cost(map_, map_.get_terrain(loc))`. -/
def draw_footstep_image (g : scene) (r : renderer) (cfg : foot_config)
    (location_get_direction : location → Nat → location)
    (movement_cost : unit → location → Int) (loc : location) : Option footstep :=
  let i := r.route_steps.indexOf loc
  if i = 0 ∨ i = r.route_steps.length then none
  else
    let left_foot := decide (i % 2 = 0)
    let i := if i + 1 = r.route_steps.length ∧ i ≠ 0 then i - 1 else i
    let direction := footstep_direction location_get_direction r.route_steps i
    let image_category := foot_category cfg left_foot direction
    if image_category.isEmpty then none
    else
      let un := r.route_steps.head?.bind g.units_
      let image_str := foot_image_str image_category (un.map (fun u => movement_cost u loc))
      match g.get_image image_str with
      | none => none
      | some _ =>
        let hflip := !(decide (direction > NORTH) && decide (direction ≤ SOUTH))
        let vflip := decide (direction ≥ SOUTH_EAST) && decide (direction ≤ SOUTH_WEST)
        some ⟨image_str, left_foot, direction, hflip, vflip⟩

/-- The footstep as the specification words it: a value clamped into
`[lo, hi]`. -/
def clamp (v lo hi : Int) : Int := if v < lo then lo else if v > hi then hi else v

/-- The neighbour of a hex in direction `n` on a grid whose odd columns lie
half a hex lower, as `get_location_y` places them. -/
def hex_neighbour (loc : location) (n : Nat) : location :=
  let odd : Int := if loc.x % 2 = 0 then 0 else 1
  match n with
  | 0 => ⟨loc.x, loc.y - 1⟩
  | 1 => ⟨loc.x + 1, loc.y - 1 + odd⟩
  | 2 => ⟨loc.x + 1, loc.y + odd⟩
  | 3 => ⟨loc.x, loc.y + 1⟩
  | 4 => ⟨loc.x - 1, loc.y + odd⟩
  | _ => ⟨loc.x - 1, loc.y - 1 + odd⟩

/-- Footstep lists of three images each. -/
def sample_feet : foot_config :=
  { foot_left_n := ["foot-left-n-1.png", "foot-left-n-2.png", "foot-left-n-3.png"]
    foot_left_nw := ["foot-left-nw-1.png", "foot-left-nw-2.png", "foot-left-nw-3.png"]
    foot_right_n := ["foot-right-n-1.png", "foot-right-n-2.png", "foot-right-n-3.png"]
    foot_right_nw := ["foot-right-nw-1.png", "foot-right-nw-2.png", "foot-right-nw-3.png"] }

/-- The sample renderer with a route of four steps from the fighter's hex
(2, 1): south, south-east, south. -/
def route_renderer : renderer :=
  { sample_renderer with route_steps := [⟨2, 1⟩, ⟨2, 2⟩, ⟨3, 2⟩, ⟨3, 3⟩] }

/-! ## Fog and shroud edges -/

/-- The values that `display::get_fog_shroud_graphics` stores in `tiles`:
`gamemap::FOGGED`, `gamemap::VOID_TERRAIN`, or 0. -/
inductive edge_terrain where
  | zero
  | FOGGED
  | VOID_TERRAIN
deriving DecidableEq, Repr

/-- The table `get_direction(n)` of direction names in `display.cpp`. -/
def get_direction (n : Nat) : String :=
  ["-n", "-ne", "-se", "-s", "-sw", "-nw"].getD (if n ≥ 6 then 0 else n) ""

/-- The innermost loop of `display::get_fog_shroud_graphics`,
`for(int n = 0; *terrain == tiles[i] && n != 6; i = (i+1)%6, ++n)`, with
`6 - n` as first argument: the index `i` and the `name` it ends with. -/
def extend_name (tiles : Nat → edge_terrain) (image_exists : String → Bool)
    (terrain : edge_terrain) : Nat → Nat → String → String → Nat × String
  | 0, i, _, name => (i, name)
  | left + 1, i, stream, name =>
    if terrain ≠ tiles i then (i, name)
    else
      let stream := stream ++ get_direction i
      if !image_exists (stream ++ ".png") then
        (if name.isEmpty then (i + 1) % 6 else i, name)
      else extend_name tiles image_exists terrain left ((i + 1) % 6) stream stream

/-- The loop `for(int i = (start+1)%6, n = 0; i != start && n != 6; ++n)` of
`display::get_fog_shroud_graphics`, with `6 - n` as first argument.
`symbol_image` is `map_.get_terrain_info(*terrain).symbol_image()`. -/
def overlap_names (tiles : Nat → edge_terrain) (image_exists : String → Bool)
    (symbol_image : String) (terrain : edge_terrain) (start : Nat) :
    Nat → Nat → List String → List String
  | 0, _, res => res
  | left + 1, i, res =>
    if i = start then res
    else if tiles i = terrain then
      let e := extend_name tiles image_exists terrain 6 i ("terrain/" ++ symbol_image) ""
      overlap_names tiles image_exists symbol_image terrain start left e.1
        (if !e.2.isEmpty then res ++ [e.2 ++ ".png"] else res)
    else
      overlap_names tiles image_exists symbol_image terrain start left ((i + 1) % 6) res

/-- The body of the loop over `terrain_types` in
`display::get_fog_shroud_graphics`. -/
def terrain_overlaps (tiles : Nat → edge_terrain) (image_exists : String → Bool)
    (symbol_image : edge_terrain → String) (res : List String) (terrain : edge_terrain) :
    List String :=
  let start := ((List.range 6).find? (fun start => decide (tiles start ≠ terrain))).getD 6
  let start := if start = 6 then 0 else start
  overlap_names tiles image_exists (symbol_image terrain) terrain start 6 ((start + 1) % 6) res

/-- `display::get_fog_shroud_graphics`.  `adjacent i` is the hex that
`get_adjacent_tiles` stores at index `i`. -/
def get_fog_shroud_graphics (g : scene) (r : renderer) (adjacent : Nat → location)
    (symbol_image : edge_terrain → String) (image_exists : String → Bool)
    (loc : location) : List String :=
  let tiles : Nat → edge_terrain := fun i =>
    if shrouded g r (adjacent i).x (adjacent i).y then edge_terrain.VOID_TERRAIN
    else if !fogged g r loc.x loc.y && fogged g r (adjacent i).x (adjacent i).y
    then edge_terrain.FOGGED
    else edge_terrain.zero
  [edge_terrain.FOGGED, edge_terrain.VOID_TERRAIN].foldl
    (terrain_overlaps tiles image_exists symbol_image) []

/-- The symbol images of the two edge terrains. -/
def sample_symbol : edge_terrain → String
  | edge_terrain.FOGGED => "fog"
  | edge_terrain.VOID_TERRAIN => "void"
  | edge_terrain.zero => ""

/-- A scene in which the viewing team has seen hex (3, 3) and nothing else. -/
def island_scene : scene :=
  { sample_scene with team_shrouded := fun loc => decide (loc ≠ ⟨3, 3⟩) }

/-- A scene in which, of the neighbours of hex (3, 3), the viewing team has
not seen the northern one and the two southern ones to the east. -/
def coast_scene : scene :=
  { sample_scene with
    team_shrouded := fun loc => decide (loc = ⟨3, 2⟩ ∨ loc = ⟨4, 4⟩ ∨ loc = ⟨3, 4⟩) }

/-! ## Renderer states -/

/-- The states a `display` can be in: the one its constructor makes, and those
that `invalidate`, `invalidate_all`, `draw`, `scroll` and `zoom` make of a
state.  These are the only writers of `invalidateAll_` and `invalidated_`
(`invalidate_animations` is called by `draw` alone), and `map_` is a reference
that `display` never writes; `other` stands for the members of `display` that
leave the tracker and the map alone. -/
inductive reachable (e : env) : display → Prop where
  | construct (map : gamemap) (area : SDL_Rect) (teams : Nat) :
      reachable e (display.construct map area teams)
  | invalidate {d : display} (loc : location) :
      reachable e d → reachable e (invalidate d loc)
  | invalidate_all {d : display} : reachable e d → reachable e (invalidate_all d)
  | draw {d : display} (t : tick) (update force : Bool) (r : display × List event) :
      reachable e d → draw e t d update force = some r → reachable e r.1
  | scroll {d : display} (xmove ymove : Int) (d1 : display) :
      reachable e d → scroll d xmove ymove = some d1 → reachable e d1
  | zoom {d : display} (t : tick) (amount : Int) (r : display × List event) :
      reachable e d → zoom e t d amount = some r → reachable e r.1
  | other {d d1 : display} : reachable e d → same_tracker d d1 → reachable e d1
/-! ## Arithmetic lemmas -/

theorem tdiv_nonneg_eq (a b : Int) (ha : 0 ≤ a) (hb : 0 ≤ b) : Int.tdiv a b = a / b :=
  Int.tdiv_eq_ediv ha hb

theorem tmod_nonneg_eq (a b : Int) (ha : 0 ≤ a) (hb : 0 ≤ b) : Int.tmod a b = a % b :=
  Int.tmod_eq_emod ha hb

/-- Quotient and remainder of `r + b * q` by `b` when `0 ≤ r < b`. -/
theorem ediv_emod_of_decomp (a b q r : Int) (hb : 0 < b) (h : a = r + b * q)
    (h0 : 0 ≤ r) (h1 : r < b) : a / b = q ∧ a % b = r :=
  (Int.ediv_emod_unique hb).2 ⟨h.symm, h0, h1⟩

/-- Truncated division of a number above `-z` by `z > 0` is not negative. -/
theorem tdiv_nonneg_of_gt_neg (a z : Int) (hz : 0 < z) (h : -z < a) : 0 ≤ Int.tdiv a z := by
  by_cases ha : 0 ≤ a
  · exact Int.tdiv_nonneg ha (le_of_lt hz)
  · have h1 : Int.tdiv a z = -(Int.tdiv (-a) z) := by
      rw [← Int.neg_tdiv, neg_neg]
    rw [h1, Int.tdiv_eq_zero_of_lt (by omega) (by omega)]
    simp

/-- Truncated division by `z > 0` of a number below `(c + 1) * z`. -/
theorem tdiv_le_of_lt_mul (a z c : Int) (hz : 0 < z) (hc : 0 ≤ c) (h : a < (c + 1) * z) :
    Int.tdiv a z ≤ c := by
  by_cases ha : 0 ≤ a
  · rw [Int.tdiv_eq_ediv ha (le_of_lt hz)]
    have := Int.ediv_lt_of_lt_mul hz h
    omega
  · have h1 : Int.tdiv a z = -(Int.tdiv (-a) z) := by
      rw [← Int.neg_tdiv, neg_neg]
    have h2 : 0 ≤ Int.tdiv (-a) z := Int.tdiv_nonneg (by omega) (le_of_lt hz)
    omega


/-! ## Viewport lemmas -/

theorem hex_width_ne_zero_zoom (d : display) (h : hex_width d ≠ 0) : d.zoom_ ≠ 0 := by
  intro hz
  apply h
  simp [hex_width, hz]

theorem get_visible_hex_bounds_some (d : display) (h : hex_width d ≠ 0) :
    ∃ b, get_visible_hex_bounds d = some b := by
  have hz := hex_width_ne_zero_zoom d h
  simp only [get_visible_hex_bounds, cdiv, h, hz, if_false, Option.bind_eq_bind,
    Option.some_bind, Option.pure_def]
  exact ⟨_, rfl⟩


theorem get_visible_hex_bounds_congr (a b : display) (h : same_view a b) :
    get_visible_hex_bounds b = get_visible_hex_bounds a := by
  obtain ⟨h1, h2, h3, h4, h5⟩ := h
  simp only [get_visible_hex_bounds, hex_width, h1, h2, h3, h4, h5]

theorem invalidate_animations_eq (t : tick) (d : display) (tl br : location)
    (hb : get_visible_hex_bounds d = some (tl, br)) :
    invalidate_animations t d = some (invalidate_animations_in t d tl br) := by
  simp only [invalidate_animations, invalidate_animations_in, hb, Option.bind_eq_bind,
    Option.some_bind, Option.pure_def]

/-! ## Frame pass lemmas -/


theorem same_outside_sidebar_refl (a : display) : same_outside_sidebar a a := by
  simp [same_outside_sidebar]

theorem same_outside_sidebar_trans {a b c : display} (h1 : same_outside_sidebar a b)
    (h2 : same_outside_sidebar b c) : same_outside_sidebar a c := by
  simp only [same_outside_sidebar] at *
  obtain ⟨a1, a2, a3, a4, a5, a6, a7, a8, a9, a10, a11, a12, a13⟩ := h1
  obtain ⟨b1, b2, b3, b4, b5, b6, b7, b8, b9, b10, b11, b12, b13⟩ := h2
  exact ⟨b1.trans a1, b2.trans a2, b3.trans a3, b4.trans a4, b5.trans a5, b6.trans a6,
    b7.trans a7, b8.trans a8, b9.trans a9, b10.trans a10, b11.trans a11, b12.trans a12,
    b13.trans a13⟩


theorem report_events_nil : report_events [] := by
  intro ev h; cases h

theorem report_events_append {a b : List event} (ha : report_events a)
    (hb : report_events b) : report_events (a ++ b) := by
  intro ev h
  rcases List.mem_append.1 h with h | h
  · exact ha ev h
  · exact hb ev h

theorem draw_report_spec (e : env) (d : display) (n : Nat) :
    same_outside_sidebar d (draw_report e d n).1
      ∧ (draw_report e d n).1.invalidateUnit_ = d.invalidateUnit_
      ∧ (draw_report e d n).1.invalidateGameStatus_ = d.invalidateGameStatus_
      ∧ report_events (draw_report e d n).2 := by
  unfold draw_report
  split
  · exact ⟨same_outside_sidebar_refl d, rfl, rfl, report_events_nil⟩
  · split
    · dsimp only
      split
      · exact ⟨same_outside_sidebar_refl d, rfl, rfl, report_events_nil⟩
      · refine ⟨by simp [same_outside_sidebar], rfl, rfl, ?_⟩
        intro ev h
        exact ⟨n, by simpa using h⟩
    · exact ⟨same_outside_sidebar_refl d, rfl, rfl, report_events_nil⟩

theorem draw_reports_fold_spec (e : env) (rs : List Nat) (d : display) (evs : List event)
    (hev : report_events evs) :
    same_outside_sidebar d
        (rs.foldl (fun acc r => let res := draw_report e acc.1 r; (res.1, acc.2 ++ res.2))
          (d, evs)).1
      ∧ (rs.foldl (fun acc r => let res := draw_report e acc.1 r; (res.1, acc.2 ++ res.2))
          (d, evs)).1.invalidateUnit_ = d.invalidateUnit_
      ∧ (rs.foldl (fun acc r => let res := draw_report e acc.1 r; (res.1, acc.2 ++ res.2))
          (d, evs)).1.invalidateGameStatus_ = d.invalidateGameStatus_
      ∧ report_events
          (rs.foldl (fun acc r => let res := draw_report e acc.1 r; (res.1, acc.2 ++ res.2))
            (d, evs)).2 := by
  induction rs generalizing d evs with
  | nil => exact ⟨same_outside_sidebar_refl d, rfl, rfl, hev⟩
  | cons r rs ih =>
    simp only [List.foldl_cons]
    obtain ⟨h1, h2, h3, h4⟩ := draw_report_spec e d r
    obtain ⟨k1, k2, k3, k4⟩ := ih (draw_report e d r).1 (evs ++ (draw_report e d r).2)
      (report_events_append hev h4)
    exact ⟨same_outside_sidebar_trans h1 k1, k2.trans h2, k3.trans h3, k4⟩

theorem draw_reports_spec (e : env) (d : display) (first last : Nat) :
    same_outside_sidebar d (draw_reports e d first last).1
      ∧ (draw_reports e d first last).1.invalidateUnit_ = d.invalidateUnit_
      ∧ (draw_reports e d first last).1.invalidateGameStatus_ = d.invalidateGameStatus_
      ∧ report_events (draw_reports e d first last).2 :=
  draw_reports_fold_spec e _ d [] report_events_nil

theorem draw_game_status_spec (e : env) (d : display) :
    same_outside_sidebar d (draw_game_status e d).1
      ∧ (draw_game_status e d).1.invalidateUnit_ = d.invalidateUnit_
      ∧ report_events (draw_game_status e d).2 := by
  unfold draw_game_status
  split
  · exact ⟨same_outside_sidebar_refl d, rfl, report_events_nil⟩
  · obtain ⟨h1, h2, _, h4⟩ := draw_reports_spec e d e.STATUS_REPORTS_BEGIN e.STATUS_REPORTS_END
    exact ⟨h1, h2, h4⟩

theorem same_outside_sidebar_set_unit {a b : display} (v : Bool)
    (h : same_outside_sidebar a b) :
    same_outside_sidebar a { b with invalidateUnit_ := v } := h

theorem same_outside_sidebar_set_status {a b : display} (v : Bool)
    (h : same_outside_sidebar a b) :
    same_outside_sidebar a { b with invalidateGameStatus_ := v } := h

theorem draw_sidebar_spec (e : env) (d : display) :
    same_outside_sidebar d (draw_sidebar e d).1 ∧ report_events (draw_sidebar e d).2 := by
  obtain ⟨h1, _, _, h4⟩ := draw_report_spec e d e.REPORT_CLOCK
  unfold draw_sidebar
  simp only []
  split
  · exact ⟨h1, h4⟩
  · split
    · split
      · obtain ⟨k1, _, _, k4⟩ := draw_reports_spec e (draw_report e d e.REPORT_CLOCK).1
          e.UNIT_REPORTS_BEGIN e.UNIT_REPORTS_END
        split
        · obtain ⟨g1, _, g4⟩ := draw_game_status_spec e
            { (draw_reports e (draw_report e d e.REPORT_CLOCK).1
                e.UNIT_REPORTS_BEGIN e.UNIT_REPORTS_END).1 with invalidateUnit_ := false }
          exact ⟨same_outside_sidebar_trans (same_outside_sidebar_trans h1 k1) g1,
            report_events_append (report_events_append h4 k4) g4⟩
        · exact ⟨same_outside_sidebar_trans h1 k1,
            report_events_append (report_events_append h4 k4) report_events_nil⟩
      · split
        · obtain ⟨g1, _, g4⟩ := draw_game_status_spec e
            { (draw_report e d e.REPORT_CLOCK).1 with invalidateUnit_ := false }
          exact ⟨same_outside_sidebar_trans h1 g1,
            report_events_append (report_events_append h4 report_events_nil) g4⟩
        · exact ⟨h1, report_events_append (report_events_append h4 report_events_nil)
            report_events_nil⟩
    · split
      · obtain ⟨g1, _, g4⟩ := draw_game_status_spec e (draw_report e d e.REPORT_CLOCK).1
        exact ⟨same_outside_sidebar_trans h1 g1,
          report_events_append (report_events_append h4 report_events_nil) g4⟩
      · exact ⟨h1, report_events_append (report_events_append h4 report_events_nil)
          report_events_nil⟩


theorem draw_panels_view (e : env) (f : frame) : same_view f.d (draw_panels e f).d := by
  unfold draw_panels
  split <;> simp [same_view]

theorem draw_tiles_eq (tl br : location) (f : frame)
    (hb : get_visible_hex_bounds f.d = some (tl, br)) :
    draw_tiles f = some (draw_tiles_in tl br f) := by
  unfold draw_tiles draw_tiles_in
  split
  · simp only [hb, Option.bind_eq_bind, Option.some_bind, Option.pure_def]
  · split <;> rfl

theorem draw_eq (e : env) (t : tick) (d : display) (update force : Bool) (tl br : location)
    (hb : get_visible_hex_bounds d = some (tl, br)) :
    draw e t d update force = some (draw_in e t d update force tl br) := by
  have h1 : get_visible_hex_bounds
      (draw_panels e { d := invalidate_animations_in t d tl br, events := [],
                       changed := false }).d = some (tl, br) := by
    rw [get_visible_hex_bounds_congr d _ ?_]
    · exact hb
    · have := draw_panels_view e
        { d := invalidate_animations_in t d tl br, events := [], changed := false }
      obtain ⟨a1, a2, a3, a4, a5⟩ := this
      exact ⟨a1, a2, a3, a4, a5⟩
  simp only [draw, invalidate_animations_eq t d tl br hb, Option.bind_eq_bind,
    Option.some_bind, draw_tiles_eq tl br _ h1, Option.pure_def, draw_in]

theorem draw_some (e : env) (t : tick) (d : display) (update force : Bool)
    (hw : hex_width d ≠ 0) :
    ∃ tl br, get_visible_hex_bounds d = some (tl, br)
      ∧ draw e t d update force = some (draw_in e t d update force tl br) := by
  obtain ⟨⟨tl, br⟩, hb⟩ := get_visible_hex_bounds_some d hw
  exact ⟨tl, br, hb, draw_eq e t d update force tl br hb⟩

theorem draw_sidebar_xpos (e : env) (d : display) : (draw_sidebar e d).1.xpos_ = d.xpos_ :=
  (draw_sidebar_spec e d).1.1

theorem draw_sidebar_ypos (e : env) (d : display) : (draw_sidebar e d).1.ypos_ = d.ypos_ :=
  (draw_sidebar_spec e d).1.2.1

theorem draw_sidebar_zoom (e : env) (d : display) : (draw_sidebar e d).1.zoom_ = d.zoom_ :=
  (draw_sidebar_spec e d).1.2.2.1

theorem draw_sidebar_map (e : env) (d : display) : (draw_sidebar e d).1.map_ = d.map_ :=
  (draw_sidebar_spec e d).1.2.2.2.1

theorem draw_sidebar_map_area (e : env) (d : display) :
    (draw_sidebar e d).1.map_area = d.map_area :=
  (draw_sidebar_spec e d).1.2.2.2.2.1

theorem draw_sidebar_teams_size (e : env) (d : display) :
    (draw_sidebar e d).1.teams_size = d.teams_size :=
  (draw_sidebar_spec e d).1.2.2.2.2.2.1

theorem draw_sidebar_currentTeam (e : env) (d : display) :
    (draw_sidebar e d).1.currentTeam_ = d.currentTeam_ :=
  (draw_sidebar_spec e d).1.2.2.2.2.2.2.1

theorem draw_sidebar_redrawMinimap (e : env) (d : display) :
    (draw_sidebar e d).1.redrawMinimap_ = d.redrawMinimap_ :=
  (draw_sidebar_spec e d).1.2.2.2.2.2.2.2.1

theorem draw_sidebar_lastDraw (e : env) (d : display) :
    (draw_sidebar e d).1.lastDraw_ = d.lastDraw_ :=
  (draw_sidebar_spec e d).1.2.2.2.2.2.2.2.2.1

theorem draw_sidebar_drawSkips (e : env) (d : display) :
    (draw_sidebar e d).1.drawSkips_ = d.drawSkips_ :=
  (draw_sidebar_spec e d).1.2.2.2.2.2.2.2.2.2.1

theorem draw_sidebar_invalidateAll (e : env) (d : display) :
    (draw_sidebar e d).1.invalidateAll_ = d.invalidateAll_ :=
  (draw_sidebar_spec e d).1.2.2.2.2.2.2.2.2.2.2.1

theorem draw_sidebar_invalidated (e : env) (d : display) :
    (draw_sidebar e d).1.invalidated_ = d.invalidated_ :=
  (draw_sidebar_spec e d).1.2.2.2.2.2.2.2.2.2.2.2.1

theorem draw_sidebar_panelsDrawn (e : env) (d : display) :
    (draw_sidebar e d).1.panelsDrawn_ = d.panelsDrawn_ :=
  (draw_sidebar_spec e d).1.2.2.2.2.2.2.2.2.2.2.2.2

theorem same_view_refl (a : display) : same_view a a := by
  simp [same_view]

theorem same_view_trans {a b c : display} (h1 : same_view a b) (h2 : same_view b c) :
    same_view a c := by
  obtain ⟨a1, a2, a3, a4, a5⟩ := h1
  obtain ⟨b1, b2, b3, b4, b5⟩ := h2
  exact ⟨b1.trans a1, b2.trans a2, b3.trans a3, b4.trans a4, b5.trans a5⟩

theorem invalidate_animations_in_view (t : tick) (d : display) (tl br : location) :
    same_view d (invalidate_animations_in t d tl br) := by
  simp [same_view, invalidate_animations_in]

theorem draw_tiles_in_view (tl br : location) (f : frame) :
    same_view f.d (draw_tiles_in tl br f).d := by
  unfold draw_tiles_in
  split
  · simp [same_view]
  · split <;> simp [same_view]

theorem draw_minimap_step_view (f : frame) : same_view f.d (draw_minimap_step f).d := by
  unfold draw_minimap_step
  split <;> simp [same_view]

theorem draw_sidebar_step_view (e : env) (f : frame) :
    same_view f.d (draw_sidebar_step e f).d := by
  unfold draw_sidebar_step
  split
  · exact ⟨draw_sidebar_xpos e f.d, draw_sidebar_ypos e f.d, draw_sidebar_zoom e f.d,
      draw_sidebar_map e f.d, draw_sidebar_map_area e f.d⟩
  · exact same_view_refl _

theorem draw_present_view (t : tick) (update force : Bool) (f : frame) :
    same_view f.d (draw_present t update force f).1 := by
  unfold draw_present
  dsimp only
  split
  · split
    · split <;> simp [same_view]
    · simp [same_view]
  · exact same_view_refl _

/-- A frame pass does not move the viewport. -/
theorem draw_in_view (e : env) (t : tick) (d : display) (update force : Bool)
    (tl br : location) : same_view d (draw_in e t d update force tl br).1 := by
  unfold draw_in
  exact same_view_trans (invalidate_animations_in_view t d tl br)
    (same_view_trans (draw_panels_view e _)
      (same_view_trans (draw_tiles_in_view tl br _)
        (same_view_trans (draw_minimap_step_view _)
          (same_view_trans (draw_sidebar_step_view e _) (draw_present_view t update force _)))))


/-! ## Viewport manager -/

theorem MinZoom_eq (map : gamemap) (viewport : SDL_Rect)
    (hx : Int.tdiv (map.x * 3) 4 ≠ 0) (hy : map.y ≠ 0) :
    MinZoom map viewport
      = some (maximum (Int.tdiv viewport.w (Int.tdiv (map.x * 3) 4))
          (Int.tdiv viewport.h map.y)) := by
  simp only [MinZoom, cdiv, hx, hy, if_false, Option.bind_eq_bind, Option.some_bind,
    Option.pure_def]

theorem bounds_check_position_eq (d : display) (m : Int)
    (hmin : MinZoom d.map_ d.map_area = some m) :
    bounds_check_position d = some (clamp_near_edge (clamp_far_edge (clamp_zoom m d))) := by
  simp only [bounds_check_position, hmin, Option.bind_eq_bind, Option.some_bind,
    Option.pure_def, clamp_near_edge, clamp_far_edge, clamp_zoom]

theorem clamp_zoom_spec (m : Int) (d : display) :
    (clamp_zoom m d).zoom_
        = (if (if d.zoom_ < m then m else d.zoom_) > MaxZoom then MaxZoom
           else (if d.zoom_ < m then m else d.zoom_))
      ∧ (clamp_zoom m d).xpos_ = d.xpos_ ∧ (clamp_zoom m d).ypos_ = d.ypos_
      ∧ same_outside_view d (clamp_zoom m d) := by
  unfold clamp_zoom same_outside_view
  dsimp only
  split_ifs <;> simp_all

theorem clamp_far_edge_spec (d : display) :
    (clamp_far_edge d).zoom_ = d.zoom_
      ∧ (clamp_far_edge d).xpos_
          = (if d.xpos_ + d.map_area.w > map_pixel_width d
             then map_pixel_width d - d.map_area.w else d.xpos_)
      ∧ (clamp_far_edge d).ypos_
          = (if d.ypos_ + d.map_area.h > map_pixel_height d
             then map_pixel_height d - d.map_area.h else d.ypos_)
      ∧ same_outside_view d (clamp_far_edge d) := by
  unfold clamp_far_edge same_outside_view map_pixel_width map_pixel_height
  dsimp only
  split_ifs <;> simp_all <;> omega

theorem clamp_near_edge_spec (d : display) :
    (clamp_near_edge d).zoom_ = d.zoom_
      ∧ (clamp_near_edge d).xpos_ = (if d.xpos_ < 0 then 0 else d.xpos_)
      ∧ (clamp_near_edge d).ypos_ = (if d.ypos_ < 0 then 0 else d.ypos_)
      ∧ same_outside_view d (clamp_near_edge d) := by
  unfold clamp_near_edge same_outside_view
  dsimp only
  split_ifs <;> simp_all

theorem same_outside_view_trans {a b c : display} (h1 : same_outside_view a b)
    (h2 : same_outside_view b c) : same_outside_view a c := by
  simp only [same_outside_view] at *
  obtain ⟨a1, a2, a3, a4, a5, a6, a7, a8, a9, a10, a11, a12, a13, a14⟩ := h1
  obtain ⟨b1, b2, b3, b4, b5, b6, b7, b8, b9, b10, b11, b12, b13, b14⟩ := h2
  exact ⟨b1.trans a1, b2.trans a2, b3.trans a3, b4.trans a4, b5.trans a5, b6.trans a6,
    b7.trans a7, b8.trans a8, b9.trans a9, b10.trans a10, b11.trans a11, b12.trans a12,
    b13.trans a13, b14.trans a14⟩

theorem map_pixel_width_congr {a b : display} (h1 : b.zoom_ = a.zoom_)
    (h2 : b.map_ = a.map_) : map_pixel_width b = map_pixel_width a := by
  simp only [map_pixel_width, hex_width, h1, h2]

theorem map_pixel_height_congr {a b : display} (h1 : b.zoom_ = a.zoom_)
    (h2 : b.map_ = a.map_) : map_pixel_height b = map_pixel_height a := by
  simp only [map_pixel_height, h1, h2]

/-- What `bounds_check_position` leaves: the zoom level raised to `min_zoom`
and then lowered to `MaxZoom`, a clamped scroll offset, and nothing else
changed. -/
theorem bounds_check_position_spec (d : display) (m : Int)
    (hmin : MinZoom d.map_ d.map_area = some m) :
    ∃ d', bounds_check_position d = some d'
      ∧ d'.zoom_ = (if (if d.zoom_ < m then m else d.zoom_) > MaxZoom then MaxZoom
                    else (if d.zoom_ < m then m else d.zoom_))
      ∧ viewport_clamped d' ∧ same_outside_view d d' := by
  refine ⟨_, bounds_check_position_eq d m hmin, ?_, ?_, ?_⟩
  · rw [(clamp_near_edge_spec _).1, (clamp_far_edge_spec _).1, (clamp_zoom_spec m d).1]
  · obtain ⟨z1, x1, y1, o1⟩ := clamp_zoom_spec m d
    obtain ⟨z2, x2, y2, o2⟩ := clamp_far_edge_spec (clamp_zoom m d)
    obtain ⟨z3, x3, y3, o3⟩ := clamp_near_edge_spec (clamp_far_edge (clamp_zoom m d))
    have hw := map_pixel_width_congr (z3.trans z2) (o3.1.trans o2.1)
    have hh := map_pixel_height_congr (z3.trans z2) (o3.1.trans o2.1)
    have ha : (clamp_near_edge (clamp_far_edge (clamp_zoom m d))).map_area
        = (clamp_zoom m d).map_area := o3.2.1.trans o2.2.1
    unfold viewport_clamped maximum
    rw [hw, hh, ha, x3, y3, x2, y2]
    split_ifs <;> omega
  · exact same_outside_view_trans (clamp_zoom_spec m d).2.2.2
      (same_outside_view_trans (clamp_far_edge_spec _).2.2.2 (clamp_near_edge_spec _).2.2.2)

theorem viewport_clamped_of_same_view {a b : display} (h : same_view a b)
    (ha : viewport_clamped a) : viewport_clamped b := by
  obtain ⟨h1, h2, h3, h4, h5⟩ := h
  unfold viewport_clamped at *
  rw [map_pixel_width_congr h3 h4, map_pixel_height_congr h3 h4, h1, h2, h5]
  exact ha

theorem invalidate_all_view (d : display) : same_view d (invalidate_all d) := by
  simp [same_view, invalidate_all]

theorem scroll_spec (d : display) (xmove ymove m : Int)
    (hmin : MinZoom d.map_ d.map_area = some m) :
    ∃ d', scroll d xmove ymove = some d' ∧ viewport_clamped d'
      ∧ d'.zoom_ = (if (if d.zoom_ < m then m else d.zoom_) > MaxZoom then MaxZoom
                    else (if d.zoom_ < m then m else d.zoom_)) := by
  obtain ⟨d1, h1, hz, hc, _⟩ := bounds_check_position_spec
    { d with xpos_ := d.xpos_ + xmove, ypos_ := d.ypos_ + ymove } m hmin
  simp only [scroll, h1, Option.bind_eq_bind, Option.some_bind, Option.pure_def]
  split
  · exact ⟨_, rfl, viewport_clamped_of_same_view (invalidate_all_view d1) hc, hz⟩
  · exact ⟨_, rfl, hc, hz⟩

theorem hex_width_ne_zero_of_two_le (d : display) (h : 2 ≤ d.zoom_) : hex_width d ≠ 0 := by
  unfold hex_width
  rw [tdiv_nonneg_eq _ _ (by omega) (by decide)]
  omega

/-- An accepted `zoom`: the offset is rescaled, the zoom level set, the
position clamped, and one full frame drawn. -/
theorem zoom_accepted_spec (e : env) (t : tick) (d : display) (amount m : Int)
    (hmin : MinZoom d.map_ d.map_area = some m) (hz : d.zoom_ ≠ 0)
    (hacc : zoom_accepted d amount m) (hnew : 2 ≤ d.zoom_ + amount) :
    ∃ r, zoom e t d amount = some r ∧ r.1.zoom_ = d.zoom_ + amount
      ∧ viewport_clamped r.1 := by
  obtain ⟨ha, ht, hlo, hhi⟩ := hacc
  obtain ⟨d1, h1, hzoom, hc, _⟩ := bounds_check_position_spec
    { d with
      xpos_ := d.xpos_ + Int.tdiv ((d.xpos_ + Int.tdiv d.map_area.w 2) * amount) d.zoom_,
      ypos_ := d.ypos_ + Int.tdiv ((d.ypos_ + Int.tdiv d.map_area.h 2) * amount) d.zoom_,
      zoom_ := d.zoom_ + amount } m hmin
  have hz1 : d1.zoom_ = d.zoom_ + amount := by
    rw [hzoom]
    dsimp only
    rw [if_neg (by omega), if_neg (by omega)]
  have hw : hex_width (invalidate_all d1) ≠ 0 :=
    hex_width_ne_zero_of_two_le _ (by
      have : (invalidate_all d1).zoom_ = d1.zoom_ := rfl
      omega)
  obtain ⟨tl, br, _, hdraw⟩ := draw_some e t (invalidate_all d1) true false hw
  have hview := same_view_trans (invalidate_all_view d1)
    (draw_in_view e t (invalidate_all d1) true false tl br)
  refine ⟨draw_in e t (invalidate_all d1) true false tl br, ?_, ?_, ?_⟩
  · simp only [zoom, ha, ht, hmin, hlo, hhi, cdiv, hz, ne_eq, not_false_eq_true, and_self,
      if_true, if_false, Option.bind_eq_bind, Option.some_bind, h1, hdraw, ge_iff_le]
  · rw [hview.2.2.1]; exact hz1
  · exact viewport_clamped_of_same_view hview hc

/-- A rejected `zoom` changes nothing and draws nothing. -/
theorem zoom_rejected_spec (e : env) (t : tick) (d : display) (amount m : Int)
    (hmin : MinZoom d.map_ d.map_area = some m) (hrej : ¬ zoom_accepted d amount m) :
    zoom e t d amount = some (d, []) := by
  unfold zoom_accepted at hrej
  unfold zoom
  dsimp only
  split
  · rename_i h
    simp only [hmin, Option.bind_eq_bind, Option.some_bind]
    split
    · rename_i h2
      exact absurd ⟨h.1, h.2, h2.1, h2.2⟩ hrej
    · rfl
  · rfl


/-! ## Invalidation tracker -/

theorem location.lt_iff (a b : location) :
    location.lt a b = true ↔ a.x < b.x ∨ (a.x = b.x ∧ a.y < b.y) := by
  simp [location.lt]

theorem location.lt_irrefl (a : location) : ¬ location.lt a a = true := by
  rw [location.lt_iff]; omega

theorem location.lt_trans {a b c : location} (h1 : location.lt a b = true)
    (h2 : location.lt b c = true) : location.lt a c = true := by
  rw [location.lt_iff] at *; omega

/-- Two locations of which neither is below the other are the same. -/
theorem location.eq_of_not_lt {a b : location} (h1 : ¬ location.lt a b = true)
    (h2 : ¬ location.lt b a = true) : a = b := by
  rw [location.lt_iff] at *
  cases a; cases b
  simp only [location.mk.injEq] at *
  omega

theorem mem_set_insert (l x : location) (s : List location) :
    x ∈ set_insert l s ↔ x = l ∨ x ∈ s := by
  induction s with
  | nil => simp [set_insert]
  | cons h t ih =>
    unfold set_insert
    split
    · simp
    · split
      · simp only [List.mem_cons, ih]
        tauto
      · rename_i h1 h2
        have : l = h := location.eq_of_not_lt h1 h2
        subst this
        simp

theorem set_sorted_insert (l : location) (s : List location) (hs : set_sorted s) :
    set_sorted (set_insert l s) := by
  unfold set_sorted at *
  induction s with
  | nil => simp [set_insert]
  | cons h t ih =>
    unfold set_insert
    rw [List.pairwise_cons] at hs
    split
    · rename_i hlt
      rw [List.pairwise_cons]
      refine ⟨?_, List.pairwise_cons.2 hs⟩
      intro b hb
      rcases List.mem_cons.1 hb with rfl | hb
      · exact hlt
      · exact location.lt_trans hlt (hs.1 b hb)
    · split
      · rename_i hgt
        rw [List.pairwise_cons]
        refine ⟨?_, ih hs.2⟩
        intro b hb
        rcases (mem_set_insert l b t).1 hb with rfl | hb
        · exact hgt
        · exact hs.1 b hb
      · exact List.pairwise_cons.2 hs

theorem set_sorted_nodup (s : List location) (hs : set_sorted s) : s.Nodup := by
  unfold set_sorted at hs
  unfold List.Nodup
  exact hs.imp (fun {a b} h hab => by subst hab; exact location.lt_irrefl a h)

theorem invalidate_animations_in_invalidated (t : tick) (d : display) (tl br : location) :
    (invalidate_animations_in t d tl br).invalidated_
      = mark_animated t d.map_ (hex_range tl br) d.invalidated_ := rfl

theorem mark_animated_still (t : tick) (map : gamemap) (locs s : List location)
    (ht : tick.still t) : mark_animated t map locs s = s := by
  unfold mark_animated
  induction locs generalizing s with
  | nil => rfl
  | cons l ls ih =>
    rw [List.foldl_cons, if_neg (by simp [ht.1, ht.2 l])]
    exact ih s

theorem mark_animated_sorted (t : tick) (map : gamemap) (locs s : List location)
    (hs : set_sorted s) : set_sorted (mark_animated t map locs s) := by
  unfold mark_animated
  induction locs generalizing s with
  | nil => exact hs
  | cons l ls ih =>
    simp only [List.foldl_cons]
    split
    · exact ih _ (set_sorted_insert l s hs)
    · exact ih _ hs

theorem mem_mark_animated (t : tick) (map : gamemap) (locs s : List location)
    (x : location) :
    x ∈ mark_animated t map locs s
      ↔ x ∈ s ∨ (x ∈ locs
          ∧ (t.update_animation x || (map.is_village x && t.flags_frame_changed.any id))
              = true) := by
  unfold mark_animated
  induction locs generalizing s with
  | nil => simp
  | cons l ls ih =>
    simp only [List.foldl_cons]
    rw [ih]
    split
    · rename_i hl
      rw [mem_set_insert]
      constructor
      · rintro ((rfl | h) | h)
        · exact Or.inr ⟨List.mem_cons_self _ _, hl⟩
        · exact Or.inl h
        · exact Or.inr ⟨List.mem_cons_of_mem _ h.1, h.2⟩
      · rintro (h | ⟨h1, h2⟩)
        · exact Or.inl (Or.inr h)
        · rcases List.mem_cons.1 h1 with rfl | h1
          · exact Or.inl (Or.inl rfl)
          · exact Or.inr ⟨h1, h2⟩
    · rename_i hl
      constructor
      · rintro (h | h)
        · exact Or.inl h
        · exact Or.inr ⟨List.mem_cons_of_mem _ h.1, h.2⟩
      · rintro (h | ⟨h1, h2⟩)
        · exact Or.inl h
        · rcases List.mem_cons.1 h1 with rfl | h1
          · exact absurd h2 hl
          · exact Or.inr ⟨h1, h2⟩

theorem tiles_drawn_append (a b : List event) :
    tiles_drawn (a ++ b) = tiles_drawn a ++ tiles_drawn b := by
  simp [tiles_drawn, List.filterMap_append]

theorem tiles_drawn_tiles (s : List location) :
    tiles_drawn (s.map (fun l => event.draw_tile l.x l.y)) = s := by
  induction s with
  | nil => rfl
  | cons h t ih =>
    simp only [tiles_drawn, List.map_cons, List.filterMap_cons] at *
    rw [ih]

theorem tiles_drawn_panels (n : Nat) :
    tiles_drawn ((List.range n).map event.draw_panel) = [] := by
  simp [tiles_drawn, List.filterMap_map]

theorem tiles_drawn_labels (n : Nat) :
    tiles_drawn ((List.range n).map event.draw_label) = [] := by
  simp [tiles_drawn, List.filterMap_map]

theorem tiles_drawn_reports (evs : List event) (h : report_events evs) :
    tiles_drawn evs = [] := by
  induction evs with
  | nil => rfl
  | cons ev evs ih =>
    obtain ⟨n, rfl⟩ := h ev (List.mem_cons_self _ _)
    have := ih (fun x hx => h x (List.mem_cons_of_mem _ hx))
    simp only [tiles_drawn, List.filterMap_cons] at *
    exact this

theorem same_tracker_refl (a : display) : same_tracker a a := ⟨rfl, rfl, rfl⟩

theorem same_tracker_trans {a b c : display} (h1 : same_tracker a b)
    (h2 : same_tracker b c) : same_tracker a c :=
  ⟨h2.1.trans h1.1, h2.2.1.trans h1.2.1, h2.2.2.trans h1.2.2⟩

theorem draw_panels_tracker (e : env) (f : frame) :
    same_tracker f.d (draw_panels e f).d
      ∧ tiles_drawn (draw_panels e f).events = tiles_drawn f.events := by
  unfold draw_panels
  split
  · refine ⟨⟨rfl, rfl, rfl⟩, ?_⟩
    simp only [tiles_drawn_append, tiles_drawn_panels, tiles_drawn_labels, List.append_nil]
  · exact ⟨same_tracker_refl _, rfl⟩

theorem draw_minimap_step_tracker (f : frame) :
    same_tracker f.d (draw_minimap_step f).d
      ∧ tiles_drawn (draw_minimap_step f).events = tiles_drawn f.events := by
  unfold draw_minimap_step
  split
  · refine ⟨⟨rfl, rfl, rfl⟩, ?_⟩
    simp [tiles_drawn_append, tiles_drawn]
  · exact ⟨same_tracker_refl _, rfl⟩

theorem draw_sidebar_step_tracker (e : env) (f : frame) :
    same_tracker f.d (draw_sidebar_step e f).d
      ∧ tiles_drawn (draw_sidebar_step e f).events = tiles_drawn f.events := by
  unfold draw_sidebar_step
  split
  · refine ⟨⟨draw_sidebar_invalidateAll e f.d, draw_sidebar_invalidated e f.d,
      draw_sidebar_map e f.d⟩, ?_⟩
    simp only [tiles_drawn_append, tiles_drawn_reports _ (draw_sidebar_spec e f.d).2,
      List.append_nil]
  · exact ⟨same_tracker_refl _, rfl⟩

theorem draw_present_tracker (t : tick) (update force : Bool) (f : frame) :
    same_tracker f.d (draw_present t update force f).1
      ∧ tiles_drawn (draw_present t update force f).2 = tiles_drawn f.events := by
  unfold draw_present
  dsimp only
  split
  · split
    · split
      · refine ⟨⟨rfl, rfl, rfl⟩, ?_⟩
        simp [tiles_drawn_append, tiles_drawn]
      · exact ⟨⟨rfl, rfl, rfl⟩, rfl⟩
    · exact ⟨⟨rfl, rfl, rfl⟩, rfl⟩
  · exact ⟨same_tracker_refl _, rfl⟩

/-- The part of a frame pass after the invalidation has been consumed leaves
the tracker alone and draws no tile. -/
theorem draw_after_tiles_tracker (e : env) (t : tick) (update force : Bool) (f : frame) :
    same_tracker f.d
        (draw_present t update force (draw_sidebar_step e (draw_minimap_step f))).1
      ∧ tiles_drawn
          (draw_present t update force (draw_sidebar_step e (draw_minimap_step f))).2
        = tiles_drawn f.events := by
  obtain ⟨a1, a2⟩ := draw_minimap_step_tracker f
  obtain ⟨b1, b2⟩ := draw_sidebar_step_tracker e (draw_minimap_step f)
  obtain ⟨c1, c2⟩ := draw_present_tracker t update force
    (draw_sidebar_step e (draw_minimap_step f))
  exact ⟨same_tracker_trans a1 (same_tracker_trans b1 c1), c2.trans (b2.trans a2)⟩

theorem draw_tiles_in_sentinel (tl br : location) (f : frame) (h1 : f.d.invalidateAll_ = true)
    (h2 : f.d.map_.empty = false) :
    (draw_tiles_in tl br f).d.invalidateAll_ = false
      ∧ (draw_tiles_in tl br f).d.invalidated_ = f.d.invalidated_
      ∧ (draw_tiles_in tl br f).d.map_ = f.d.map_
      ∧ tiles_drawn (draw_tiles_in tl br f).events
          = tiles_drawn f.events ++ hex_range tl br := by
  unfold draw_tiles_in
  rw [if_pos (by simp [h1, h2])]
  refine ⟨rfl, rfl, rfl, ?_⟩
  simp only [tiles_drawn_append, tiles_drawn_tiles]

theorem draw_tiles_in_dirty (tl br : location) (f : frame)
    (h1 : f.d.invalidateAll_ = false) (h2 : f.d.map_.empty = false) :
    (draw_tiles_in tl br f).d.invalidateAll_ = false
      ∧ (draw_tiles_in tl br f).d.invalidated_ = []
      ∧ (draw_tiles_in tl br f).d.map_ = f.d.map_
      ∧ tiles_drawn (draw_tiles_in tl br f).events
          = tiles_drawn f.events ++ f.d.invalidated_ := by
  unfold draw_tiles_in
  rw [if_neg (by simp [h1]), if_pos (by simp [h2])]
  refine ⟨h1, rfl, rfl, ?_⟩
  simp only [tiles_drawn_append, tiles_drawn_tiles]

/-- A frame that starts ALL_DIRTY on a non-empty map: `draw_tile` is called for
the hexes of the visible range, in loop order, the sentinel is cleared, and the
dirty set is what `invalidate_animations` made of it. -/
theorem draw_in_sentinel (e : env) (t : tick) (d : display) (update force : Bool)
    (tl br : location) (h1 : d.invalidateAll_ = true) (h2 : d.map_.empty = false) :
    tiles_drawn (draw_in e t d update force tl br).2 = hex_range tl br
      ∧ (draw_in e t d update force tl br).1.invalidateAll_ = false
      ∧ (draw_in e t d update force tl br).1.invalidated_
          = mark_animated t d.map_ (hex_range tl br) d.invalidated_ := by
  unfold draw_in
  obtain ⟨p1, p2⟩ := draw_panels_tracker e
    { d := invalidate_animations_in t d tl br, events := [], changed := false }
  obtain ⟨q1, q2, q3, q4⟩ := draw_tiles_in_sentinel tl br
    (draw_panels e { d := invalidate_animations_in t d tl br, events := [],
                     changed := false })
    (p1.1.trans h1) (by rw [p1.2.2]; exact h2)
  obtain ⟨r1, r2⟩ := draw_after_tiles_tracker e t update force
    (draw_tiles_in tl br
      (draw_panels e { d := invalidate_animations_in t d tl br, events := [],
                       changed := false }))
  refine ⟨?_, r1.1.trans q1, ?_⟩
  · rw [r2, q4, p2]; rfl
  · rw [r1.2.1, q2, p1.2.1]; rfl

/-- A frame that starts PARTIAL on a non-empty map: `draw_tile` is called for
the hexes of the dirty set as `invalidate_animations` left it, in set order,
and the set is cleared. -/
theorem draw_in_dirty (e : env) (t : tick) (d : display) (update force : Bool)
    (tl br : location) (h1 : d.invalidateAll_ = false) (h2 : d.map_.empty = false) :
    tiles_drawn (draw_in e t d update force tl br).2
        = mark_animated t d.map_ (hex_range tl br) d.invalidated_
      ∧ (draw_in e t d update force tl br).1.invalidateAll_ = false
      ∧ (draw_in e t d update force tl br).1.invalidated_ = [] := by
  unfold draw_in
  obtain ⟨p1, p2⟩ := draw_panels_tracker e
    { d := invalidate_animations_in t d tl br, events := [], changed := false }
  obtain ⟨q1, q2, q3, q4⟩ := draw_tiles_in_dirty tl br
    (draw_panels e { d := invalidate_animations_in t d tl br, events := [],
                     changed := false })
    (p1.1.trans h1) (by rw [p1.2.2]; exact h2)
  obtain ⟨r1, r2⟩ := draw_after_tiles_tracker e t update force
    (draw_tiles_in tl br
      (draw_panels e { d := invalidate_animations_in t d tl br, events := [],
                       changed := false }))
  refine ⟨?_, r1.1.trans q1, r1.2.1.trans q2⟩
  rw [r2, q4, p2, p1.2.1]; rfl

/-! ## Hex geometry: the inverse mapping -/

/-- The value of `pixel_position_to_hex` at a non-negative pixel, given the
decomposition of the pixel into tessellation cell and offset. -/
theorem pixel_position_to_hex_decomp (d : display) (x y t qx rx qy ry : Int)
    (ht : t = Int.tdiv (d.zoom_ * 3) 2) (htpos : 0 < t) (hz : 0 < d.zoom_)
    (hx : x = rx + t * qx) (hrx0 : 0 ≤ rx) (hrx1 : rx < t) (hqx : 0 ≤ qx)
    (hy : y = ry + d.zoom_ * qy) (hry0 : 0 ≤ ry) (hry1 : ry < d.zoom_) (hqy : 0 ≤ qy) :
    pixel_position_to_hex d x y
      = some ⟨qx * 2 + (hex_modifier d.zoom_ rx ry).1,
              qy + (hex_modifier d.zoom_ rx ry).2⟩ := by
  have hx0 : 0 ≤ x := by
    have : 0 ≤ t * qx := Int.mul_nonneg (le_of_lt htpos) hqx
    omega
  have hy0 : 0 ≤ y := by
    have : 0 ≤ d.zoom_ * qy := Int.mul_nonneg (le_of_lt hz) hqy
    omega
  obtain ⟨hxq, hxm⟩ := ediv_emod_of_decomp x t qx rx htpos hx hrx0 hrx1
  obtain ⟨hyq, hym⟩ := ediv_emod_of_decomp y d.zoom_ qy ry hz hy hry0 hry1
  have e1 : Int.tdiv x t = qx := by rw [tdiv_nonneg_eq x t hx0 (le_of_lt htpos)]; exact hxq
  have e2 : Int.tmod x t = rx := by rw [tmod_nonneg_eq x t hx0 (le_of_lt htpos)]; exact hxm
  have e3 : Int.tdiv y d.zoom_ = qy := by
    rw [tdiv_nonneg_eq y _ hy0 (le_of_lt hz)]; exact hyq
  have e4 : Int.tmod y d.zoom_ = ry := by
    rw [tmod_nonneg_eq y _ hy0 (le_of_lt hz)]; exact hym
  have ht0 : t ≠ 0 := by omega
  have hz0 : d.zoom_ ≠ 0 := by omega
  simp only [pixel_position_to_hex, hex_size, cdiv, cmod, ← ht, ht0, hz0, if_false, e1, e2,
    e3, e4, Option.bind_eq_bind, Option.some_bind, Option.pure_def]

theorem hex_to_pixel_fst (d : display) (loc : location) :
    (hex_to_pixel d loc).1 = loc.x * hex_width d := by
  simp only [hex_to_pixel, get_location_x]; ring

theorem hex_to_pixel_snd (d : display) (loc : location) :
    (hex_to_pixel d loc).2
      = loc.y * d.zoom_ + (if is_odd loc.x then Int.tdiv d.zoom_ 2 else 0) := by
  simp only [hex_to_pixel, get_location_y]; ring

theorem location_mk_eq_iff (a : location) (x y : Int) :
    (⟨x, y⟩ : location) = a ↔ x = a.x ∧ y = a.y := by
  cases a; simp

/-- C1 (as amended): at every zoom `z ≥ 1` whose column pitch is exactly half
the tessellation width (`z mod 4` is 0 or 3; this covers the default zooms 72
and 36 and the maximum 200) and for every hex with non-negative column and row
(so every hex within the map bounds), `pixel_position_to_hex` applied to the
centre of the hex's pixel rectangle, that is to the map pixel that
`get_location_x`/`get_location_y` give for the hex plus `(z/2, z/2)`, returns
that hex. -/
theorem pixel_position_to_hex_centre (d : display) (loc : location) (hz : 1 ≤ d.zoom_)
    (hmod : d.zoom_ % 4 = 0 ∨ d.zoom_ % 4 = 3) (hx : 0 ≤ loc.x) (hy : 0 ≤ loc.y) :
    pixel_position_to_hex d ((hex_to_pixel d loc).1 + Int.tdiv (hex_size d) 2)
      ((hex_to_pixel d loc).2 + Int.tdiv (hex_size d) 2) = some loc := by
  rw [hex_to_pixel_fst, hex_to_pixel_snd]
  have hz0 : (0:Int) ≤ d.zoom_ := by omega
  have hz3 : (0:Int) ≤ d.zoom_ * 3 := by omega
  have ehw : hex_width d = d.zoom_ * 3 / 4 := tdiv_nonneg_eq _ _ hz3 (by decide)
  have eh : Int.tdiv d.zoom_ 2 = d.zoom_ / 2 := tdiv_nonneg_eq _ _ hz0 (by decide)
  have et : Int.tdiv (d.zoom_ * 3) 2 = d.zoom_ * 3 / 2 := tdiv_nonneg_eq _ _ hz3 (by decide)
  simp only [hex_size, ehw, eh]
  generalize hzz : d.zoom_ = z at *
  generalize hhw : z * 3 / 4 = hw at *
  generalize hhalf : z / 2 = half at *
  generalize htt : z * 3 / 2 = t at *
  have h2 : t = 2 * hw := by omega
  by_cases hodd : loc.x % 2 = 1
  · have hk : loc.x = 2 * (loc.x / 2) + 1 := by omega
    generalize loc.x / 2 = k at hk
    have hk0 : 0 ≤ k := by omega
    simp only [is_odd, hodd, decide_True, if_true]
    by_cases hev : z % 4 = 0
    · have hval := pixel_position_to_hex_decomp d (loc.x * hw + half)
        (loc.y * z + half + half) t k (hw + half) (loc.y + 1) 0
        (by rw [hzz]; exact et.symm) (by omega) (by omega)
        (by rw [hk, h2]; ring) (by omega) (by omega) hk0
        (by rw [hzz]; have : half + half = z := by omega
            rw [add_assoc, this]; ring) (le_refl _) (by omega) (by omega)
      rw [hval, hzz]
      simp only [hex_modifier, et, eh, htt, hhalf]
      rw [if_pos (by omega), if_neg (by omega), if_neg (by omega)]
      simp only [Option.some.injEq, location_mk_eq_iff]
      omega
    · have hval := pixel_position_to_hex_decomp d (loc.x * hw + half)
        (loc.y * z + half + half) t k (hw + half) loc.y (z - 1)
        (by rw [hzz]; exact et.symm) (by omega) (by omega)
        (by rw [hk, h2]; ring) (by omega) (by omega) hk0
        (by rw [hzz]; have : half + half = z - 1 := by omega
            rw [add_assoc, this]; ring) (by omega) (by omega) hy
      rw [hval, hzz]
      simp only [hex_modifier, et, eh, htt, hhalf]
      rw [if_neg (by omega), if_neg (by omega), if_neg (by omega)]
      simp only [Option.some.injEq, location_mk_eq_iff]
      omega
  · have hk : loc.x = 2 * (loc.x / 2) := by omega
    generalize loc.x / 2 = k at hk
    have hk0 : 0 ≤ k := by omega
    have hne : ¬ (loc.x % 2 = 1) := hodd
    simp only [is_odd, hne, decide_False, if_false, Bool.false_eq_true, add_zero]
    have hval := pixel_position_to_hex_decomp d (loc.x * hw + half) (loc.y * z + half)
        t k half loc.y half (by rw [hzz]; exact et.symm) (by omega) (by omega)
        (by rw [hk, h2]; ring) (by omega) (by omega) hk0
        (by rw [hzz]; ring) (by omega) (by omega) hy
    rw [hval, hzz]
    simp only [hex_modifier, et, eh, htt, hhalf]
    rw [if_neg (by omega), if_neg (by omega), if_pos (by omega)]
    simp only [Option.some.injEq, location_mk_eq_iff]
    omega

/-- Witness for C1 (as amended): hex (7, 5) at the default zoom 72. -/
theorem pixel_position_to_hex_centre_witness :
    pixel_position_to_hex sample_display
        ((hex_to_pixel sample_display ⟨7, 5⟩).1 + Int.tdiv (hex_size sample_display) 2)
        ((hex_to_pixel sample_display ⟨7, 5⟩).2 + Int.tdiv (hex_size sample_display) 2)
      = some ⟨7, 5⟩ :=
  pixel_position_to_hex_centre sample_display ⟨7, 5⟩ (by decide) (by decide) (by decide)
    (by decide)

/-- Counterexample to C1 as stated: on a 40x30 map in a 640x480 map area
(`MinZoom` 21) at zoom 72, the pixel that `get_location_x`/`get_location_y` give
for hex (0, 0) is mapped to hex (-1, -1): the corner of the rectangle lies
outside the hexagon.  And on a 63x40 map (`MinZoom` 13) at zoom 21, even the
centre of hex (62, 0) is mapped to another hex, (60, 0). -/
theorem pixel_position_to_hex_corner_counterexample :
    MinZoom (plain_map 40 30) sample_area = some 21
    ∧ (21 : Int) ≤ sample_display.zoom_ ∧ sample_display.zoom_ ≤ MaxZoom
    ∧ pixel_position_to_hex sample_display
        (hex_to_pixel sample_display ⟨0, 0⟩).1 (hex_to_pixel sample_display ⟨0, 0⟩).2
        = some ⟨-1, -1⟩
    ∧ MinZoom (plain_map 63 40) sample_area = some 13
    ∧ pixel_position_to_hex wide_display
        ((hex_to_pixel wide_display ⟨62, 0⟩).1 + Int.tdiv (hex_size wide_display) 2)
        ((hex_to_pixel wide_display ⟨62, 0⟩).2 + Int.tdiv (hex_size wide_display) 2)
        = some ⟨60, 0⟩ := by
  decide

/-- C2 at the failing input: on a 63x40 map in a 640x480 map area (`MinZoom`
13, so zoom 21 is in range), the rectangle of hex (62, 0) starts at map pixel
(930, 0), and `pixel_position_to_hex` maps that pixel to hex (59, -1), three
columns away. -/
theorem pixel_position_to_hex_drift :
    MinZoom (plain_map 63 40) sample_area = some 13
    ∧ wide_display.zoom_ = 21
    ∧ hex_to_pixel wide_display ⟨62, 0⟩ = (930, 0)
    ∧ pixel_position_to_hex wide_display 930 0 = some ⟨59, -1⟩ := by
  decide


/-- The modifier of `pixel_position_to_hex` moves at most one column either
way and at most one row up; at offsets at or beyond half a row it stays in the
row. -/
theorem hex_modifier_range (s x_mod y_mod : Int) :
    (-1 ≤ (hex_modifier s x_mod y_mod).1 ∧ (hex_modifier s x_mod y_mod).1 ≤ 1)
      ∧ (-1 ≤ (hex_modifier s x_mod y_mod).2 ∧ (hex_modifier s x_mod y_mod).2 ≤ 0)
      ∧ (Int.tdiv s 2 ≤ y_mod → (hex_modifier s x_mod y_mod).2 = 0) := by
  unfold hex_modifier
  split_ifs <;> simp <;> omega

/-- In the right part of a tessellation cell the modifier does not move left;
in its left part it does not move right. -/
theorem hex_modifier_side (s x_mod y_mod : Int) (hs : 1 ≤ s) (hy0 : 0 ≤ y_mod)
    (hy1 : y_mod < s) :
    (s * 3 / 4 ≤ x_mod → s % 4 = 0 ∨ s % 4 = 3 → 0 ≤ (hex_modifier s x_mod y_mod).1)
      ∧ (0 ≤ x_mod → x_mod < s - s * 3 / 4 → (hex_modifier s x_mod y_mod).1 ≤ 0) := by
  have eh : Int.tdiv s 2 = s / 2 := tdiv_nonneg_eq _ _ (by omega) (by decide)
  have et : Int.tdiv (s * 3) 2 = s * 3 / 2 := tdiv_nonneg_eq _ _ (by omega) (by decide)
  unfold hex_modifier
  rw [eh, et]
  constructor
  · intro h1 h2
    split_ifs <;> simp <;> omega
  · intro h1 h2
    split_ifs <;> simp <;> omega

/-- Where two column pitches equal the tessellation width (zoom `z >= 1` with
`z mod 4` equal to 0 or 3), the inverse mapping is exact to within one hex: for
every hex `h` with non-negative column and row and every pixel of the `z` x `z`
rectangle that `get_location_x`/`get_location_y` assign to `h`,
`pixel_position_to_hex` returns a hex whose column and row each differ from
those of `h` by at most one. -/
theorem pixel_position_to_hex_within_one (d : display) (loc : location) (i j : Int)
    (hz : 1 ≤ d.zoom_) (hmod : d.zoom_ % 4 = 0 ∨ d.zoom_ % 4 = 3) (hx : 0 ≤ loc.x)
    (hy : 0 ≤ loc.y) (hi0 : 0 ≤ i) (hi1 : i < d.zoom_) (hj0 : 0 ≤ j) (hj1 : j < d.zoom_) :
    ∃ r, pixel_position_to_hex d ((hex_to_pixel d loc).1 + i) ((hex_to_pixel d loc).2 + j)
        = some r
      ∧ loc.x - 1 ≤ r.x ∧ r.x ≤ loc.x + 1 ∧ loc.y - 1 ≤ r.y ∧ r.y ≤ loc.y + 1 := by
  rw [hex_to_pixel_fst, hex_to_pixel_snd]
  have hz0 : (0:Int) ≤ d.zoom_ := by omega
  have hz3 : (0:Int) ≤ d.zoom_ * 3 := by omega
  have ehw : hex_width d = d.zoom_ * 3 / 4 := tdiv_nonneg_eq _ _ hz3 (by decide)
  have eh : Int.tdiv d.zoom_ 2 = d.zoom_ / 2 := tdiv_nonneg_eq _ _ hz0 (by decide)
  have et : Int.tdiv (d.zoom_ * 3) 2 = d.zoom_ * 3 / 2 := tdiv_nonneg_eq _ _ hz3 (by decide)
  -- the column: cell index `qx` and offset `rx`
  have hcol : ∃ qx rx, loc.x * hex_width d + i = rx + d.zoom_ * 3 / 2 * qx ∧ 0 ≤ rx
      ∧ rx < d.zoom_ * 3 / 2 ∧ 0 ≤ qx
      ∧ ∀ y_mod, 0 ≤ y_mod → y_mod < d.zoom_ →
          loc.x - 1 ≤ qx * 2 + (hex_modifier d.zoom_ rx y_mod).1
            ∧ qx * 2 + (hex_modifier d.zoom_ rx y_mod).1 ≤ loc.x + 1 := by
    rw [ehw]
    have h2 : d.zoom_ * 3 / 2 = 2 * (d.zoom_ * 3 / 4) := by omega
    by_cases hodd : loc.x % 2 = 1
    · have hk : loc.x = 2 * (loc.x / 2) + 1 := by omega
      by_cases hcell : d.zoom_ * 3 / 4 + i < d.zoom_ * 3 / 2
      · refine ⟨loc.x / 2, d.zoom_ * 3 / 4 + i, ?_, by omega, hcell, by omega, ?_⟩
        · rw [h2]; nth_rewrite 1 [hk]; ring
        · intro y_mod h0 h1
          have r1 := (hex_modifier_range d.zoom_ (d.zoom_ * 3 / 4 + i) y_mod).1
          have r2 := (hex_modifier_side d.zoom_ (d.zoom_ * 3 / 4 + i) y_mod hz h0 h1).1
            (by omega) hmod
          omega
      · refine ⟨loc.x / 2 + 1, d.zoom_ * 3 / 4 + i - d.zoom_ * 3 / 2, ?_, by omega,
          by omega, by omega, ?_⟩
        · rw [h2]; nth_rewrite 1 [hk]; ring
        · intro y_mod h0 h1
          have r1 := (hex_modifier_range d.zoom_
            (d.zoom_ * 3 / 4 + i - d.zoom_ * 3 / 2) y_mod).1
          have r2 := (hex_modifier_side d.zoom_
            (d.zoom_ * 3 / 4 + i - d.zoom_ * 3 / 2) y_mod hz h0 h1).2 (by omega) (by omega)
          omega
    · have hk : loc.x = 2 * (loc.x / 2) := by omega
      refine ⟨loc.x / 2, i, ?_, hi0, by omega, by omega, ?_⟩
      · rw [h2]; nth_rewrite 1 [hk]; ring
      · intro y_mod _ _
        have r1 := (hex_modifier_range d.zoom_ i y_mod).1
        omega
  -- the row: cell index `qy` and offset `ry`
  have hrow : ∃ qy ry,
      loc.y * d.zoom_ + (if is_odd loc.x then Int.tdiv d.zoom_ 2 else 0) + j
        = ry + d.zoom_ * qy ∧ 0 ≤ ry ∧ ry < d.zoom_ ∧ 0 ≤ qy
      ∧ ∀ x_mod, loc.y - 1 ≤ qy + (hex_modifier d.zoom_ x_mod ry).2
          ∧ qy + (hex_modifier d.zoom_ x_mod ry).2 ≤ loc.y + 1 := by
    rw [eh]
    by_cases hcell : (if is_odd loc.x then d.zoom_ / 2 else 0) + j < d.zoom_
    · refine ⟨loc.y, (if is_odd loc.x then d.zoom_ / 2 else 0) + j, by ring, ?_, hcell,
        hy, ?_⟩
      · split_ifs <;> omega
      · intro x_mod
        have r1 := (hex_modifier_range d.zoom_ x_mod
          ((if is_odd loc.x then d.zoom_ / 2 else 0) + j)).2.1
        omega
    · refine ⟨loc.y + 1, (if is_odd loc.x then d.zoom_ / 2 else 0) + j - d.zoom_, by ring,
        by omega, ?_, by omega, ?_⟩
      · split_ifs <;> omega
      · intro x_mod
        have r1 := (hex_modifier_range d.zoom_ x_mod
          ((if is_odd loc.x then d.zoom_ / 2 else 0) + j - d.zoom_)).2.1
        omega
  obtain ⟨qx, rx, ex, hrx0, hrx1, hqx, hcx⟩ := hcol
  obtain ⟨qy, ry, ey, hry0, hry1, hqy, hcy⟩ := hrow
  have hval := pixel_position_to_hex_decomp d _ _ (d.zoom_ * 3 / 2) qx rx qy ry et.symm
    (by omega) (by omega) ex hrx0 hrx1 hqx ey hry0 hry1 hqy
  refine ⟨_, hval, ?_⟩
  have c1 := hcx ry hry0 hry1
  have c2 := hcy rx
  exact ⟨c1.1, c1.2, c2.1, c2.2⟩


theorem count_of_nodup (s : List location) (hs : s.Nodup) (l : location) :
    s.count l = if l ∈ s then 1 else 0 := by
  split
  · rename_i h; exact List.count_eq_one_of_mem hs h
  · rename_i h; exact List.count_eq_zero_of_not_mem h

/-- C4: when the tracker is PARTIAL (`invalidateAll_` false) and the map is not
empty, `draw()` returns, calls `draw_tile` exactly once for each hex that is in
the dirty set at the start of the consume step (the set as
`invalidate_animations` leaves it) and for no other hex, and leaves the dirty
set empty; in particular, after `invalidate(h)` on a PARTIAL tracker and with
no animation frame change, the next `draw()` redraws exactly the previously
marked hexes together with `h`, each once.  (`hex_width() != 0` keeps the
divisions of `get_visible_hex_bounds` defined; `set_sorted` says the list holds
the elements of a `std::set`.) -/
theorem draw_partial_redraws_dirty_set (e : env) (t : tick) (d : display)
    (update force : Bool) (hpart : d.invalidateAll_ = false) (hmap : d.map_.empty = false)
    (hw : hex_width d ≠ 0) (hset : set_sorted d.invalidated_) :
    ∃ d0 r, invalidate_animations t d = some d0 ∧ draw e t d update force = some r
      ∧ (∀ l, (tiles_drawn r.2).count l = if l ∈ d0.invalidated_ then 1 else 0)
      ∧ r.1.invalidated_ = [] ∧ r.1.invalidateAll_ = false
      ∧ (tick.still t → ∀ h, ∃ r', draw e t (invalidate d h) update force = some r'
          ∧ ∀ l, (tiles_drawn r'.2).count l
              = if l = h ∨ l ∈ d.invalidated_ then 1 else 0) := by
  obtain ⟨tl, br, hb, hdraw⟩ := draw_some e t d update force hw
  obtain ⟨k1, k2, k3⟩ := draw_in_dirty e t d update force tl br hpart hmap
  refine ⟨_, _, invalidate_animations_eq t d tl br hb, hdraw, ?_, k3, k2, ?_⟩
  · intro l
    rw [k1, invalidate_animations_in_invalidated]
    exact count_of_nodup _ (set_sorted_nodup _ (mark_animated_sorted t d.map_ _ _ hset)) l
  · intro hstill h
    have hinv : invalidate d h = { d with invalidated_ := set_insert h d.invalidated_ } := by
      unfold invalidate
      rw [if_pos (by simp [hpart])]
    have hw' : hex_width (invalidate d h) ≠ 0 := by rw [hinv]; exact hw
    obtain ⟨tl', br', _, hdraw'⟩ := draw_some e t (invalidate d h) update force hw'
    obtain ⟨j1, _, _⟩ := draw_in_dirty e t (invalidate d h) update force tl' br'
      (by rw [hinv]; exact hpart) (by rw [hinv]; exact hmap)
    refine ⟨_, hdraw', ?_⟩
    intro l
    rw [j1, mark_animated_still t _ _ _ hstill, hinv]
    dsimp only
    rw [count_of_nodup _ (set_sorted_nodup _ (set_sorted_insert h _ hset)) l]
    simp only [mem_set_insert]

/-- Witness for C4: the sample display in the PARTIAL state with the dirty set
{(1, 1), (2, 3)}, in a frame where no animation advances. -/
theorem draw_partial_redraws_dirty_set_witness :
    ∃ d0 r, invalidate_animations still_tick partial_display = some d0
      ∧ draw sample_env still_tick partial_display true false = some r
      ∧ (∀ l, (tiles_drawn r.2).count l = if l ∈ d0.invalidated_ then 1 else 0)
      ∧ r.1.invalidated_ = [] ∧ r.1.invalidateAll_ = false
      ∧ (∀ h,
          ∃ r', draw sample_env still_tick (invalidate partial_display h) true false = some r'
            ∧ ∀ l, (tiles_drawn r'.2).count l
                = if l = h ∨ l ∈ partial_display.invalidated_ then 1 else 0) :=
  (draw_partial_redraws_dirty_set sample_env still_tick partial_display true false
    (by decide) (by decide) (by decide) (by unfold set_sorted; decide)).elim
    (fun d0 h0 => h0.elim (fun r h =>
      ⟨d0, r, h.1, h.2.1, h.2.2.1, h.2.2.2.1, h.2.2.2.2.1,
        h.2.2.2.2.2 ⟨by decide, fun _ => rfl⟩⟩))


/-! ## The visible range -/

theorem mem_int_range (lo hi x : Int) : x ∈ int_range lo hi ↔ lo ≤ x ∧ x ≤ hi := by
  unfold int_range
  simp only [List.mem_map, List.mem_range]
  constructor
  · rintro ⟨i, hi', rfl⟩
    have := Int.lt_toNat.1 hi'
    omega
  · rintro ⟨h1, h2⟩
    refine ⟨(x - lo).toNat, ?_, ?_⟩
    · apply Int.lt_toNat.2
      rw [Int.toNat_of_nonneg (by omega)]
      omega
    · rw [Int.toNat_of_nonneg (by omega)]
      omega

theorem nodup_int_range (lo hi : Int) : (int_range lo hi).Nodup := by
  unfold int_range
  apply List.Nodup.map _ (List.nodup_range _)
  intro a b h
  simp only at h
  omega

theorem mem_hex_range (tl br l : location) :
    l ∈ hex_range tl br ↔ (tl.x ≤ l.x ∧ l.x ≤ br.x) ∧ (tl.y ≤ l.y ∧ l.y ≤ br.y) := by
  unfold hex_range
  simp only [List.mem_flatMap, List.mem_map, mem_int_range]
  constructor
  · rintro ⟨x, hx, y, hy, rfl⟩
    exact ⟨hx, hy⟩
  · rintro ⟨hx, hy⟩
    exact ⟨l.x, hx, l.y, hy, rfl⟩

theorem nodup_hex_range (tl br : location) : (hex_range tl br).Nodup := by
  unfold hex_range
  rw [List.nodup_flatMap]
  constructor
  · intro x _
    apply List.Nodup.map _ (nodup_int_range _ _)
    intro a b h
    simpa using h
  · apply (nodup_int_range tl.x br.x).imp
    intro a b hab
    simp only [Function.onFun, List.Disjoint, List.mem_map]
    rintro l ⟨y, _, rfl⟩ ⟨y', _, h⟩
    apply hab
    have := congrArg location.x h
    simpa using this.symm

/-- A `draw()` that starts ALL_DIRTY on a non-empty map returns, calls
`draw_tile` exactly once for every hex of the range returned by
`get_visible_hex_bounds` and for no other hex, and clears the sentinel; when no
animation advanced during the frame, it leaves the dirty set as it found it. -/
theorem draw_all_dirty_redraws_visible_range (e : env) (t : tick) (d : display)
    (update force : Bool) (hall : d.invalidateAll_ = true) (hmap : d.map_.empty = false)
    (hw : hex_width d ≠ 0) :
    ∃ tl br r, get_visible_hex_bounds d = some (tl, br)
      ∧ draw e t d update force = some r
      ∧ (∀ l, (tiles_drawn r.2).count l
          = if (tl.x ≤ l.x ∧ l.x ≤ br.x) ∧ (tl.y ≤ l.y ∧ l.y ≤ br.y) then 1 else 0)
      ∧ r.1.invalidateAll_ = false
      ∧ (tick.still t → r.1.invalidated_ = d.invalidated_) := by
  obtain ⟨tl, br, hb, hdraw⟩ := draw_some e t d update force hw
  obtain ⟨k1, k2, k3⟩ := draw_in_sentinel e t d update force tl br hall hmap
  refine ⟨tl, br, _, hb, hdraw, ?_, k2, ?_⟩
  · intro l
    rw [k1, count_of_nodup _ (nodup_hex_range tl br) l]
    simp only [mem_hex_range]
  · intro hstill
    rw [k3, mark_animated_still t _ _ _ hstill]

/-- C3 at the failing input: a freshly constructed display (ALL_DIRTY, empty
dirty set) over a non-empty 40x30 map, drawn in a frame in which the terrain
animation of the visible hex (0, 0) advances.  After `draw()` the sentinel is
cleared but the dirty set holds (0, 0): the tracker is not PARTIAL(empty). -/
theorem draw_all_dirty_leaves_animated_hex :
    sample_display.invalidateAll_ = true ∧ sample_display.invalidated_ = []
    ∧ sample_display.map_.empty = false
    ∧ (draw sample_env anim_tick sample_display true false).map
        (fun r => (r.1.invalidateAll_, r.1.invalidated_)) = some (false, [⟨0, 0⟩]) := by
  decide

/-- C5 at the failing input: on a freshly constructed display (ALL_DIRTY),
`invalidate_animations` in a frame in which the terrain animation of hex (0, 0)
advances inserts (0, 0) into the dirty set while the sentinel stays set.  The
same state is left by a whole `draw()` when the map is empty. -/
theorem invalidate_animations_breaks_exclusion :
    sample_display.invalidateAll_ = true ∧ sample_display.invalidated_ = []
    ∧ (invalidate_animations anim_tick sample_display).map
        (fun d => (d.invalidateAll_, d.invalidated_)) = some (true, [⟨0, 0⟩])
    ∧ (draw sample_env anim_tick (display.construct (plain_map 0 0) sample_area 1)
          true false).map
        (fun r => (r.1.invalidateAll_, r.1.invalidated_)) = some (true, [⟨0, 0⟩]) := by
  decide

set_option maxRecDepth 8000 in
/-- Why idle frames need a state of the renderer: from a state in which the
sentinel is set and the dirty set holds (0, 0), which a standalone
`invalidate_animations` would leave but no member of `display` does on a map
that is not empty, the first of two `draw(true, false)` calls in frames without
animation redraws the visible range and leaves (0, 0) in the dirty set, and the
second calls `draw_tile(0, 0)` again. -/
theorem second_draw_redraws_stale_hex :
    (((invalidate_animations anim_tick sample_display).bind
        (fun d => draw sample_env still_tick d true false)).bind
        (fun r => draw sample_env still_tick r.1 true false)).map
        (fun r => tiles_drawn r.2) = some [⟨0, 0⟩] := by
  decide


/-! ## The report cache and the idle frame -/

theorem draw_report_of_cached (e : env) (d : display) (n : Nat)
    (h : report_cached e d n) : draw_report e d n = (d, []) := by
  unfold draw_report
  split
  · rfl
  · rename_i ht
    have ht' : team_valid d = true := by simpa using ht
    split
    · rename_i new_rect hs
      dsimp only
      rw [if_pos (h ht' new_rect hs)]
    · rfl

theorem draw_report_team (e : env) (d : display) (n : Nat) :
    team_valid (draw_report e d n).1 = team_valid d := by
  obtain ⟨h, _⟩ := draw_report_spec e d n
  unfold team_valid
  rw [h.2.2.2.2.2.1, h.2.2.2.2.2.2.1]

theorem report_cached_draw_report (e : env) (d : display) (n m : Nat)
    (h : m = n ∨ report_cached e d n) : report_cached e (draw_report e d m).1 n := by
  intro ht r hr
  rw [draw_report_team] at ht
  unfold draw_report
  rw [if_neg (by simp [ht])]
  rcases h with rfl | h
  · simp only [hr]
    split
    · rename_i hc; exact hc
    · simp
  · split
    · rename_i new_rect hs
      dsimp only
      split
      · exact h ht r hr
      · by_cases hmn : n = m
        · subst hmn
          rw [hr] at hs
          cases hs
          simp
        · simp only [Function.update_noteq hmn]
          exact h ht r hr
    · exact h ht r hr

theorem report_cached_fold (e : env) (rs : List Nat) (d : display) (evs : List event)
    (n : Nat) (h : report_cached e d n) :
    report_cached e
      (rs.foldl (fun acc r => let res := draw_report e acc.1 r; (res.1, acc.2 ++ res.2))
        (d, evs)).1 n := by
  induction rs generalizing d evs with
  | nil => exact h
  | cons r rs ih =>
    simp only [List.foldl_cons]
    exact ih _ _ (report_cached_draw_report e d n r (Or.inr h))

theorem report_cached_draw_reports (e : env) (d : display) (first last n : Nat)
    (h : report_cached e d n) : report_cached e (draw_reports e d first last).1 n :=
  report_cached_fold e _ d [] n h

theorem report_cached_draw_game_status (e : env) (d : display) (n : Nat)
    (h : report_cached e d n) : report_cached e (draw_game_status e d).1 n := by
  unfold draw_game_status
  split
  · exact h
  · exact report_cached_draw_reports e d _ _ n h

/-- The report cache is read through the team members and the two cache
arrays only. -/
theorem report_cached_congr (e : env) {a b : display} (n : Nat)
    (h1 : b.teams_size = a.teams_size) (h2 : b.currentTeam_ = a.currentTeam_)
    (h3 : b.reportRects_ = a.reportRects_) (h4 : b.reports_ = a.reports_)
    (h : report_cached e a n) : report_cached e b n := by
  unfold report_cached team_valid at *
  rw [h1, h2, h3, h4]
  exact h

/-- After `draw_sidebar` the sidebar is settled. -/
theorem sidebar_settled_draw_sidebar (e : env) (d : display) :
    sidebar_settled e (draw_sidebar e d).1 := by
  have hc := report_cached_draw_report e d e.REPORT_CLOCK e.REPORT_CLOCK (Or.inl rfl)
  have hteams := (draw_report_spec e d e.REPORT_CLOCK).1.2.2.2.2.2.1
  unfold draw_sidebar
  dsimp only
  split
  · rename_i h0
    exact ⟨hc, fun hne => absurd h0 hne⟩
  · -- the unit reports
    have hU : ∃ d2 : display, ∃ ev2 : List event,
        (if (draw_report e d e.REPORT_CLOCK).1.invalidateUnit_ = true then
          ({ (if e.unit_shown = true then
                draw_reports e (draw_report e d e.REPORT_CLOCK).1 e.UNIT_REPORTS_BEGIN
                  e.UNIT_REPORTS_END
              else ((draw_report e d e.REPORT_CLOCK).1, [])).1 with
              invalidateUnit_ := false },
            (if e.unit_shown = true then
                draw_reports e (draw_report e d e.REPORT_CLOCK).1 e.UNIT_REPORTS_BEGIN
                  e.UNIT_REPORTS_END
              else ((draw_report e d e.REPORT_CLOCK).1, [])).2)
          else ((draw_report e d e.REPORT_CLOCK).1, [])) = (d2, ev2)
        ∧ report_cached e d2 e.REPORT_CLOCK ∧ d2.invalidateUnit_ = false := by
      split
      · refine ⟨_, _, rfl, ?_, rfl⟩
        split
        · exact report_cached_congr e _ rfl rfl rfl rfl
            (report_cached_draw_reports e _ _ _ _ hc)
        · exact report_cached_congr e _ rfl rfl rfl rfl hc
      · rename_i hu
        exact ⟨_, _, rfl, hc, by simpa using hu⟩
    obtain ⟨d2, ev2, h2, hc2, hu2⟩ := hU
    rw [h2]
    dsimp only
    split
    · refine ⟨report_cached_congr e _ rfl rfl rfl rfl
        (report_cached_draw_game_status e d2 _ hc2), fun _ => ⟨?_, rfl⟩⟩
      exact (draw_game_status_spec e d2).2.1.trans hu2
    · rename_i hg
      exact ⟨hc2, fun _ => ⟨hu2, by simpa using hg⟩⟩

/-- A settled sidebar redraws nothing. -/
theorem draw_sidebar_of_settled (e : env) (d : display) (h : sidebar_settled e d) :
    (draw_sidebar e d).2 = [] := by
  obtain ⟨hc, hf⟩ := h
  have h1 := draw_report_of_cached e d e.REPORT_CLOCK hc
  unfold draw_sidebar
  dsimp only
  rw [h1]
  dsimp only
  split
  · rfl
  · rename_i hne
    obtain ⟨hu, hg⟩ := hf hne
    simp [hu, hg]

theorem sidebar_settled_congr (e : env) {a b : display}
    (h1 : b.teams_size = a.teams_size) (h2 : b.currentTeam_ = a.currentTeam_)
    (h3 : b.reportRects_ = a.reportRects_) (h4 : b.reports_ = a.reports_)
    (h5 : b.invalidateUnit_ = a.invalidateUnit_)
    (h6 : b.invalidateGameStatus_ = a.invalidateGameStatus_)
    (h : sidebar_settled e a) : sidebar_settled e b := by
  unfold sidebar_settled at *
  rw [h1, h5, h6]
  exact ⟨report_cached_congr e _ h1 h2 h3 h4 h.1, h.2⟩

/-- `draw_present` writes `lastDraw_` and `drawSkips_` only. -/
theorem draw_present_fields (t : tick) (update force : Bool) (f : frame) :
    (draw_present t update force f).1.panelsDrawn_ = f.d.panelsDrawn_
      ∧ (draw_present t update force f).1.redrawMinimap_ = f.d.redrawMinimap_
      ∧ (draw_present t update force f).1.teams_size = f.d.teams_size
      ∧ (draw_present t update force f).1.currentTeam_ = f.d.currentTeam_
      ∧ (draw_present t update force f).1.reportRects_ = f.d.reportRects_
      ∧ (draw_present t update force f).1.reports_ = f.d.reports_
      ∧ (draw_present t update force f).1.invalidateUnit_ = f.d.invalidateUnit_
      ∧ (draw_present t update force f).1.invalidateGameStatus_
          = f.d.invalidateGameStatus_ := by
  unfold draw_present
  dsimp only
  split
  · split
    · split <;> exact ⟨rfl, rfl, rfl, rfl, rfl, rfl, rfl, rfl⟩
    · exact ⟨rfl, rfl, rfl, rfl, rfl, rfl, rfl, rfl⟩
  · exact ⟨rfl, rfl, rfl, rfl, rfl, rfl, rfl, rfl⟩

theorem draw_panels_drawn (e : env) (f : frame) :
    (draw_panels e f).d.panelsDrawn_ = true := by
  unfold draw_panels
  split
  · rfl
  · rename_i h; simpa using h

theorem draw_tiles_in_panelsDrawn (tl br : location) (f : frame) :
    (draw_tiles_in tl br f).d.panelsDrawn_ = f.d.panelsDrawn_ := by
  unfold draw_tiles_in
  split
  · rfl
  · split <;> rfl

theorem draw_minimap_step_fields (f : frame) :
    (draw_minimap_step f).d.panelsDrawn_ = f.d.panelsDrawn_
      ∧ (draw_minimap_step f).d.redrawMinimap_ = false := by
  unfold draw_minimap_step
  split
  · exact ⟨rfl, rfl⟩
  · rename_i h; exact ⟨rfl, by simpa using h⟩

theorem draw_sidebar_step_fields (e : env) (f : frame) :
    (draw_sidebar_step e f).d.panelsDrawn_ = f.d.panelsDrawn_
      ∧ (draw_sidebar_step e f).d.redrawMinimap_ = f.d.redrawMinimap_
      ∧ (f.d.map_.empty = false → sidebar_settled e (draw_sidebar_step e f).d) := by
  unfold draw_sidebar_step
  split
  · exact ⟨draw_sidebar_panelsDrawn e f.d, draw_sidebar_redrawMinimap e f.d,
      fun _ => sidebar_settled_draw_sidebar e f.d⟩
  · rename_i h
    refine ⟨rfl, rfl, fun h' => ?_⟩
    rw [h'] at h
    simp at h

/-- After a frame in which no animation advanced, started from a state in
which the sentinel and the dirty set exclude each other or the map is empty, a
further such frame has nothing to redraw. -/
theorem frame_settled_draw_in (e : env) (t : tick) (d : display) (update force : Bool)
    (tl br : location) (hstill : tick.still t)
    (hex : d.map_.empty = false → tracker_exclusive d) :
    frame_settled e (draw_in e t d update force tl br).1 := by
  have hview := draw_in_view e t d update force tl br
  have hall := draw_in_sentinel e t d update force tl br
  have hpart := draw_in_dirty e t d update force tl br
  have hsettled : d.map_.empty = false →
      sidebar_settled e (draw_in e t d update force tl br).1 := by
    intro hmap
    unfold draw_in
    obtain ⟨p1, _⟩ := draw_panels_tracker e
      { d := invalidate_animations_in t d tl br, events := [], changed := false }
    obtain ⟨q1, _⟩ := draw_minimap_step_tracker (draw_tiles_in tl br
      (draw_panels e { d := invalidate_animations_in t d tl br, events := [],
                       changed := false }))
    have hm : (draw_tiles_in tl br (draw_panels e
        { d := invalidate_animations_in t d tl br, events := [],
          changed := false })).d.map_ = d.map_ := by
      have := draw_tiles_in_view tl br (draw_panels e
        { d := invalidate_animations_in t d tl br, events := [], changed := false })
      rw [this.2.2.2.1, p1.2.2]
      rfl
    obtain ⟨_, _, s3⟩ := draw_sidebar_step_fields e (draw_minimap_step (draw_tiles_in tl br
      (draw_panels e { d := invalidate_animations_in t d tl br, events := [],
                       changed := false })))
    obtain ⟨_, _, f3, f4, f5, f6, f7, f8⟩ := draw_present_fields t update force
      (draw_sidebar_step e (draw_minimap_step (draw_tiles_in tl br
        (draw_panels e { d := invalidate_animations_in t d tl br, events := [],
                         changed := false }))))
    exact sidebar_settled_congr e f3 f4 f5 f6 f7 f8
      (s3 (by rw [q1.2.2, hm]; exact hmap))
  refine ⟨?_, ?_, ?_⟩
  · unfold draw_in
    rw [(draw_present_fields t update force _).1, (draw_sidebar_step_fields e _).1,
      (draw_minimap_step_fields _).1, draw_tiles_in_panelsDrawn, draw_panels_drawn]
  · unfold draw_in
    rw [(draw_present_fields t update force _).2.1, (draw_sidebar_step_fields e _).2.1,
      (draw_minimap_step_fields _).2]
  · intro hmap
    rw [hview.2.2.2.1] at hmap
    refine ⟨?_, ?_, hsettled hmap⟩
    · cases h : d.invalidateAll_
      · exact (hpart h hmap).2.1
      · exact (hall h hmap).2.1
    · cases h : d.invalidateAll_
      · exact (hpart h hmap).2.2
      · rw [(hall h hmap).2.2, mark_animated_still t _ _ _ hstill]
        exact hex hmap h

theorem invalidate_animations_in_still (t : tick) (d : display) (tl br : location)
    (hstill : tick.still t) : invalidate_animations_in t d tl br = d := by
  unfold invalidate_animations_in
  have := mark_animated_still t d.map_ (hex_range tl br) d.invalidated_ hstill
  unfold mark_animated at this
  rw [this]

/-- A frame without animation on a settled display redraws nothing: apart
from presenting the buffer it has no event. -/
theorem draw_in_of_settled (e : env) (t : tick) (d : display) (update force : Bool)
    (tl br : location) (hstill : tick.still t) (hs : frame_settled e d) :
    ∀ ev ∈ (draw_in e t d update force tl br).2, ev = event.update_display := by
  obtain ⟨hp, hm, hrest⟩ := hs
  unfold draw_in
  rw [invalidate_animations_in_still t d tl br hstill]
  have h1 : draw_panels e { d := d, events := [], changed := false }
      = { d := d, events := [], changed := false } := by
    unfold draw_panels
    rw [if_neg (by simp [hp])]
  rw [h1]
  have h2 : ∃ c, draw_tiles_in tl br { d := d, events := [], changed := false }
      = { d := d, events := [], changed := c } := by
    unfold draw_tiles_in
    cases hmap : d.map_.empty
    · obtain ⟨ha, hi, _⟩ := hrest hmap
      refine ⟨false, ?_⟩
      simp only [ha, hmap, hi]
      simp
      cases d
      simp_all
    · exact ⟨false, by simp [hmap]⟩
  obtain ⟨c, h2⟩ := h2
  rw [h2]
  have h3 : draw_minimap_step { d := d, events := [], changed := c }
      = { d := d, events := [], changed := c } := by
    unfold draw_minimap_step
    rw [if_neg (by simp [hm])]
  rw [h3]
  have h4 : (draw_sidebar_step e { d := d, events := [], changed := c }).events = [] := by
    unfold draw_sidebar_step
    cases hmap : d.map_.empty
    · obtain ⟨_, _, hsb⟩ := hrest hmap
      simp [draw_sidebar_of_settled e d hsb]
    · simp
  intro ev hev
  unfold draw_present at hev
  dsimp only at hev
  rw [h4] at hev
  split at hev
  · split at hev
    · split at hev
      · simpa using hev
      · cases hev
    · cases hev
  · cases hev

theorem hex_width_congr {a b : display} (h : same_view a b) : hex_width b = hex_width a := by
  unfold hex_width
  rw [h.2.2.1]

/-- Idle frames: from every state in which the sentinel and the dirty set
exclude each other, two successive `draw(update, false)` calls in
frames in which no animation advances both return, and the second performs no
redraw work: it calls `draw_tile` for no hex, does not redraw the minimap,
redraws no panel, label or sidebar report; its only possible event is the
presentation of the buffer. -/
theorem second_draw_idle (e : env) (t1 t2 : tick) (d : display) (update1 update2 : Bool)
    (hw : hex_width d ≠ 0) (h1 : tick.still t1) (h2 : tick.still t2)
    (hex : tracker_exclusive d) :
    ∃ r1 r2, draw e t1 d update1 false = some r1
      ∧ draw e t2 r1.1 update2 false = some r2
      ∧ ∀ ev ∈ r2.2, ev = event.update_display := by
  obtain ⟨tl, br, _, hd1⟩ := draw_some e t1 d update1 false hw
  have hw2 : hex_width (draw_in e t1 d update1 false tl br).1 ≠ 0 := by
    rw [hex_width_congr (draw_in_view e t1 d update1 false tl br)]
    exact hw
  obtain ⟨tl2, br2, _, hd2⟩ := draw_some e t2 _ update2 false hw2
  exact ⟨_, _, hd1, hd2,
    draw_in_of_settled e t2 _ update2 false tl2 br2 h2
      (frame_settled_draw_in e t1 d update1 false tl br h1 (fun _ => hex))⟩

/-- The constructor, `invalidate` and `invalidate_all` keep the sentinel and the dirty set exclusive, and a `draw()`
on a non-empty map returns with the sentinel cleared. -/
theorem tracker_exclusive_kept (e : env) (t : tick) (d : display) (h : location)
    (update force : Bool) :
    tracker_exclusive (display.construct d.map_ d.map_area d.teams_size)
      ∧ (tracker_exclusive d → tracker_exclusive (invalidate d h))
      ∧ tracker_exclusive (invalidate_all d)
      ∧ (d.map_.empty = false → ∀ r, draw e t d update force = some r →
          r.1.invalidateAll_ = false ∧ tracker_exclusive r.1) := by
  refine ⟨fun _ => rfl, ?_, fun _ => rfl, ?_⟩
  · intro hex
    unfold invalidate
    split
    · rename_i hna
      intro ha
      have : d.invalidateAll_ = true := ha
      simp [this] at hna
    · exact hex
  · intro hmap r hr
    have hw : hex_width d ≠ 0 := by
      intro h0
      have hnone : draw e t d update force = none := by
        simp [draw, invalidate_animations, get_visible_hex_bounds, cdiv, h0]
      rw [hnone] at hr
      cases hr
    obtain ⟨tl, br, _, hd⟩ := draw_some e t d update force hw
    rw [hd] at hr
    cases hr
    have hfalse : (draw_in e t d update force tl br).1.invalidateAll_ = false := by
      cases ha : d.invalidateAll_
      · exact (draw_in_dirty e t d update force tl br ha hmap).2.1
      · exact (draw_in_sentinel e t d update force tl br ha hmap).2.1
    refine ⟨hfalse, ?_⟩
    intro ht
    rw [hfalse] at ht
    cases ht


/-- A `draw()` that returns leaves the sentinel and the dirty set exclusive, or
the map is empty. -/
theorem draw_tracker (e : env) (t : tick) (d : display) (update force : Bool)
    (r : display × List event) (hr : draw e t d update force = some r) :
    tracker_exclusive r.1 ∨ r.1.map_.empty = true := by
  cases hmap : d.map_.empty with
  | false =>
    exact Or.inl ((tracker_exclusive_kept e t d ⟨0, 0⟩ update force).2.2.2 hmap r hr).2
  | true =>
    right
    have hw : hex_width d ≠ 0 := by
      intro h0
      have hnone : draw e t d update force = none := by
        simp [draw, invalidate_animations, get_visible_hex_bounds, cdiv, h0]
      rw [hnone] at hr
      cases hr
    obtain ⟨tl, br, _, hd⟩ := draw_some e t d update force hw
    rw [hd] at hr
    cases hr
    rw [(draw_in_view e t d update force tl br).2.2.2.1]
    exact hmap

/-- `bounds_check_position` leaves the tracker and the map alone. -/
theorem bounds_check_position_tracker (d d1 : display)
    (h : bounds_check_position d = some d1) : same_tracker d d1 := by
  cases hmin : MinZoom d.map_ d.map_area with
  | none => simp [bounds_check_position, hmin] at h
  | some m =>
    obtain ⟨d2, h2, _, _, hs⟩ := bounds_check_position_spec d m hmin
    rw [h2] at h
    cases h
    exact ⟨hs.2.2.2.2.2.2.2.1, hs.2.2.2.2.2.2.2.2.1, hs.1⟩

/-- In every state of the renderer the sentinel and the dirty set exclude each
other, or the map is empty. -/
theorem reachable_tracker (e : env) (d : display) (h : reachable e d) :
    tracker_exclusive d ∨ d.map_.empty = true := by
  induction h with
  | construct map area teams => exact Or.inl (fun _ => rfl)
  | @invalidate d0 loc _ ih =>
    rcases ih with ih | ih
    · exact Or.inl ((tracker_exclusive_kept e ⟨[], fun _ => false, 0, 0⟩ d0 loc false false).2.1 ih)
    · right
      unfold invalidate
      split
      · exact ih
      · exact ih
  | invalidate_all _ _ => exact Or.inl (fun _ => rfl)
  | draw t update force r _ hr _ => exact draw_tracker e t _ update force r hr
  | @scroll d0 xmove ymove d1 _ hs ih =>
    unfold scroll at hs
    cases hb : bounds_check_position
        { d0 with xpos_ := d0.xpos_ + xmove, ypos_ := d0.ypos_ + ymove } with
    | none => simp [hb] at hs
    | some d2 =>
      have ht := bounds_check_position_tracker _ _ hb
      simp only [hb, Option.bind_eq_bind, Option.some_bind, Option.pure_def] at hs
      split at hs
      · cases hs
        exact Or.inl (fun _ => rfl)
      · cases hs
        rcases ih with ih | ih
        · left
          intro ha
          rw [ht.2.1]
          exact ih (by rw [← ht.1]; exact ha)
        · right
          rw [ht.2.2]
          exact ih
  | @zoom d0 t amount r _ hz ih =>
    unfold zoom at hz
    dsimp only at hz
    split at hz
    · cases hmin : MinZoom d0.map_ d0.map_area with
      | none => simp [hmin] at hz
      | some m =>
        simp only [hmin, Option.bind_eq_bind, Option.some_bind] at hz
        split at hz
        · cases hx : cdiv ((d0.xpos_ + Int.tdiv d0.map_area.w 2) * amount) d0.zoom_ with
          | none => simp [hx] at hz
          | some dx =>
            cases hy : cdiv ((d0.ypos_ + Int.tdiv d0.map_area.h 2) * amount) d0.zoom_ with
            | none => simp [hx, hy] at hz
            | some dy =>
              simp only [hx, hy, Option.some_bind] at hz
              cases hb : bounds_check_position
                  { d0 with xpos_ := d0.xpos_ + dx, ypos_ := d0.ypos_ + dy,
                            zoom_ := d0.zoom_ + amount } with
              | none => simp [hb] at hz
              | some d2 =>
                simp only [hb, Option.some_bind] at hz
                exact draw_tracker e t _ true false r hz
        · cases hz
          exact ih
    · cases hz
      exact ih
  | other _ hs ih =>
    rcases ih with ih | ih
    · left
      intro ha
      rw [hs.2.1]
      exact ih (by rw [← hs.1]; exact ha)
    · right
      rw [hs.2.2]
      exact ih

/-- C6: in every state of the renderer (what the constructor makes, and what
`invalidate`, `invalidate_all`, `scroll`, `zoom`, `draw` and the members that
leave the tracker alone make of a state) whose hexes have a width, two
successive `draw(update, false)` calls in frames in which no animation
advances, with nothing changed in between, both return, and the second
performs no redraw work: it calls `draw_tile` for no hex, does not redraw the
minimap, redraws no panel, label or sidebar report; its only possible event is
the presentation of the buffer. -/
theorem second_draw_no_redraw (e : env) (t1 t2 : tick) (d : display)
    (update1 update2 : Bool) (hr : reachable e d) (hw : hex_width d ≠ 0)
    (h1 : tick.still t1) (h2 : tick.still t2) :
    ∃ r1 r2, draw e t1 d update1 false = some r1
      ∧ draw e t2 r1.1 update2 false = some r2
      ∧ tiles_drawn r2.2 = []
      ∧ event.draw_minimap ∉ r2.2
      ∧ (∀ n, event.draw_report n ∉ r2.2)
      ∧ ∀ ev ∈ r2.2, ev = event.update_display := by
  have hex : d.map_.empty = false → tracker_exclusive d := by
    intro hmap
    rcases reachable_tracker e d hr with h | h
    · exact h
    · rw [hmap] at h
      cases h
  obtain ⟨tl, br, _, hd1⟩ := draw_some e t1 d update1 false hw
  have hw2 : hex_width (draw_in e t1 d update1 false tl br).1 ≠ 0 := by
    rw [hex_width_congr (draw_in_view e t1 d update1 false tl br)]
    exact hw
  obtain ⟨tl2, br2, _, hd2⟩ := draw_some e t2 _ update2 false hw2
  have hall := draw_in_of_settled e t2 _ update2 false tl2 br2 h2
    (frame_settled_draw_in e t1 d update1 false tl br h1 hex)
  refine ⟨_, _, hd1, hd2, ?_, ?_, ?_, hall⟩
  · unfold tiles_drawn
    rw [List.filterMap_eq_nil_iff]
    intro ev hev
    rw [hall ev hev]
  · intro hm
    cases hall _ hm
  · intro n hm
    cases hall _ hm

theorem second_draw_no_redraw_witness :
    ∃ r1 r2, draw sample_env still_tick sample_display true false = some r1
      ∧ draw sample_env still_tick r1.1 true false = some r2
      ∧ tiles_drawn r2.2 = []
      ∧ event.draw_minimap ∉ r2.2
      ∧ (∀ n, event.draw_report n ∉ r2.2)
      ∧ ∀ ev ∈ r2.2, ev = event.update_display :=
  second_draw_no_redraw sample_env still_tick still_tick sample_display true true
    (reachable.construct (plain_map 40 30) sample_area 1) (by decide)
    ⟨rfl, fun _ => rfl⟩ ⟨rfl, fun _ => rfl⟩

/-! ## Viewport manager: the claims -/

/-- C7 (as amended): from every state in which `MinZoom` is defined and the
zoom level is not zero, `scroll(dx, dy)` returns and leaves the viewport
clamped: `0 <= xpos_`, `0 <= ypos_`, and in each dimension in which the map is
at least as large as the map area the far edge of the visible rectangle is
inside the map (`xpos_ + w <= max(xend, w)`, `ypos_ + h <= max(yend, h)`).  A
`zoom(amount)` that passes its guard (to a level of at least 2) returns and
leaves the viewport clamped in the same sense; a `zoom(amount)` that does not
pass its guard returns without changing anything. -/
theorem scroll_zoom_viewport_clamped (e : env) (t : tick) (d : display)
    (dx dy amount m : Int) (hmin : MinZoom d.map_ d.map_area = some m)
    (hz : d.zoom_ ≠ 0) :
    (∃ d', scroll d dx dy = some d' ∧ viewport_clamped d')
    ∧ (zoom_accepted d amount m → 2 ≤ d.zoom_ + amount →
        ∃ r, zoom e t d amount = some r ∧ viewport_clamped r.1)
    ∧ (¬ zoom_accepted d amount m → zoom e t d amount = some (d, [])) := by
  refine ⟨?_, ?_, ?_⟩
  · obtain ⟨d', h1, h2, _⟩ := scroll_spec d dx dy m hmin
    exact ⟨d', h1, h2⟩
  · intro hacc hnew
    obtain ⟨r, h1, _, h3⟩ := zoom_accepted_spec e t d amount m hmin hz hacc hnew
    exact ⟨r, h1, h3⟩
  · exact zoom_rejected_spec e t d amount m hmin

/-- Witness for C7 (as amended): the sample display, scrolled by (10, 10),
zoomed by 20 (accepted) and zoomed by 200 (rejected). -/
theorem scroll_zoom_viewport_clamped_witness :
    (∃ d', scroll sample_display 10 10 = some d' ∧ viewport_clamped d')
    ∧ (∃ r, zoom sample_env still_tick sample_display 20 = some r ∧ viewport_clamped r.1)
    ∧ zoom sample_env still_tick sample_display 200 = some (sample_display, []) :=
  ⟨(scroll_zoom_viewport_clamped sample_env still_tick sample_display 10 10 20 21
      (by decide) (by decide)).1,
   (scroll_zoom_viewport_clamped sample_env still_tick sample_display 10 10 20 21
      (by decide) (by decide)).2.1 ⟨by decide, by decide, by decide, by decide⟩ (by decide),
   (scroll_zoom_viewport_clamped sample_env still_tick sample_display 10 10 200 21
      (by decide) (by decide)).2.2 (fun h => absurd h.2.2.2 (by decide))⟩

/-- Counterexample to C7 as stated: on a 30x20 map in a 640x480 map area,
`zoom(-43)` from the default zoom 72 is accepted (`MinZoom` is 29) and leaves
zoom 29, where the map is 637 pixels wide: the visible rectangle ends at pixel
640, outside the map.  And on a 2x2 map `scroll(0, 0)` leaves zoom 200 and a
map 350 pixels wide under the 640 pixel wide map area. -/
theorem viewport_outside_map_counterexample :
    MinZoom (plain_map 30 20) sample_area = some 29
    ∧ (zoom sample_env still_tick (display.construct (plain_map 30 20) sample_area 1) (-43)).map
        (fun r => (r.1.zoom_, r.1.xpos_, r.1.xpos_ + r.1.map_area.w,
          hex_width r.1 * r.1.map_.x + Int.tdiv (hex_width r.1) 3))
        = some (29, 0, 640, 637)
    ∧ (scroll (display.construct (plain_map 2 2) sample_area 1) 0 0).map
        (fun r => (r.zoom_, r.xpos_, r.xpos_ + r.map_area.w,
          hex_width r * r.map_.x + Int.tdiv (hex_width r) 3))
        = some (200, 0, 640, 350) := by
  decide


/-- C8 (as amended): from every state in which `MinZoom` is defined and the
zoom level is not zero, `zoom(amount)` sets the zoom level to the previous
level plus `amount` when the guard holds (`amount` is not zero, the team is
valid and the new level, at least 2, lies in `[MinZoom, MaxZoom]`); a delta that
would leave the range, like every call that fails the guard, is ignored: the
display is unchanged and nothing is drawn. -/
theorem zoom_sets_level_or_is_ignored (e : env) (t : tick) (d : display)
    (amount m : Int) (hmin : MinZoom d.map_ d.map_area = some m) (hz : d.zoom_ ≠ 0) :
    (zoom_accepted d amount m → 2 ≤ d.zoom_ + amount →
        ∃ r, zoom e t d amount = some r ∧ r.1.zoom_ = d.zoom_ + amount)
    ∧ (¬ zoom_accepted d amount m → zoom e t d amount = some (d, [])) := by
  refine ⟨?_, ?_⟩
  · intro hacc hnew
    obtain ⟨r, h1, h2, _⟩ := zoom_accepted_spec e t d amount m hmin hz hacc hnew
    exact ⟨r, h1, h2⟩
  · exact zoom_rejected_spec e t d amount m hmin

/-- Witness for C8 (as amended): the sample display zoomed by 20 and by 200. -/
theorem zoom_sets_level_or_is_ignored_witness :
    (∃ r, zoom sample_env still_tick sample_display 20 = some r
        ∧ r.1.zoom_ = sample_display.zoom_ + 20)
    ∧ zoom sample_env still_tick sample_display 200 = some (sample_display, []) :=
  ⟨(zoom_sets_level_or_is_ignored sample_env still_tick sample_display 20 21
      (by decide) (by decide)).1 ⟨by decide, by decide, by decide, by decide⟩ (by decide),
   (zoom_sets_level_or_is_ignored sample_env still_tick sample_display 200 21
      (by decide) (by decide)).2 (fun h => absurd h.2.2.2 (by decide))⟩

/-- Counterexample to C8 as stated: on a 40x30 map in a 640x480 map area
(`MinZoom` 21), `zoom(200)` at zoom 72 asks for level 272; clamping would give
`MaxZoom` = 200, but the call is ignored and the zoom level stays 72. -/
theorem zoom_out_of_range_counterexample :
    MinZoom sample_display.map_ sample_display.map_area = some 21
    ∧ sample_display.zoom_ = 72
    ∧ (if maximum 21 (sample_display.zoom_ + 200) > MaxZoom then MaxZoom
       else maximum 21 (sample_display.zoom_ + 200)) = 200
    ∧ (zoom sample_env still_tick sample_display 200).map (fun r => r.1.zoom_) = some 72 := by
  decide

/-- C9 (as amended): for every map with at least two columns and one row and
every viewport, `MinZoom` is defined and is the larger of
`viewport.w / ((map.x*3)/4)` and `viewport.h / map.y` (integer division).  At
zoom `MinZoom` the map fills the viewport only up to the rounding of these
divisions: one zoom step more would be enough in each ratio, that is
`viewport.w < (MinZoom + 1) * ((map.x*3)/4)` and
`viewport.h < (MinZoom + 1) * map.y`. -/
theorem MinZoom_larger_ratio (map : gamemap) (viewport : SDL_Rect) (hx : 2 ≤ map.x)
    (hy : 1 ≤ map.y) (hw : 0 ≤ viewport.w) (hh : 0 ≤ viewport.h) :
    ∃ m, MinZoom map viewport = some m
      ∧ m = maximum (Int.tdiv viewport.w (Int.tdiv (map.x * 3) 4))
              (Int.tdiv viewport.h map.y)
      ∧ viewport.w < (m + 1) * Int.tdiv (map.x * 3) 4
      ∧ viewport.h < (m + 1) * map.y := by
  have hq : Int.tdiv (map.x * 3) 4 = map.x * 3 / 4 :=
    tdiv_nonneg_eq _ _ (by omega) (by decide)
  have hqpos : 0 < Int.tdiv (map.x * 3) 4 := by rw [hq]; omega
  refine ⟨_, MinZoom_eq map viewport (by omega) (by omega), rfl, ?_, ?_⟩
  · have h1 := Int.lt_ediv_add_one_mul_self viewport.w hqpos
    rw [tdiv_nonneg_eq viewport.w _ hw (le_of_lt hqpos)]
    have h2 : viewport.w / Int.tdiv (map.x * 3) 4
        ≤ maximum (viewport.w / Int.tdiv (map.x * 3) 4) (Int.tdiv viewport.h map.y) := by
      unfold maximum; split_ifs <;> omega
    have h3 := Int.mul_le_mul_of_nonneg_right (Int.add_le_add_right h2 1) (le_of_lt hqpos)
    omega
  · have h1 := Int.lt_ediv_add_one_mul_self viewport.h (show (0:Int) < map.y by omega)
    rw [tdiv_nonneg_eq viewport.h _ hh (by omega)]
    have h2 : viewport.h / map.y
        ≤ maximum (Int.tdiv viewport.w (Int.tdiv (map.x * 3) 4)) (viewport.h / map.y) := by
      unfold maximum; split_ifs <;> omega
    have h3 := Int.mul_le_mul_of_nonneg_right (Int.add_le_add_right h2 1)
      (show (0:Int) ≤ map.y by omega)
    omega

/-- Witness for C9 (as amended): a 30x20 map in a 640x480 map area. -/
theorem MinZoom_larger_ratio_witness :
    ∃ m, MinZoom (plain_map 30 20) sample_area = some m
      ∧ m = maximum (Int.tdiv sample_area.w (Int.tdiv ((plain_map 30 20).x * 3) 4))
              (Int.tdiv sample_area.h (plain_map 30 20).y)
      ∧ sample_area.w < (m + 1) * Int.tdiv ((plain_map 30 20).x * 3) 4
      ∧ sample_area.h < (m + 1) * (plain_map 30 20).y :=
  MinZoom_larger_ratio (plain_map 30 20) sample_area (by decide) (by decide) (by decide)
    (by decide)

/-- Counterexample to C9 as stated: for a 30x20 map in a 640x480 map area
`MinZoom` is 29, and at zoom 29 the map is `21*30 + 21/3 = 637` pixels wide,
less than the 640 pixels of the viewport. -/
theorem MinZoom_does_not_fill_counterexample :
    MinZoom (plain_map 30 20) sample_area = some 29
    ∧ hex_width (display.at_zoom (plain_map 30 20) sample_area 29) = 21
    ∧ map_pixel_width (display.at_zoom (plain_map 30 20) sample_area 29) = 637
    ∧ ¬ (map_pixel_width (display.at_zoom (plain_map 30 20) sample_area 29)
          ≥ sample_area.w) := by
  decide


theorem get_visible_hex_bounds_eq (d : display) (hw : hex_width d ≠ 0) :
    get_visible_hex_bounds d
      = some
          (⟨(if Int.tdiv d.xpos_ (hex_width d) > -1 then Int.tdiv d.xpos_ (hex_width d) - 1
              else Int.tdiv d.xpos_ (hex_width d)),
            (if Int.tdiv (d.ypos_ - (if is_odd (Int.tdiv d.xpos_ (hex_width d))
                    then Int.tdiv d.zoom_ 2 else 0)) d.zoom_ > -1
              then Int.tdiv (d.ypos_ - (if is_odd (Int.tdiv d.xpos_ (hex_width d))
                    then Int.tdiv d.zoom_ 2 else 0)) d.zoom_ - 1
              else Int.tdiv (d.ypos_ - (if is_odd (Int.tdiv d.xpos_ (hex_width d))
                    then Int.tdiv d.zoom_ 2 else 0)) d.zoom_)⟩,
           ⟨(if Int.tdiv (d.xpos_ + d.map_area.w) (hex_width d) < d.map_.x
              then Int.tdiv (d.xpos_ + d.map_area.w) (hex_width d) + 1
              else Int.tdiv (d.xpos_ + d.map_area.w) (hex_width d)),
            (if Int.tdiv ((d.ypos_ + d.map_area.h)
                  - (if is_odd (Int.tdiv (d.xpos_ + d.map_area.w) (hex_width d))
                    then Int.tdiv d.zoom_ 2 else 0)) d.zoom_ < d.map_.y
              then Int.tdiv ((d.ypos_ + d.map_area.h)
                  - (if is_odd (Int.tdiv (d.xpos_ + d.map_area.w) (hex_width d))
                    then Int.tdiv d.zoom_ 2 else 0)) d.zoom_ + 1
              else Int.tdiv ((d.ypos_ + d.map_area.h)
                  - (if is_odd (Int.tdiv (d.xpos_ + d.map_area.w) (hex_width d))
                    then Int.tdiv d.zoom_ 2 else 0)) d.zoom_)⟩) := by
  have hz := hex_width_ne_zero_zoom d hw
  simp only [get_visible_hex_bounds, cdiv, hw, hz, if_false, Option.bind_eq_bind,
    Option.some_bind, Option.pure_def]

/-- C10 (as amended): for every viewport state as `scroll`/`zoom` leave it
(`viewport_clamped`) at a zoom level of at least 2, on a map at least as large
as the map area, `get_visible_hex_bounds` returns the range of hexes touched by
the viewport padded by one hex in each direction, the padding included also
when it leaves the board: `topleft` is exactly one column left of and one row
above the hex at the viewport's top-left pixel, `bottomright` is exactly one
column right of and one row below the hex at its bottom-right pixel, but not
beyond column `map.x()` and row `map.y()`, and both corners are within one hex
of the board, `-1 <= topleft.x`, `-1 <= topleft.y`, `bottomright.x <= map.x()`
and `bottomright.y <= map.y()`. -/
theorem get_visible_hex_bounds_padded (d : display) (hz : 2 ≤ d.zoom_)
    (hc : viewport_clamped d) (hfx : d.map_area.w ≤ map_pixel_width d)
    (hfy : d.map_area.h ≤ map_pixel_height d) (hw : 0 ≤ d.map_area.w)
    (hh : 0 ≤ d.map_area.h) :
    ∃ tl br, get_visible_hex_bounds d = some (tl, br)
      ∧ tl.x = Int.tdiv d.xpos_ (hex_width d) - 1
      ∧ tl.y = Int.tdiv (d.ypos_ - (if is_odd (Int.tdiv d.xpos_ (hex_width d))
                  then Int.tdiv d.zoom_ 2 else 0)) d.zoom_ - 1
      ∧ br.x = min (Int.tdiv (d.xpos_ + d.map_area.w) (hex_width d) + 1) d.map_.x
      ∧ br.y = min (Int.tdiv ((d.ypos_ + d.map_area.h)
            - (if is_odd (Int.tdiv (d.xpos_ + d.map_area.w) (hex_width d))
                then Int.tdiv d.zoom_ 2 else 0)) d.zoom_ + 1) d.map_.y
      ∧ -1 ≤ tl.x ∧ -1 ≤ tl.y ∧ br.x ≤ d.map_.x ∧ br.y ≤ d.map_.y := by
  have hwne := hex_width_ne_zero_of_two_le d hz
  obtain ⟨hx0, hy0, hxe, hye⟩ := hc
  have hmaxx : maximum (map_pixel_width d) d.map_area.w = map_pixel_width d := by
    unfold maximum; split_ifs <;> omega
  have hmaxy : maximum (map_pixel_height d) d.map_area.h = map_pixel_height d := by
    unfold maximum; split_ifs <;> omega
  rw [hmaxx] at hxe
  rw [hmaxy] at hye
  unfold map_pixel_width at hxe hfx
  unfold map_pixel_height at hye hfy
  have htw : hex_width d = d.zoom_ * 3 / 4 := tdiv_nonneg_eq _ _ (by omega) (by decide)
  have htwpos : 0 < hex_width d := by rw [htw]; omega
  have hhalf : Int.tdiv d.zoom_ 2 = d.zoom_ / 2 := tdiv_nonneg_eq _ _ (by omega) (by decide)
  have hthird : Int.tdiv (hex_width d) 3 = hex_width d / 3 :=
    tdiv_nonneg_eq _ _ (le_of_lt htwpos) (by decide)
  rw [hthird] at hxe hfx
  rw [hhalf] at hye hfy
  -- the four quotients
  have ha : 0 ≤ Int.tdiv d.xpos_ (hex_width d) := Int.tdiv_nonneg hx0 (le_of_lt htwpos)
  have hoff1 : ∀ c : Int, 0 ≤ (if is_odd c then Int.tdiv d.zoom_ 2 else 0)
      ∧ (if is_odd c then Int.tdiv d.zoom_ 2 else 0) ≤ d.zoom_ / 2 := by
    intro c
    split_ifs <;> omega
  have hb : 0 ≤ Int.tdiv (d.ypos_ - (if is_odd (Int.tdiv d.xpos_ (hex_width d))
      then Int.tdiv d.zoom_ 2 else 0)) d.zoom_ := by
    apply tdiv_nonneg_of_gt_neg _ _ (by omega)
    have := hoff1 (Int.tdiv d.xpos_ (hex_width d))
    omega
  have hmul1 : (d.map_.x + 1) * hex_width d = hex_width d * d.map_.x + hex_width d := by ring
  have hc' : Int.tdiv (d.xpos_ + d.map_area.w) (hex_width d) ≤ d.map_.x := by
    rw [tdiv_nonneg_eq _ _ (by omega) (le_of_lt htwpos)]
    have := Int.ediv_lt_of_lt_mul htwpos
      (show d.xpos_ + d.map_area.w < (d.map_.x + 1) * hex_width d by rw [hmul1]; omega)
    omega
  have hmul2 : (d.map_.y + 1) * d.zoom_ = d.zoom_ * d.map_.y + d.zoom_ := by ring
  have hmy : 0 ≤ d.map_.y := by
    by_contra hneg
    have h1 : d.zoom_ * (d.map_.y + 1) ≤ d.zoom_ * 0 :=
      Int.mul_le_mul_of_nonneg_left (by omega) (by omega)
    have h2 : d.zoom_ * (d.map_.y + 1) = d.zoom_ * d.map_.y + d.zoom_ := by ring
    omega
  have he : Int.tdiv ((d.ypos_ + d.map_area.h)
      - (if is_odd (Int.tdiv (d.xpos_ + d.map_area.w) (hex_width d))
          then Int.tdiv d.zoom_ 2 else 0)) d.zoom_ ≤ d.map_.y := by
    apply tdiv_le_of_lt_mul _ _ _ (by omega) hmy
    have := hoff1 (Int.tdiv (d.xpos_ + d.map_area.w) (hex_width d))
    rw [hmul2]
    omega
  rw [get_visible_hex_bounds_eq d hwne]
  generalize Int.tdiv d.xpos_ (hex_width d) = A at ha hb ⊢
  generalize Int.tdiv (d.ypos_ - (if is_odd A then Int.tdiv d.zoom_ 2 else 0)) d.zoom_ = B
    at hb ⊢
  generalize Int.tdiv (d.xpos_ + d.map_area.w) (hex_width d) = C at hc' he ⊢
  generalize Int.tdiv ((d.ypos_ + d.map_area.h)
    - (if is_odd C then Int.tdiv d.zoom_ 2 else 0)) d.zoom_ = E at he ⊢
  refine ⟨_, _, rfl, ?_, ?_, ?_, ?_, ?_, ?_, ?_, ?_⟩ <;> dsimp only <;>
    (try rw [min_def]) <;> split_ifs <;> omega

/-- Witness for C10 (as amended): the sample display, at the origin of a 40x30
map; the range is (-1, -1) to (12, 7). -/
theorem get_visible_hex_bounds_padded_witness :
    2 ≤ sample_display.zoom_ ∧ viewport_clamped sample_display
    ∧ ∃ tl br, get_visible_hex_bounds sample_display = some (tl, br)
        ∧ tl.x = Int.tdiv sample_display.xpos_ (hex_width sample_display) - 1
        ∧ tl.y = Int.tdiv (sample_display.ypos_
              - (if is_odd (Int.tdiv sample_display.xpos_ (hex_width sample_display))
                  then Int.tdiv sample_display.zoom_ 2 else 0)) sample_display.zoom_ - 1
        ∧ br.x = min (Int.tdiv (sample_display.xpos_ + sample_display.map_area.w)
              (hex_width sample_display) + 1) sample_display.map_.x
        ∧ br.y = min (Int.tdiv ((sample_display.ypos_ + sample_display.map_area.h)
              - (if is_odd (Int.tdiv (sample_display.xpos_ + sample_display.map_area.w)
                    (hex_width sample_display))
                  then Int.tdiv sample_display.zoom_ 2 else 0)) sample_display.zoom_ + 1)
            sample_display.map_.y
        ∧ -1 ≤ tl.x ∧ -1 ≤ tl.y ∧ br.x ≤ sample_display.map_.x
        ∧ br.y ≤ sample_display.map_.y :=
  ⟨by decide, by unfold viewport_clamped; decide,
    get_visible_hex_bounds_padded sample_display (by decide)
      (by unfold viewport_clamped; decide) (by decide) (by decide) (by decide)
      (by decide)⟩

/-- Counterexample to C10 as stated: on a 40x30 map in a 640x480 map area,
after `scroll(0, 0)` the returned `topleft` is (-1, -1), and after
`scroll(10000, 10000)`, at the far corner of the map, `bottomright` is
(40, 30): neither is on the board.  On a 2x2 map, smaller than the map area,
`bottomright` is (4, 2). -/
theorem get_visible_hex_bounds_off_board_counterexample :
    (scroll sample_display 0 0).bind get_visible_hex_bounds = some (⟨-1, -1⟩, ⟨12, 7⟩)
    ∧ (scroll sample_display 10000 10000).bind get_visible_hex_bounds
        = some (⟨27, 22⟩, ⟨40, 30⟩)
    ∧ (scroll (display.construct (plain_map 2 2) sample_area 1) 0 0).bind
        get_visible_hex_bounds = some (⟨-1, -1⟩, ⟨4, 2⟩) := by
  decide


/-! ## Presentation -/

theorem not_presented_append {a b : List event} (ha : not_presented a)
    (hb : not_presented b) : not_presented (a ++ b) := by
  unfold not_presented at *
  simp [ha, hb]

theorem not_presented_reports (evs : List event) (h : report_events evs) :
    not_presented evs := by
  intro hm
  obtain ⟨n, hn⟩ := h _ hm
  cases hn

theorem not_presented_map (s : List location) :
    not_presented (s.map (fun l => event.draw_tile l.x l.y)) := by
  unfold not_presented
  simp

/-- The steps before the pacing do not present, and leave `lastDraw_` and
`drawSkips_` alone. -/
theorem draw_frame_in_spec (e : env) (t : tick) (d : display) (tl br : location) :
    not_presented (draw_frame_in e t d tl br).events
      ∧ (draw_frame_in e t d tl br).d.lastDraw_ = d.lastDraw_
      ∧ (draw_frame_in e t d tl br).d.drawSkips_ = d.drawSkips_ := by
  have h0 : ∀ f : frame, not_presented f.events →
      not_presented (draw_panels e f).events
        ∧ (draw_panels e f).d.lastDraw_ = f.d.lastDraw_
        ∧ (draw_panels e f).d.drawSkips_ = f.d.drawSkips_ := by
    intro f hf
    unfold draw_panels
    split
    · refine ⟨?_, rfl, rfl⟩
      apply not_presented_append (not_presented_append hf _)
      · unfold not_presented; simp
      · unfold not_presented; simp
    · exact ⟨hf, rfl, rfl⟩
  have h1 : ∀ f : frame, not_presented f.events →
      not_presented (draw_tiles_in tl br f).events
        ∧ (draw_tiles_in tl br f).d.lastDraw_ = f.d.lastDraw_
        ∧ (draw_tiles_in tl br f).d.drawSkips_ = f.d.drawSkips_ := by
    intro f hf
    unfold draw_tiles_in
    split
    · exact ⟨not_presented_append hf (not_presented_map _), rfl, rfl⟩
    · split
      · exact ⟨not_presented_append hf (not_presented_map _), rfl, rfl⟩
      · exact ⟨hf, rfl, rfl⟩
  have h2 : ∀ f : frame, not_presented f.events →
      not_presented (draw_minimap_step f).events
        ∧ (draw_minimap_step f).d.lastDraw_ = f.d.lastDraw_
        ∧ (draw_minimap_step f).d.drawSkips_ = f.d.drawSkips_ := by
    intro f hf
    unfold draw_minimap_step
    split
    · refine ⟨not_presented_append hf ?_, rfl, rfl⟩
      unfold not_presented; simp
    · exact ⟨hf, rfl, rfl⟩
  have h3 : ∀ f : frame, not_presented f.events →
      not_presented (draw_sidebar_step e f).events
        ∧ (draw_sidebar_step e f).d.lastDraw_ = f.d.lastDraw_
        ∧ (draw_sidebar_step e f).d.drawSkips_ = f.d.drawSkips_ := by
    intro f hf
    unfold draw_sidebar_step
    split
    · exact ⟨not_presented_append hf (not_presented_reports _ (draw_sidebar_spec e f.d).2),
        draw_sidebar_lastDraw e f.d, draw_sidebar_drawSkips e f.d⟩
    · exact ⟨hf, rfl, rfl⟩
  have a0 := h0 { d := invalidate_animations_in t d tl br, events := [], changed := false }
    (by unfold not_presented; simp)
  have a1 := h1 _ a0.1
  have a2 := h2 _ a1.1
  have a3 := h3 _ a2.1
  unfold draw_frame_in
  refine ⟨a3.1, ?_, ?_⟩
  · rw [a3.2.1, a2.2.1, a1.2.1, a0.2.1]; rfl
  · rw [a3.2.2, a2.2.2, a1.2.2, a0.2.2]; rfl

/-- When `draw_present` presents: exactly when `update` is set, the pacing test
passes and the frame changed or is forced. -/
theorem draw_present_spec (t : tick) (update force : Bool) (f : frame)
    (hf : not_presented f.events) :
    event.update_display ∈ (draw_present t update force f).2
      ↔ update = true
        ∧ (f.d.lastDraw_ + 20 - t.current_time ≥ 0 ∨ f.d.drawSkips_ ≥ 5 ∨ force = true)
        ∧ (f.changed = true ∨ force = true) := by
  unfold not_presented at hf
  unfold draw_present
  dsimp only
  cases update <;> cases force <;> cases hc : f.changed <;>
    by_cases h1 : f.d.lastDraw_ + 20 - t.current_time ≥ 0 <;>
    by_cases h2 : f.d.drawSkips_ ≥ 5 <;>
    simp [h1, h2, hf]

/-- The local `changed` of `draw` when it reaches the pacing: set by every
frame on a map that is not empty, and on an empty map by the frame that draws
the panels or the minimap. -/
theorem draw_frame_in_changed (e : env) (t : tick) (d : display) (tl br : location) :
    (draw_frame_in e t d tl br).changed = true
      ↔ d.map_.empty = false ∨ d.panelsDrawn_ = false ∨ d.redrawMinimap_ = true := by
  cases hm : d.map_.empty <;> cases hp : d.panelsDrawn_ <;> cases hr : d.redrawMinimap_ <;>
    cases ha : d.invalidateAll_ <;>
    simp [draw_frame_in, draw_sidebar_step, draw_minimap_step, draw_tiles_in, draw_panels,
      invalidate_animations_in, hm, hp, hr, ha]

/-- C19, amended: every `draw(update, force)` on a display whose hexes have a
width returns, and it presents the buffer (calls `update_display`) exactly
when `update` is set, the pacing test passes (the frame is on time, or
`drawSkips_` has reached 5, or `force`), and `force` is set or the frame counts
as changed; a frame counts as changed whenever the map is not empty, whatever
was redrawn, and on an empty map when it draws the panels or the minimap.  The
buffer is never presented when `update` is false. -/
theorem draw_presents_exactly_when (e : env) (t : tick) (d : display)
    (update force : Bool) (hw : hex_width d ≠ 0) :
    ∃ r, draw e t d update force = some r
      ∧ (event.update_display ∈ r.2
          ↔ update = true
            ∧ (d.lastDraw_ + 20 - t.current_time ≥ 0 ∨ d.drawSkips_ ≥ 5 ∨ force = true)
            ∧ (force = true ∨ d.map_.empty = false ∨ d.panelsDrawn_ = false
                ∨ d.redrawMinimap_ = true))
      ∧ (update = false → event.update_display ∉ r.2) := by
  obtain ⟨tl, br, hb, hd⟩ := draw_some e t d update force hw
  obtain ⟨h1, h2, h3⟩ := draw_frame_in_spec e t d tl br
  have hp := draw_present_spec t update force (draw_frame_in e t d tl br) h1
  rw [h2, h3, draw_frame_in_changed] at hp
  have hr : (draw_in e t d update force tl br).2
      = (draw_present t update force (draw_frame_in e t d tl br)).2 := rfl
  refine ⟨_, hd, ?_, ?_⟩
  · rw [hr, hp]
    constructor
    · rintro ⟨a, b, c⟩
      refine ⟨a, b, ?_⟩
      rcases c with c | c
      · exact Or.inr c
      · exact Or.inl c
    · rintro ⟨a, b, c⟩
      refine ⟨a, b, ?_⟩
      rcases c with c | c
      · exact Or.inr c
      · exact Or.inl c
  · intro hu hm
    rw [hr] at hm
    have := (hp.1 hm).1
    rw [hu] at this
    cases this

theorem draw_presents_exactly_when_witness :
    ∃ r, draw sample_env still_tick sample_display true false = some r
      ∧ (event.update_display ∈ r.2
          ↔ true = true
            ∧ (sample_display.lastDraw_ + 20 - still_tick.current_time ≥ 0
                ∨ sample_display.drawSkips_ ≥ 5 ∨ false = true)
            ∧ (false = true ∨ sample_display.map_.empty = false
                ∨ sample_display.panelsDrawn_ = false
                ∨ sample_display.redrawMinimap_ = true))
      ∧ (true = false → event.update_display ∉ r.2) :=
  draw_presents_exactly_when sample_env still_tick sample_display true false (by decide)

set_option maxRecDepth 20000 in
/-- C19 as stated fails.  Of two successive `draw(true, false)` calls on the
40x30 map in frames in which nothing changes, the second finds `drawSkips_` at
0 and redraws nothing, no tile, no minimap, no report, and still presents the
buffer: its only event is `update_display`. -/
theorem idle_frame_presented_counterexample :
    (draw sample_env still_tick sample_display true false).bind
        (fun r => (draw sample_env still_tick r.1 true false).map
          (fun r2 => (r.1.drawSkips_, r2.2)))
      = some (0, [event.update_display]) := by
  decide

/-! ## Report cache -/

/-- C17: for a report slot `n` with a theme item (at rectangle `rect`) and a
valid viewing team: when the cached rectangle and the cached content both equal
the new ones, `draw_report` redraws nothing and returns the display unchanged;
when the content differs and the rectangle is unchanged, it redraws the slot
once and stores the new content, so that `draw_report` repeated at once with the
same inputs redraws nothing and changes nothing. -/
theorem draw_report_cache (e : env) (d : display) (n : Nat) (rect : SDL_Rect)
    (ht : team_valid d = true) (hi : e.status_item n = some rect)
    (hr : d.reportRects_ n = rect) :
    (d.reports_ n = e.generate_report n → draw_report e d n = (d, []))
      ∧ (d.reports_ n ≠ e.generate_report n →
          (draw_report e d n).2 = [event.draw_report n]
            ∧ (draw_report e d n).1.reports_ n = e.generate_report n
            ∧ (draw_report e d n).1.reportRects_ n = rect
            ∧ (∀ m, m ≠ n → (draw_report e d n).1.reports_ m = d.reports_ m
                ∧ (draw_report e d n).1.reportRects_ m = d.reportRects_ m)
            ∧ draw_report e (draw_report e d n).1 n = ((draw_report e d n).1, [])) := by
  constructor
  · intro hc
    simp [draw_report, ht, hi, hr, hc]
  · intro hc
    have h1 : draw_report e d n
        = ({ d with
              reports_ := Function.update d.reports_ n (e.generate_report n),
              reportRects_ := Function.update d.reportRects_ n rect },
           [event.draw_report n]) := by
      simp [draw_report, ht, hi, hr, hc]
    rw [h1]
    refine ⟨rfl, by simp, by simp, ?_, ?_⟩
    · intro m hm
      simp [Function.update, hm]
    · have ht2 : team_valid
          { d with
              reports_ := Function.update d.reports_ n (e.generate_report n),
              reportRects_ := Function.update d.reportRects_ n rect } = true := ht
      simp [draw_report, ht2, hi]

theorem draw_report_cache_witness :
    (draw_report sample_env stale_report_display 1).2 = [event.draw_report 1]
      ∧ (draw_report sample_env stale_report_display 1).1.reports_ 1
          = sample_env.generate_report 1
      ∧ (draw_report sample_env stale_report_display 1).1.reportRects_ 1 = ⟨10, 0, 10, 10⟩
      ∧ (∀ m, m ≠ 1 →
          (draw_report sample_env stale_report_display 1).1.reports_ m
              = stale_report_display.reports_ m
            ∧ (draw_report sample_env stale_report_display 1).1.reportRects_ m
              = stale_report_display.reportRects_ m)
      ∧ draw_report sample_env (draw_report sample_env stale_report_display 1).1 1
          = ((draw_report sample_env stale_report_display 1).1, []) :=
  (draw_report_cache sample_env stale_report_display 1 ⟨10, 0, 10, 10⟩ (by decide)
    (by decide) (by decide)).2 (by decide)

/-! ## Rendering mode -/

/-- C14: for every hex, the rendering mode that `draw_tile` computes is the
value of one ordered priority rule: BRIGHTENED if the hex is the on-board
mouse-hover hex or is the selected hex and holds a unit visible to the viewer;
otherwise SEMI_BRIGHTENED if it is in the highlighted set; otherwise GREYED if a
paths list is set and the hex is not among its routes; otherwise UNMASKED if a
transition mask is present or the hex's time-of-day mask differs from the global
one; otherwise SCALED. -/
theorem tile_image_type_priority (g : scene) (r : renderer) (loc : location) :
    tile_image_type g r loc
      = image_type_by_priority
          (decide (loc = r.mouseoverHex_) && g.on_board r.mouseoverHex_)
          (decide (loc = r.selectedHex_) && g.find_visible_unit loc)
          (decide (loc ∈ r.highlighted_locations_))
          (match r.pathsList_ with
            | some routes => decide (loc ∉ routes)
            | none => false)
          (r.tod_hex_mask1.isSome || r.tod_hex_mask2.isSome
            || decide (g.get_time_of_day.image_mask ≠ (g.timeofday_at loc).image_mask)) := by
  unfold tile_image_type image_type_by_priority
  cases hp : r.pathsList_ <;> cases h1 : r.tod_hex_mask1 <;> cases h2 : r.tod_hex_mask2 <;>
    simp

/-! ## Tile pass -/

/-- `draw_halo_on_tile` touches the halo table only and talks to the halo
manager only. -/
theorem draw_halo_on_tile_spec (g : scene) (r : renderer) (x y : Int) :
    same_outside_haloes r (draw_halo_on_tile g r x y).1
      ∧ (∀ ev ∈ (draw_halo_on_tile g r x y).2, layer.is_halo ev = true) := by
  unfold draw_halo_on_tile same_outside_haloes
  dsimp only
  split
  · exact ⟨rfl, by simp [layer.is_halo]⟩
  · split
    · exact ⟨rfl, by simp [layer.is_halo]⟩
    · exact ⟨rfl, by simp⟩
  · exact ⟨rfl, by simp⟩

theorem same_outside_haloes_view {a b : renderer} (h : same_outside_haloes a b) :
    b.todisplay = a.todisplay := by
  unfold same_outside_haloes at h
  rw [h]

/-- `draw_tile` up to its cheap reject. -/
theorem draw_tile_of_rejected (g : scene) (r : renderer) (x y : Int) (unit_image : surface)
    (hl : g.update_locked = false) (h : tile_rejected r x y) :
    draw_tile g r x y unit_image = some (draw_halo_on_tile g r x y) := by
  have hv := same_outside_haloes_view (draw_halo_on_tile_spec g r x y).1
  unfold tile_rejected at h
  unfold draw_tile
  simp only [hl, Bool.false_eq_true, if_false]
  rw [hv]
  rw [if_pos h]

/-- C13, amended: for every hex that the cheap reject of `draw_tile` catches
(its rectangle starts at or beyond the right or bottom edge of the map area, or
ends before its left or top edge), `draw_tile` returns without drawing and
without marking a rectangle for presentation: every recorded call is halo
bookkeeping, and the renderer is unchanged outside the halo table, which
`draw_halo_on_tile` brings up to date before the reject. -/
theorem draw_tile_rejected_draws_nothing (g : scene) (r : renderer) (x y : Int)
    (unit_image : surface) (h : tile_rejected r x y) :
    ∃ r1 evs, draw_tile g r x y unit_image = some (r1, evs)
      ∧ same_outside_haloes r r1
      ∧ (∀ ev ∈ evs, layer.is_halo ev = true)
      ∧ (g.update_locked = true → r1 = r ∧ evs = [])
      ∧ (g.update_locked = false → (r1, evs) = draw_halo_on_tile g r x y) := by
  cases hl : g.update_locked
  · refine ⟨(draw_halo_on_tile g r x y).1, (draw_halo_on_tile g r x y).2,
      draw_tile_of_rejected g r x y unit_image hl h, (draw_halo_on_tile_spec g r x y).1,
      (draw_halo_on_tile_spec g r x y).2, ?_, fun _ => rfl⟩
    intro hc; cases hc
  · refine ⟨r, [], ?_, rfl, by simp, fun _ => ⟨rfl, rfl⟩, ?_⟩
    · unfold draw_tile
      simp [hl]
    · intro hc; cases hc

theorem draw_tile_rejected_draws_nothing_witness :
    ∃ r1 evs, draw_tile halo_scene sample_renderer 20 0 none = some (r1, evs)
      ∧ same_outside_haloes sample_renderer r1
      ∧ (∀ ev ∈ evs, layer.is_halo ev = true)
      ∧ (halo_scene.update_locked = true → r1 = sample_renderer ∧ evs = [])
      ∧ (halo_scene.update_locked = false →
          (r1, evs) = draw_halo_on_tile halo_scene sample_renderer 20 0) :=
  draw_tile_rejected_draws_nothing halo_scene sample_renderer 20 0 none
    (by unfold tile_rejected; decide)

/-- C13 as stated fails.  Hex (20, 0) lies outside the map area, yet `draw_tile`
adds a halo for its unit: the halo table changes and the halo manager is
called.  And the rectangle of hex (0, 0), scrolled so that it ends exactly
where the map area starts, is not rejected: its layers are drawn and its
rectangle is marked for presentation. -/
theorem draw_tile_offscreen_counterexample :
    tile_disjoint sample_renderer 20 0
      ∧ (draw_tile halo_scene sample_renderer 20 0 none).map Prod.snd
          = some [layer.halo_add 1107 36 "halo/light.png"]
      ∧ (draw_tile halo_scene sample_renderer 20 0 none).map
            (fun p => p.1.haloes_ ⟨20, 0⟩) = some (some 1)
      ∧ sample_renderer.haloes_ ⟨20, 0⟩ = none
      ∧ tile_disjoint touching_renderer 0 0
      ∧ (draw_tile sample_scene touching_renderer 0 0 none).map Prod.snd
          = some [layer.terrain image.TYPE.SCALED ADJACENT_TERRAIN_TYPE.ADJACENT_BACKGROUND,
                  layer.terrain image.TYPE.SCALED ADJACENT_TERRAIN_TYPE.ADJACENT_FOREGROUND,
                  layer.terrain image.TYPE.SCALED ADJACENT_TERRAIN_TYPE.ADJACENT_FOGSHROUD,
                  layer.update_rect (-72) 0 72 72] := by
  refine ⟨?_, by decide, by decide, rfl, ?_, by decide⟩
  · unfold tile_disjoint; decide
  · unfold tile_disjoint; decide

/-- The unit pass after `draw_halo_on_tile`, and the other readers of the
renderer, do not read the halo table. -/
theorem readers_ignore_haloes (g : scene) {a b : renderer} (h : same_outside_haloes a b)
    (x y : Int) (unit_image : surface) (mask : String) :
    shrouded g b x y = shrouded g a x y
      ∧ fogged g b x y = fogged g a x y
      ∧ draw_footstep g b ⟨x, y⟩ = draw_footstep g a ⟨x, y⟩
      ∧ draw_unit_on_tile g b x y unit_image = draw_unit_on_tile g a x y unit_image
      ∧ draw_tod_mask g b mask = draw_tod_mask g a mask
      ∧ b.grid_ = a.grid_ ∧ b.debugHighlights_ = a.debugHighlights_
      ∧ b.zoom_ = a.zoom_ := by
  unfold same_outside_haloes at h
  rw [h]
  exact ⟨rfl, rfl, rfl, rfl, rfl, rfl, rfl, rfl⟩

theorem shrouded_team_valid (g : scene) (r : renderer) (x y : Int)
    (h : shrouded g r x y = true) : team_valid r.todisplay = true := by
  unfold shrouded at h
  split at h
  · assumption
  · cases h

/-- No unit layer on a fogged hex. -/
theorem draw_unit_on_tile_fogged (g : scene) (r : renderer) (x y : Int)
    (unit_image : surface) (h : fogged g r x y = true) :
    draw_unit_on_tile g r x y unit_image = some [] := by
  cases hl : g.update_locked <;> cases hu : g.units_ ⟨x, y⟩ <;>
    simp only [draw_unit_on_tile, hl, hu, h, Bool.or_true, if_true, Bool.false_eq_true,
      if_false]
  split_ifs <;> rfl

/-- With a valid viewing team the unit pass returns. -/
theorem draw_unit_on_tile_some (g : scene) (r : renderer) (x y : Int)
    (unit_image : surface) (h : team_valid r.todisplay = true) :
    ∃ evs, draw_unit_on_tile g r x y unit_image = some evs := by
  cases hl : g.update_locked <;> cases hu : g.units_ ⟨x, y⟩ <;>
    simp only [draw_unit_on_tile, hl, hu, h, Bool.not_true, if_true, Bool.false_eq_true,
      if_false]
  · exact ⟨_, rfl⟩
  · split_ifs <;> exact ⟨_, rfl⟩
  · exact ⟨_, rfl⟩
  · exact ⟨_, rfl⟩

theorem draw_footstep_layers (g : scene) (r : renderer) (loc : location) :
    ∀ ev ∈ draw_footstep g r loc, ev = layer.footstep := by
  unfold draw_footstep
  dsimp only
  split
  · simp
  · split <;> simp

theorem draw_tod_mask_layers (g : scene) (r : renderer) (mask : String) :
    ∀ ev ∈ draw_tod_mask g r mask,
      ev = layer.tod_hex_mask1 ∨ ev = layer.tod_hex_mask2 ∨ ev = layer.tod_mask mask := by
  unfold draw_tod_mask
  split
  · intro ev hev
    rw [List.mem_append] at hev
    rcases hev with hev | hev
    · split at hev
      · simp at hev; exact Or.inl hev
      · simp at hev
    · split at hev
      · simp at hev; exact Or.inr (Or.inl hev)
      · simp at hev
  · split
    · split <;> simp
    · simp

theorem unit_layers_is_unit (g : scene) (r : renderer) (loc : location) (u : unit)
    (with_energy : Bool) : ∀ ev ∈ unit_layers g r loc u with_energy, layer.is_unit ev = true := by
  intro ev hev
  unfold unit_layers at hev
  simp only [List.mem_append, List.mem_map, List.mem_filter] at hev
  rcases hev with (((hev | hev) | hev) | hev) | hev
  · split_ifs at hev
    · rw [List.mem_singleton] at hev; subst hev; rfl
    · cases hev
  · split_ifs at hev
    · rw [List.mem_singleton] at hev; subst hev; rfl
    · cases hev
  · split_ifs at hev
    · rw [List.mem_singleton] at hev; subst hev; rfl
    · cases hev
  · split_ifs at hev
    · rw [List.mem_singleton] at hev; subst hev; rfl
    · cases hev
  · obtain ⟨a, _, ha⟩ := hev
    subst ha; rfl

theorem draw_unit_on_tile_layers (g : scene) (r : renderer) (x y : Int)
    (unit_image : surface) (evs : List layer)
    (h : draw_unit_on_tile g r x y unit_image = some evs) :
    ∀ ev ∈ evs, layer.is_unit ev = true := by
  have hnil : ∀ l : List layer, some [] = some l → ∀ ev ∈ l, layer.is_unit ev = true := by
    intro l hl
    simp only [Option.some.injEq] at hl
    subst hl
    simp
  cases hl : g.update_locked <;> cases hu : g.units_ ⟨x, y⟩ <;>
    simp only [draw_unit_on_tile, hl, hu, Bool.false_eq_true, if_false, if_true] at h
  · exact hnil _ h
  · split_ifs at h
    all_goals first
      | exact hnil _ h
      | (simp only [Option.some.injEq] at h
         subst h
         exact unit_layers_is_unit _ _ _ _ _)
  · exact hnil _ h
  · exact hnil _ h

/-- The layers of `draw_tile` on a shrouded hex that passes the cheap reject,
when the unseen tile is available. -/
theorem draw_tile_of_shrouded (g : scene) (r : renderer) (x y : Int) (unit_image : surface)
    (hl : g.update_locked = false) (hs : shrouded g r x y = true)
    (hv : ¬ tile_rejected r x y) (hvoid : (g.get_image "terrain/void.png").isSome = true) :
    ∃ units, draw_unit_on_tile g r x y unit_image = some units
      ∧ draw_tile g r x y unit_image
        = some ((draw_halo_on_tile g r x y).1,
            (draw_halo_on_tile g r x y).2 ++ [layer.unseen] ++ draw_footstep g r ⟨x, y⟩
              ++ units
              ++ (draw_tod_mask g r (g.timeofday_at ⟨x, y⟩).image_mask
                ++ (if r.grid_ && (g.get_image "terrain/grid.png").isSome
                    then [layer.grid] else [])
                ++ (if g.debug && decide ((⟨x, y⟩ : location) ∈ r.debugHighlights_)
                        && (g.get_image g.cross_image).isSome
                    then [layer.cross] else []))
              ++ [layer.update_rect (get_location_x r.todisplay ⟨x, y⟩)
                    (get_location_y r.todisplay ⟨x, y⟩) r.zoom_ r.zoom_]) := by
  have hh := (draw_halo_on_tile_spec g r x y).1
  have hview := same_outside_haloes_view hh
  obtain ⟨k1, k2, k3, k4, k5, k6, k7, k8⟩ :=
    readers_ignore_haloes g hh x y unit_image (g.timeofday_at ⟨x, y⟩).image_mask
  have ht := shrouded_team_valid g r x y hs
  obtain ⟨units, hu⟩ := draw_unit_on_tile_some g r x y unit_image ht
  refine ⟨units, hu, ?_⟩
  unfold tile_rejected at hv
  unfold draw_tile
  simp only [hl, Bool.false_eq_true, if_false]
  rw [hview, if_neg hv]
  simp only [ht, Bool.not_true, Bool.false_eq_true, if_false, k1, k2, k3, k4, k5, k6, k7,
    k8, hs, hvoid, if_true, hu, Option.bind_eq_bind, Option.some_bind, Option.pure_def,
    Bool.true_eq_false, Bool.and_false, Bool.false_and, List.nil_append, beq_iff_eq,
    List.append_nil, beq_self_eq_true, Bool.not_true, bne_self_eq_false]
  simp

theorem count_unseen_zero (l : List layer) (h : ∀ ev ∈ l, ev ≠ layer.unseen) :
    l.count layer.unseen = 0 := by
  rw [List.count_eq_zero]
  intro hm
  exact h _ hm rfl

/-- C12, amended: for every shrouded hex that passes the cheap reject (so every
shrouded hex whose rectangle intersects the map area), with the unseen tile
available, `draw_tile` draws the unseen tile exactly once and none of the hex's
own content: no terrain, village flag, overlay, movement information or fog;
when the hex is also fogged it draws no unit layer.  The time-of-day mask and
the grid are drawn over it as over any other hex. -/
theorem draw_tile_shrouded_layers (g : scene) (r : renderer) (x y : Int)
    (unit_image : surface) (hl : g.update_locked = false) (hs : shrouded g r x y = true)
    (hv : ¬ tile_rejected r x y) (hvoid : (g.get_image "terrain/void.png").isSome = true) :
    ∃ r1 evs, draw_tile g r x y unit_image = some (r1, evs)
      ∧ evs.count layer.unseen = 1
      ∧ (∀ ev ∈ evs, layer.is_content ev = false)
      ∧ (fogged g r x y = true → ∀ ev ∈ evs, layer.is_unit ev = false)
      ∧ (∀ ev ∈ draw_tod_mask g r (g.timeofday_at ⟨x, y⟩).image_mask, ev ∈ evs)
      ∧ (r.grid_ = true → (g.get_image "terrain/grid.png").isSome = true →
          layer.grid ∈ evs) := by
  obtain ⟨units, hu, hd⟩ := draw_tile_of_shrouded g r x y unit_image hl hs hv hvoid
  have h1 := (draw_halo_on_tile_spec g r x y).2
  have h2 := draw_footstep_layers g r ⟨x, y⟩
  have h3 := draw_unit_on_tile_layers g r x y unit_image units hu
  have h4 := draw_tod_mask_layers g r (g.timeofday_at ⟨x, y⟩).image_mask
  refine ⟨_, _, hd, ?_, ?_, ?_, ?_, ?_⟩
  · have c1 : (draw_halo_on_tile g r x y).2.count layer.unseen = 0 :=
      count_unseen_zero _ (fun ev hev he => by
        have := h1 ev hev; rw [he] at this; cases this)
    have c2 : (draw_footstep g r ⟨x, y⟩).count layer.unseen = 0 :=
      count_unseen_zero _ (fun ev hev he => by
        have := h2 ev hev; rw [he] at this; cases this)
    have c3 : units.count layer.unseen = 0 :=
      count_unseen_zero _ (fun ev hev he => by
        have := h3 ev hev; rw [he] at this; cases this)
    have c4 : (draw_tod_mask g r (g.timeofday_at ⟨x, y⟩).image_mask).count layer.unseen
        = 0 :=
      count_unseen_zero _ (fun ev hev he => by
        have := h4 ev hev; rw [he] at this
        rcases this with h | h | h <;> cases h)
    simp only [List.count_append, c1, c2, c3, c4]
    split_ifs <;> simp
  · intro ev hev
    simp only [List.mem_append, List.mem_singleton] at hev
    rcases hev with ((((hev | hev) | hev) | hev) | ((hev | hev) | hev)) | hev
    · have := h1 ev hev
      cases ev <;> first | rfl | cases this
    · subst hev; rfl
    · rw [h2 ev hev]; rfl
    · have := h3 ev hev
      cases ev <;> first | rfl | cases this
    · rcases h4 ev hev with h | h | h <;> subst h <;> rfl
    · split_ifs at hev
      · rw [List.mem_singleton] at hev; subst hev; rfl
      · cases hev
    · split_ifs at hev
      · rw [List.mem_singleton] at hev; subst hev; rfl
      · cases hev
    · subst hev; rfl
  · intro hf ev hev
    rw [draw_unit_on_tile_fogged g r x y unit_image hf] at hu
    simp only [Option.some.injEq] at hu
    subst hu
    simp only [List.mem_append, List.mem_singleton, List.not_mem_nil, or_false] at hev
    rcases hev with (((hev | hev) | hev) | ((hev | hev) | hev)) | hev
    · have := h1 ev hev
      cases ev <;> first | rfl | cases this
    · subst hev; rfl
    · rw [h2 ev hev]; rfl
    · rcases h4 ev hev with h | h | h <;> subst h <;> rfl
    · split_ifs at hev
      · rw [List.mem_singleton] at hev; subst hev; rfl
      · cases hev
    · split_ifs at hev
      · rw [List.mem_singleton] at hev; subst hev; rfl
      · cases hev
    · subst hev; rfl
  · intro ev hev
    simp only [List.mem_append]
    exact Or.inl (Or.inr (Or.inl (Or.inl hev)))
  · intro hg hi
    simp only [List.mem_append]
    refine Or.inl (Or.inr (Or.inl (Or.inr ?_)))
    simp [hg, hi]

theorem draw_tile_shrouded_layers_witness :
    ∃ r1 evs, draw_tile shrouded_scene grid_renderer 2 1 none = some (r1, evs)
      ∧ evs.count layer.unseen = 1
      ∧ (∀ ev ∈ evs, layer.is_content ev = false)
      ∧ (fogged shrouded_scene grid_renderer 2 1 = true →
          ∀ ev ∈ evs, layer.is_unit ev = false)
      ∧ (∀ ev ∈ draw_tod_mask shrouded_scene grid_renderer
            (shrouded_scene.timeofday_at ⟨2, 1⟩).image_mask, ev ∈ evs)
      ∧ (grid_renderer.grid_ = true →
          (shrouded_scene.get_image "terrain/grid.png").isSome = true →
          layer.grid ∈ evs) :=
  draw_tile_shrouded_layers shrouded_scene grid_renderer 2 1 none rfl (by decide)
    (by unfold tile_rejected; decide) (by decide)

/-- C12 as stated fails: hex (2, 1) is shrouded and inside the map area, and
`draw_tile` draws the time-of-day mask and the grid on top of the unseen
tile. -/
theorem draw_tile_shrouded_counterexample :
    shrouded shrouded_scene grid_renderer 2 1 = true
      ∧ ¬ tile_disjoint grid_renderer 2 1
      ∧ (draw_tile shrouded_scene grid_renderer 2 1 none).map Prod.snd
          = some [layer.unseen, layer.tod_mask "terrain/night.png", layer.grid,
                  layer.update_rect 108 72 72 72] := by
  refine ⟨by decide, ?_, by decide⟩
  unfold tile_disjoint; decide

/-! ## Scroll animation -/

/-- A frame drawn on a display with hexes of non-zero width returns, and leaves
the viewport as it was. -/
theorem draw_some_view (e : env) (t : tick) (d : display) (update force : Bool)
    (hw : hex_width d ≠ 0) :
    ∃ f, draw e t d update force = some f ∧ same_view d f.1 := by
  obtain ⟨tl, br, _, hd⟩ := draw_some e t d update force hw
  exact ⟨_, hd, draw_in_view e t d update force tl br⟩

theorem hex_width_of_same_view {a b : display} (h : same_view a b) (hw : hex_width a ≠ 0) :
    hex_width b ≠ 0 := by
  rw [hex_width_congr h]
  exact hw

/-- After a `scroll` from a zoom level of at least 2 the hexes still have a
width. -/
theorem scroll_some_width (d : display) (xmove ymove m : Int)
    (hmin : MinZoom d.map_ d.map_area = some m) (hz : 2 ≤ d.zoom_) :
    ∃ d1, scroll d xmove ymove = some d1 ∧ hex_width d1 ≠ 0 := by
  obtain ⟨d1, h1, _, h3⟩ := scroll_spec d xmove ymove m hmin
  refine ⟨d1, h1, hex_width_ne_zero_of_two_le d1 ?_⟩
  rw [h3]
  unfold MaxZoom
  split_ifs <;> omega

/-- C20, amended: for every on-board target hex that is not fogged (when fog is
checked), with updates unlocked, a non-zero scroll speed, a defined minimum
zoom and a zoom level of at least 2, `scroll_to_tile` in WARP mode returns
after exactly these calls: one event pump, one `scroll` by the full delta
`(xmove, ymove)` that centres the hex, one `draw()` of the scrolled view and,
after `invalidate_all()`, a second `draw()`. -/
theorem scroll_to_tile_warp_calls (e : env) (g : scene) (ticks : Nat → tick)
    (r : renderer) (x y m : Int) (check_fogged : Bool)
    (hl : g.update_locked = false) (hf : (check_fogged && fogged g r x y) = false)
    (hb : g.on_board ⟨x, y⟩ = true) (hs : g.scroll_speed ≠ 0)
    (hmin : MinZoom r.map_ r.map_area = some m) (hz : 2 ≤ r.zoom_) :
    ∃ r1 f1 f2,
      scroll_to_tile e g ticks r x y SCROLL_TYPE.WARP check_fogged
        = some (r1,
            [call.pump,
             call.scroll
               (get_location_x r.todisplay ⟨x, y⟩
                 - (Int.tdiv r.map_area.w 2 - Int.tdiv r.zoom_ 2))
               (get_location_y r.todisplay ⟨x, y⟩
                 - (Int.tdiv r.map_area.h 2 - Int.tdiv r.zoom_ 2)),
             call.draw f1, call.invalidate_all, call.draw f2]) := by
  obtain ⟨d1, hd1, hw1⟩ := scroll_some_width r.todisplay
    (get_location_x r.todisplay ⟨x, y⟩ - (Int.tdiv r.map_area.w 2 - Int.tdiv r.zoom_ 2))
    (get_location_y r.todisplay ⟨x, y⟩ - (Int.tdiv r.map_area.h 2 - Int.tdiv r.zoom_ 2))
    m hmin hz
  obtain ⟨f1, hf1, hv1⟩ := draw_some_view e (ticks 0) d1 true false hw1
  have hw2 : hex_width (invalidate_all f1.1) ≠ 0 :=
    hex_width_of_same_view (invalidate_all_view f1.1) (hex_width_of_same_view hv1 hw1)
  obtain ⟨f2, hf2, _⟩ := draw_some_view e (ticks 1) (invalidate_all f1.1) true false hw2
  have hs2 : g.scroll_speed * 2 ≠ 0 := by omega
  have hr : List.range 1 = [0] := rfl
  refine ⟨{ r with todisplay := f2.1 }, f1.2, f2.2, ?_⟩
  simp only [scroll_to_tile, hl, hf, hb, Bool.or_self, Bool.false_eq_true, if_false, cdiv, hs2,
    Option.bind_eq_bind, Option.some_bind, true_or, if_true, Int.toNat_one, hr,
    List.foldlM_cons, List.foldlM_nil, scroll_to_tile_step, one_ne_zero, Int.tdiv_one, hd1,
    Option.pure_def, Option.bind_some, Nat.cast_zero, Int.zero_tmod, ne_eq, not_true_eq_false,
    false_and, hf1, List.nil_append, hf2, List.cons_append, List.singleton_append,
    Bool.true_eq_false, Int.reduceLT]

theorem scroll_to_tile_warp_calls_witness :
    ∃ r1 f1 f2,
      scroll_to_tile sample_env sample_scene (fun _ => still_tick) sample_renderer 20 15
          SCROLL_TYPE.WARP true
        = some (r1,
            [call.pump,
             call.scroll
               (get_location_x sample_renderer.todisplay ⟨20, 15⟩
                 - (Int.tdiv sample_renderer.map_area.w 2 - Int.tdiv sample_renderer.zoom_ 2))
               (get_location_y sample_renderer.todisplay ⟨20, 15⟩
                 - (Int.tdiv sample_renderer.map_area.h 2 - Int.tdiv sample_renderer.zoom_ 2)),
             call.draw f1, call.invalidate_all, call.draw f2]) :=
  scroll_to_tile_warp_calls sample_env sample_scene (fun _ => still_tick) sample_renderer
    20 15 21 true rfl (by decide) (by decide) (by decide) (by decide) (by decide)

set_option maxRecDepth 8000 in
/-- C20 as stated fails: centring hex (20, 15) of the sample map in WARP mode
takes one `scroll`, by the full delta (796, 876), but two `draw()` calls, not
one. -/
theorem scroll_to_tile_warp_counterexample :
    (scroll_to_tile sample_env sample_scene (fun _ => still_tick) sample_renderer 20 15
        SCROLL_TYPE.WARP true).map
      (fun p => (p.2.filter call.is_scroll, p.2.countP call.is_draw))
      = some ([call.scroll 796 876], 2) := by
  decide

/-! ## Time-of-day transition -/

/-- One cross-fade step returns when the hexes have a width, and keeps the
width. -/
theorem new_turn_step_some (e : env) (g : scene) (ticks : Nat → tick)
    (old_mask new_mask : surface) (n : Int) (acc : renderer × List call) (i : Nat)
    (hw : hex_width acc.1.todisplay ≠ 0) :
    ∃ s, new_turn_step e g ticks old_mask new_mask n acc i = some s
      ∧ hex_width s.1.todisplay ≠ 0 := by
  have key : ∀ r : renderer, hex_width r.todisplay ≠ 0 →
      ∃ f, draw e (ticks i) (invalidate_all r.todisplay) true false = some f
        ∧ hex_width f.1 ≠ 0 := by
    intro r hr
    have h1 := hex_width_of_same_view (invalidate_all_view r.todisplay) hr
    obtain ⟨f, hf, hv⟩ := draw_some_view e (ticks i) _ true false h1
    exact ⟨f, hf, hex_width_of_same_view hv h1⟩
  unfold new_turn_step
  dsimp only
  split_ifs
  · obtain ⟨f, hf, hv⟩ := key
      { acc.1 with
        tod_hex_mask1 := g.adjust_surface_alpha old_mask (g.ftofxp_one - g.fxpdiv i n),
        tod_hex_mask2 := g.adjust_surface_alpha new_mask (g.fxpdiv i n) } hw
    exact ⟨_, by simp only [hf, Option.bind_eq_bind, Option.some_bind, Option.pure_def]; rfl, hv⟩
  · obtain ⟨f, hf, hv⟩ := key
      { acc.1 with
        tod_hex_mask1 := g.adjust_surface_alpha old_mask (g.ftofxp_one - g.fxpdiv i n) } hw
    exact ⟨_, by simp only [hf, Option.bind_eq_bind, Option.some_bind, Option.pure_def]; rfl, hv⟩
  · obtain ⟨f, hf, hv⟩ := key
      { acc.1 with tod_hex_mask2 := g.adjust_surface_alpha new_mask (g.fxpdiv i n) } hw
    exact ⟨_, by simp only [hf, Option.bind_eq_bind, Option.some_bind, Option.pure_def]; rfl, hv⟩
  · obtain ⟨f, hf, hv⟩ := key acc.1 hw
    exact ⟨_, by simp only [hf, Option.bind_eq_bind, Option.some_bind, Option.pure_def]; rfl, hv⟩

/-- The cross-fade loop returns when the hexes have a width. -/
theorem new_turn_loop_some (e : env) (g : scene) (ticks : Nat → tick)
    (old_mask new_mask : surface) (n : Int) (steps : List Nat) :
    ∀ acc : renderer × List call, hex_width acc.1.todisplay ≠ 0 →
      ∃ s, steps.foldlM (new_turn_step e g ticks old_mask new_mask n) acc = some s := by
  induction steps with
  | nil => intro acc _; exact ⟨acc, rfl⟩
  | cons i rest ih =>
    intro acc hw
    obtain ⟨s, hs, hw1⟩ := new_turn_step_some e g ticks old_mask new_mask n acc i hw
    obtain ⟨s1, hs1⟩ := ih s hw1
    exact ⟨s1, by simp only [List.foldlM_cons, hs, Option.bind_eq_bind, Option.some_bind, hs1]⟩

/-- The time-of-day step of `draw_tile` when no transition mask is set: the
single mask of the hex, when it names an image that is found. -/
theorem draw_tod_mask_single (g : scene) (r : renderer) (mask : String)
    (h1 : r.tod_hex_mask1 = none) (h2 : r.tod_hex_mask2 = none) :
    draw_tod_mask g r mask
      = if mask ≠ "" ∧ (g.get_image mask).isSome = true then [layer.tod_mask mask] else [] := by
  unfold draw_tod_mask
  rw [h1, h2]
  by_cases hm : mask = "" <;> simp [hm]

/-- C18, amended: every `new_turn()` that starts with no transition in progress
(both transition masks empty, as the constructor and every earlier `new_turn`
leave them) on a display whose hexes have a width returns, turbo or not, first
turn or not, old and new image masks equal or distinct, with both transition
masks empty and the renderer committed to the new phase: the image mask is the
current time of day's `image_mask` and the colour adjustment is its
`(red, green, blue)`.  A later `draw_tile` then draws neither transition mask
and at most one time-of-day mask: the image mask of the hex's time of day, when
it has one and the image is found. -/
theorem new_turn_commits (e : env) (g : scene) (ticks : Nat → tick) (r : renderer)
    (img : image_settings) (hw : hex_width r.todisplay ≠ 0)
    (h1 : r.tod_hex_mask1 = none) (h2 : r.tod_hex_mask2 = none) :
    ∃ r1 img1 calls, new_turn e g ticks r img = some (r1, img1, calls)
      ∧ r1.tod_hex_mask1 = none ∧ r1.tod_hex_mask2 = none
      ∧ r1.first_turn_ = false
      ∧ img1 = ⟨g.get_time_of_day.image_mask, g.get_time_of_day.red,
                g.get_time_of_day.green, g.get_time_of_day.blue⟩
      ∧ (∀ mask, draw_tod_mask g r1 mask
          = if mask ≠ "" ∧ (g.get_image mask).isSome = true
            then [layer.tod_mask mask] else []) := by
  unfold new_turn
  by_cases hc : (!turbo g r && !r.first_turn_) = true
  · by_cases hm : g.get_previous_time_of_day.image_mask ≠ g.get_time_of_day.image_mask
    · obtain ⟨s, hs⟩ := new_turn_loop_some e g ticks
        (g.get_image g.get_previous_time_of_day.image_mask)
        (g.get_image g.get_time_of_day.image_mask) 10 (List.range (10 : Int).toNat)
        (r, [call.set_image_mask ""]) hw
      simp only [hc, hm, if_true, hs, Option.bind_eq_bind, Option.some_bind, Option.pure_def,
        ne_eq, not_false_eq_true]
      exact ⟨_, _, _, rfl, rfl, rfl, rfl, rfl,
        fun mask => draw_tod_mask_single g _ mask rfl rfl⟩
    · simp only [hc, hm, if_true, if_false, Option.bind_eq_bind, Option.some_bind,
        Option.pure_def]
      exact ⟨_, _, _, rfl, rfl, rfl, rfl, rfl,
        fun mask => draw_tod_mask_single g _ mask rfl rfl⟩
  · simp only [hc, if_false, Option.bind_eq_bind, Option.some_bind, Option.pure_def,
      Bool.false_eq_true]
    exact ⟨_, _, _, rfl, h1, h2, rfl, rfl,
      fun mask => draw_tod_mask_single g _ mask h1 h2⟩

theorem new_turn_commits_witness :
    ∃ r1 img1 calls,
      new_turn sample_env dusk_scene (fun _ => still_tick) later_renderer day_settings
        = some (r1, img1, calls)
      ∧ r1.tod_hex_mask1 = none ∧ r1.tod_hex_mask2 = none
      ∧ r1.first_turn_ = false
      ∧ img1 = ⟨dusk_scene.get_time_of_day.image_mask, dusk_scene.get_time_of_day.red,
                dusk_scene.get_time_of_day.green, dusk_scene.get_time_of_day.blue⟩
      ∧ (∀ mask, draw_tod_mask dusk_scene r1 mask
          = if mask ≠ "" ∧ (dusk_scene.get_image mask).isSome = true
            then [layer.tod_mask mask] else []) :=
  new_turn_commits sample_env dusk_scene (fun _ => still_tick) later_renderer day_settings
    (by decide) rfl rfl

set_option maxRecDepth 20000 in
/-- C18 as stated fails in its last part.  After the `new_turn()` from dawn into
the morning, a time of day without image mask, both transition masks are empty
and the settings are those of the morning, but a later `draw_tile` applies no
time-of-day mask at all, not one: the layers of hex (2, 1) are its terrain
only. -/
theorem new_turn_maskless_counterexample :
    (new_turn sample_env morning_scene (fun _ => still_tick) later_renderer
        day_settings).map
      (fun p => (p.1.tod_hex_mask1, p.1.tod_hex_mask2, p.2.1,
        (draw_tile morning_scene p.1 2 1 none).map Prod.snd))
      = some (none, none, ⟨"", 0, 0, 0⟩,
          some [layer.terrain image.TYPE.SCALED ADJACENT_TERRAIN_TYPE.ADJACENT_BACKGROUND,
                layer.terrain image.TYPE.SCALED ADJACENT_TERRAIN_TYPE.ADJACENT_FOREGROUND,
                layer.terrain image.TYPE.SCALED ADJACENT_TERRAIN_TYPE.ADJACENT_FOGSHROUD,
                layer.update_rect 108 72 72 72]) := by
  decide

/-! ## Floating point -/

theorem bit_length_aux_spec (fuel : Nat) :
    ∀ n : Nat, n ≤ fuel → 0 < n →
      2 ^ (bit_length_aux fuel n - 1) ≤ n ∧ n < 2 ^ bit_length_aux fuel n
        ∧ 0 < bit_length_aux fuel n := by
  induction fuel with
  | zero => intro n h1 h2; omega
  | succ f ih =>
    intro n h1 h2
    have hn : n ≠ 0 := by omega
    simp only [bit_length_aux, hn, if_false]
    by_cases h0 : n / 2 = 0
    · have h1' : n = 1 := by omega
      subst h1'
      cases f <;> simp [bit_length_aux]
    · obtain ⟨a1, a2, a3⟩ := ih (n / 2) (by omega) (by omega)
      refine ⟨?_, ?_, by omega⟩
      · have : bit_length_aux f (n / 2) + 1 - 1 = (bit_length_aux f (n / 2) - 1) + 1 := by
          omega
        rw [this, pow_succ]
        omega
      · rw [pow_succ]
        omega

/-- A positive number lies between the two powers of two that its bit length
names. -/
theorem bit_length_spec (n : Nat) (h : 0 < n) :
    2 ^ (bit_length n - 1) ≤ n ∧ n < 2 ^ bit_length n ∧ 0 < bit_length n :=
  bit_length_aux_spec n n (le_refl n) h

/-- Rounding to nearest moves by at most one half. -/
theorem round_half_even_spec (n d : Int) (hd : 0 < d) :
    2 * (round_half_even n d * d) ≤ 2 * n + d ∧ 2 * n ≤ 2 * (round_half_even n d * d) + d := by
  have h1 := Int.emod_add_ediv n d
  have h2 := Int.emod_nonneg n (ne_of_gt hd)
  have h3 := Int.emod_lt_of_pos n hd
  have h4 : n / d * d = d * (n / d) := mul_comm _ _
  unfold round_half_even
  dsimp only
  split_ifs <;> constructor <;> first | omega | (rw [add_mul]; omega)

/-- The rounded quotient depends on the value of the fraction only. -/
theorem round_half_even_congr (n d n1 d1 : Int) (hd : 0 < d) (hd1 : 0 < d1)
    (h : n * d1 = n1 * d) : round_half_even n d = round_half_even n1 d1 := by
  have e1 := Int.emod_add_ediv n d
  have e2 := Int.emod_nonneg n (ne_of_gt hd)
  have e3 := Int.emod_lt_of_pos n hd
  -- the remainder of the second fraction
  have key : (n1 - n / d * d1) * d = n % d * d1 := by
    have : n % d = n - d * (n / d) := by omega
    rw [this]
    linear_combination -h
  have r0 : 0 ≤ n1 - n / d * d1 := by
    by_contra hc
    have hc' : n1 - n / d * d1 < 0 := by omega
    have : (n1 - n / d * d1) * d < 0 := Int.mul_neg_of_neg_of_pos hc' hd
    have : 0 ≤ n % d * d1 := Int.mul_nonneg e2 (le_of_lt hd1)
    omega
  have r1 : n1 - n / d * d1 < d1 := by
    by_contra hc
    have hc' : d1 ≤ n1 - n / d * d1 := by omega
    have h5 : d1 * d ≤ (n1 - n / d * d1) * d := Int.mul_le_mul_of_nonneg_right hc' (le_of_lt hd)
    have h6 : n % d * d1 < d * d1 := Int.mul_lt_mul_of_pos_right e3 hd1
    have h7 : d1 * d = d * d1 := mul_comm _ _
    omega
  have hq : n1 / d1 = n / d ∧ n1 % d1 = n1 - n / d * d1 := by
    have := (Int.ediv_emod_unique hd1 (a := n1) (r := n1 - n / d * d1) (q := n / d)).2
      ⟨by linarith [mul_comm d1 (n / d)], r0, r1⟩
    exact this
  unfold round_half_even
  dsimp only
  rw [hq.1, hq.2]
  have c1 : 2 * (n % d) < d ↔ 2 * (n1 - n / d * d1) < d1 := by
    constructor
    · intro hlt
      by_contra hc
      have hc' : d1 ≤ 2 * (n1 - n / d * d1) := by omega
      have h5 : d1 * d ≤ 2 * (n1 - n / d * d1) * d := Int.mul_le_mul_of_nonneg_right hc' (le_of_lt hd)
      have h6 : 2 * (n % d) * d1 < d * d1 := Int.mul_lt_mul_of_pos_right hlt hd1
      nlinarith
    · intro hlt
      by_contra hc
      have hc' : d ≤ 2 * (n % d) := by omega
      have h5 : d * d1 ≤ 2 * (n % d) * d1 := Int.mul_le_mul_of_nonneg_right hc' (le_of_lt hd1)
      have h6 : 2 * (n1 - n / d * d1) * d < d1 * d := Int.mul_lt_mul_of_pos_right hlt hd
      nlinarith
  have c2 : d < 2 * (n % d) ↔ d1 < 2 * (n1 - n / d * d1) := by
    constructor
    · intro hlt
      by_contra hc
      have hc' : 2 * (n1 - n / d * d1) ≤ d1 := by omega
      have h5 : 2 * (n1 - n / d * d1) * d ≤ d1 * d := Int.mul_le_mul_of_nonneg_right hc' (le_of_lt hd)
      have h6 : d * d1 < 2 * (n % d) * d1 := Int.mul_lt_mul_of_pos_right hlt hd1
      nlinarith
    · intro hlt
      by_contra hc
      have hc' : 2 * (n % d) ≤ d := by omega
      have h5 : 2 * (n % d) * d1 ≤ d * d1 := Int.mul_le_mul_of_nonneg_right hc' (le_of_lt hd1)
      have h6 : d1 * d < 2 * (n1 - n / d * d1) * d := Int.mul_lt_mul_of_pos_right hlt hd
      nlinarith
  simp only [c1, c2]

theorem two_zpow_of_nonneg (s : Int) (h : 0 ≤ s) :
    (2 : ℚ) ^ s = ((2 ^ s.toNat : Nat) : ℚ) := by
  obtain ⟨k, rfl⟩ := Int.eq_ofNat_of_zero_le h
  simp [zpow_natCast]

theorem two_zpow_of_neg (s : Int) (h : s < 0) :
    (2 : ℚ) ^ s = 1 / ((2 ^ (-s).toNat : Nat) : ℚ) := by
  obtain ⟨k, hk⟩ := Int.eq_ofNat_of_zero_le (show 0 ≤ -s by omega)
  have hs : s = -(k : Int) := by omega
  subst hs
  simp [zpow_neg, zpow_natCast]

theorem two_zpow_pos (s : Int) : (0 : ℚ) < (2 : ℚ) ^ s := zpow_pos (by norm_num) s

/-- The comparison that fixes the exponent, read on the rationals. -/
theorem exponent_test (a b : Nat) (hb : 0 < b) (e0 : Int) :
    (if 0 ≤ e0 then decide (b * 2 ^ e0.toNat ≤ a) else decide (b ≤ a * 2 ^ (-e0).toNat))
        = true
      ↔ (2 : ℚ) ^ e0 ≤ (a : ℚ) / (b : ℚ) := by
  have hbq : (0 : ℚ) < (b : ℚ) := by exact_mod_cast hb
  by_cases h : 0 ≤ e0
  · rw [if_pos h, two_zpow_of_nonneg e0 h, le_div_iff₀ hbq, decide_eq_true_iff]
    constructor
    · intro hle
      have : ((b * 2 ^ e0.toNat : Nat) : ℚ) ≤ (a : ℚ) := by exact_mod_cast hle
      rw [mul_comm]
      exact_mod_cast this
    · intro hle
      have : ((2 ^ e0.toNat * b : Nat) : ℚ) ≤ (a : ℚ) := by exact_mod_cast hle
      have : 2 ^ e0.toNat * b ≤ a := by exact_mod_cast this
      rw [mul_comm]
      exact this
  · have hneg : e0 < 0 := by omega
    have hp : (0 : ℚ) < ((2 ^ (-e0).toNat : Nat) : ℚ) := by positivity
    rw [if_neg h, two_zpow_of_neg e0 hneg, le_div_iff₀ hbq, decide_eq_true_iff,
      div_mul_eq_mul_div, one_mul, div_le_iff₀ hp]
    constructor
    · intro hle
      exact_mod_cast hle
    · intro hle
      exact_mod_cast hle

/-- The exponent brackets the quotient: `2^E <= a/b < 2^(E+1)`. -/
theorem quotient_exponent_spec (a b : Nat) (ha : 0 < a) (hb : 0 < b) :
    (2 : ℚ) ^ quotient_exponent a b ≤ (a : ℚ) / (b : ℚ)
      ∧ (a : ℚ) / (b : ℚ) < (2 : ℚ) ^ (quotient_exponent a b + 1) := by
  obtain ⟨a1, a2, a3⟩ := bit_length_spec a ha
  obtain ⟨b1, b2, b3⟩ := bit_length_spec b hb
  have hbq : (0 : ℚ) < (b : ℚ) := by exact_mod_cast hb
  have ha1 : ((2 : ℚ) ^ ((bit_length a : Int) - 1)) ≤ (a : ℚ) := by
    have : ((bit_length a : Int) - 1) = ((bit_length a - 1 : Nat) : Int) := by omega
    rw [this, zpow_natCast]
    exact_mod_cast a1
  have ha2 : (a : ℚ) < (2 : ℚ) ^ (bit_length a : Int) := by
    rw [zpow_natCast]
    exact_mod_cast a2
  have hb1 : ((2 : ℚ) ^ ((bit_length b : Int) - 1)) ≤ (b : ℚ) := by
    have : ((bit_length b : Int) - 1) = ((bit_length b - 1 : Nat) : Int) := by omega
    rw [this, zpow_natCast]
    exact_mod_cast b1
  have hb2 : (b : ℚ) < (2 : ℚ) ^ (bit_length b : Int) := by
    rw [zpow_natCast]
    exact_mod_cast b2
  -- the quotient lies strictly between 2^(e0-1) and 2^(e0+1)
  have hlo : (2 : ℚ) ^ ((bit_length a : Int) - (bit_length b : Int) - 1)
      ≤ (a : ℚ) / (b : ℚ) := by
    rw [le_div_iff₀ hbq]
    calc (2 : ℚ) ^ ((bit_length a : Int) - (bit_length b : Int) - 1) * (b : ℚ)
        ≤ (2 : ℚ) ^ ((bit_length a : Int) - (bit_length b : Int) - 1)
            * (2 : ℚ) ^ (bit_length b : Int) :=
          mul_le_mul_of_nonneg_left (le_of_lt hb2) (le_of_lt (two_zpow_pos _))
      _ = (2 : ℚ) ^ ((bit_length a : Int) - 1) := by
          rw [← zpow_add₀ (by norm_num : (2 : ℚ) ≠ 0)]
          congr 1
          ring
      _ ≤ (a : ℚ) := ha1
  have hhi : (a : ℚ) / (b : ℚ)
      < (2 : ℚ) ^ ((bit_length a : Int) - (bit_length b : Int) + 1) := by
    rw [div_lt_iff₀ hbq]
    calc (a : ℚ) < (2 : ℚ) ^ (bit_length a : Int) := ha2
      _ = (2 : ℚ) ^ ((bit_length a : Int) - (bit_length b : Int) + 1)
            * (2 : ℚ) ^ ((bit_length b : Int) - 1) := by
          rw [← zpow_add₀ (by norm_num : (2 : ℚ) ≠ 0)]
          congr 1
          ring
      _ ≤ (2 : ℚ) ^ ((bit_length a : Int) - (bit_length b : Int) + 1) * (b : ℚ) :=
          mul_le_mul_of_nonneg_left hb1 (le_of_lt (two_zpow_pos _))
  have ht := exponent_test a b hb ((bit_length a : Int) - (bit_length b : Int))
  unfold quotient_exponent
  dsimp only
  generalize (if 0 ≤ (bit_length a : Int) - (bit_length b : Int)
      then decide (b * 2 ^ ((bit_length a : Int) - (bit_length b : Int)).toNat ≤ a)
      else decide (b ≤ a * 2 ^ (-((bit_length a : Int) - (bit_length b : Int))).toNat)) = G
    at ht ⊢
  cases G
  · refine ⟨hlo, ?_⟩
    have : ¬ (2 : ℚ) ^ ((bit_length a : Int) - (bit_length b : Int)) ≤ (a : ℚ) / (b : ℚ) :=
      fun hc => Bool.false_ne_true (ht.2 hc)
    have h2 : (bit_length a : Int) - (bit_length b : Int) - 1 + 1
        = (bit_length a : Int) - (bit_length b : Int) := by ring
    simp only [Bool.false_eq_true, if_false]
    rw [h2]
    exact not_le.1 this
  · exact ⟨ht.1 rfl, hhi⟩

/-- The rounded significand, scaled back, is within half a unit in the last
place of the quotient. -/
theorem scaled_round_spec (a b : Nat) (hb : 0 < b) (s : Int) :
    (scaled_round a b s : ℚ) * (2 : ℚ) ^ s ≤ (a : ℚ) / (b : ℚ) + (2 : ℚ) ^ s / 2
      ∧ (a : ℚ) / (b : ℚ) ≤ (scaled_round a b s : ℚ) * (2 : ℚ) ^ s + (2 : ℚ) ^ s / 2 := by
  have hbq : (0 : ℚ) < (b : ℚ) := by exact_mod_cast hb
  unfold scaled_round
  by_cases h : 0 ≤ s
  · rw [if_pos h, two_zpow_of_nonneg s h]
    have hk : (0 : ℚ) < ((2 ^ s.toNat : Nat) : ℚ) := by positivity
    have hd : (0 : Int) < (b : Int) * 2 ^ s.toNat := by positivity
    obtain ⟨r1, r2⟩ := round_half_even_spec a ((b : Int) * 2 ^ s.toNat) hd
    generalize round_half_even (a : Int) ((b : Int) * 2 ^ s.toNat) = m at r1 r2
    have q1 : (2 : ℚ) * ((m : ℚ) * ((b : ℚ) * ((2 ^ s.toNat : Nat) : ℚ)))
        ≤ 2 * (a : ℚ) + (b : ℚ) * ((2 ^ s.toNat : Nat) : ℚ) := by exact_mod_cast r1
    have q2 : (2 : ℚ) * (a : ℚ)
        ≤ 2 * ((m : ℚ) * ((b : ℚ) * ((2 ^ s.toNat : Nat) : ℚ)))
          + (b : ℚ) * ((2 ^ s.toNat : Nat) : ℚ) := by exact_mod_cast r2
    generalize ((2 ^ s.toNat : Nat) : ℚ) = P at hk q1 q2 ⊢
    constructor
    · rw [← sub_nonneg]
      have : (a : ℚ) / (b : ℚ) + P / 2 - (m : ℚ) * P
          = (2 * (a : ℚ) + (b : ℚ) * P - 2 * ((m : ℚ) * ((b : ℚ) * P))) / (2 * (b : ℚ)) := by
        field_simp
        ring
      rw [this]
      apply div_nonneg _ (by positivity)
      linarith
    · rw [← sub_nonneg]
      have : (m : ℚ) * P + P / 2 - (a : ℚ) / (b : ℚ)
          = (2 * ((m : ℚ) * ((b : ℚ) * P)) + (b : ℚ) * P - 2 * (a : ℚ)) / (2 * (b : ℚ)) := by
        field_simp
        ring
      rw [this]
      apply div_nonneg _ (by positivity)
      linarith
  · have hneg : s < 0 := by omega
    rw [if_neg h, two_zpow_of_neg s hneg]
    have hk : (0 : ℚ) < ((2 ^ (-s).toNat : Nat) : ℚ) := by positivity
    have hd : (0 : Int) < (b : Int) := by exact_mod_cast hb
    obtain ⟨r1, r2⟩ := round_half_even_spec ((a : Int) * 2 ^ (-s).toNat) (b : Int) hd
    generalize round_half_even ((a : Int) * 2 ^ (-s).toNat) (b : Int) = m at r1 r2
    have q1 : (2 : ℚ) * ((m : ℚ) * (b : ℚ))
        ≤ 2 * ((a : ℚ) * ((2 ^ (-s).toNat : Nat) : ℚ)) + (b : ℚ) := by exact_mod_cast r1
    have q2 : (2 : ℚ) * ((a : ℚ) * ((2 ^ (-s).toNat : Nat) : ℚ))
        ≤ 2 * ((m : ℚ) * (b : ℚ)) + (b : ℚ) := by exact_mod_cast r2
    generalize ((2 ^ (-s).toNat : Nat) : ℚ) = P at hk q1 q2 ⊢
    constructor
    · rw [← sub_nonneg]
      have : (a : ℚ) / (b : ℚ) + 1 / P / 2 - (m : ℚ) * (1 / P)
          = (2 * ((a : ℚ) * P) + (b : ℚ) - 2 * ((m : ℚ) * (b : ℚ))) / (2 * (b : ℚ) * P) := by
        field_simp
        ring
      rw [this]
      apply div_nonneg _ (by positivity)
      linarith
    · rw [← sub_nonneg]
      have : (m : ℚ) * (1 / P) + 1 / P / 2 - (a : ℚ) / (b : ℚ)
          = (2 * ((m : ℚ) * (b : ℚ)) + (b : ℚ) - 2 * ((a : ℚ) * P)) / (2 * (b : ℚ) * P) := by
        field_simp
        ring
      rw [this]
      apply div_nonneg _ (by positivity)
      linarith

/-- The rounded significand depends on the value of the quotient only. -/
theorem scaled_round_congr (a b p q : Nat) (hb : 0 < b) (hq : 0 < q) (h : a * q = p * b)
    (s : Int) : scaled_round a b s = scaled_round p q s := by
  have hi : (a : Int) * (q : Int) = (p : Int) * (b : Int) := by exact_mod_cast h
  unfold scaled_round
  split_ifs
  · apply round_half_even_congr _ _ _ _ (by positivity) (by positivity)
    linear_combination (2 : Int) ^ s.toNat * hi
  · apply round_half_even_congr _ _ _ _ (by exact_mod_cast hb) (by exact_mod_cast hq)
    linear_combination (2 : Int) ^ (-s).toNat * hi

/-- The exponent depends on the value of the quotient only. -/
theorem quotient_exponent_congr (a b p q : Nat) (ha : 0 < a) (hb : 0 < b) (hp : 0 < p)
    (hq : 0 < q) (h : a * q = p * b) : quotient_exponent a b = quotient_exponent p q := by
  have hbq : (0 : ℚ) < (b : ℚ) := by exact_mod_cast hb
  have hqq : (0 : ℚ) < (q : ℚ) := by exact_mod_cast hq
  have hx : (a : ℚ) / (b : ℚ) = (p : ℚ) / (q : ℚ) := by
    rw [div_eq_div_iff (ne_of_gt hbq) (ne_of_gt hqq)]
    exact_mod_cast h
  obtain ⟨a1, a2⟩ := quotient_exponent_spec a b ha hb
  obtain ⟨p1, p2⟩ := quotient_exponent_spec p q hp hq
  rw [hx] at a1 a2
  have h1 : quotient_exponent a b < quotient_exponent p q + 1 :=
    (zpow_lt_zpow_iff_right₀ (by norm_num : (1 : ℚ) < 2)).1 (lt_of_le_of_lt a1 p2)
  have h2 : quotient_exponent p q < quotient_exponent a b + 1 :=
    (zpow_lt_zpow_iff_right₀ (by norm_num : (1 : ℚ) < 2)).1 (lt_of_le_of_lt p1 a2)
  omega

/-- The relative error of the rounded quotient is at most `2^-53`. -/
theorem double_div_pos_error (a b : Nat) (ha : 0 < a) (hb : 0 < b) :
    (a : ℚ) / (b : ℚ) * (1 - 1 / 2 ^ 53) ≤ (double_div_pos a b).toRat
      ∧ (double_div_pos a b).toRat ≤ (a : ℚ) / (b : ℚ) * (1 + 1 / 2 ^ 53) := by
  obtain ⟨e1, _⟩ := quotient_exponent_spec a b ha hb
  obtain ⟨s1, s2⟩ := scaled_round_spec a b hb (quotient_exponent a b - 52)
  have hs : (2 : ℚ) ^ (quotient_exponent a b - 52) / 2
      = (2 : ℚ) ^ quotient_exponent a b * (1 / 2 ^ 53) := by
    rw [zpow_sub₀ (by norm_num : (2 : ℚ) ≠ 0)]
    norm_num
    ring
  rw [hs] at s1 s2
  have hpos := two_zpow_pos (quotient_exponent a b)
  unfold double.toRat double_div_pos
  dsimp only
  generalize (scaled_round a b (quotient_exponent a b - 52) : ℚ)
    * (2 : ℚ) ^ (quotient_exponent a b - 52) = v at s1 s2 ⊢
  generalize (2 : ℚ) ^ quotient_exponent a b = P at e1 s1 s2 hpos
  generalize (a : ℚ) / (b : ℚ) = x at e1 s1 s2 ⊢
  constructor <;> nlinarith

/-- The rounded quotient depends on the value of the quotient only. -/
theorem double_div_pos_congr (a b p q : Nat) (ha : 0 < a) (hb : 0 < b) (hp : 0 < p)
    (hq : 0 < q) (h : a * q = p * b) : double_div_pos a b = double_div_pos p q := by
  unfold double_div_pos
  dsimp only
  rw [quotient_exponent_congr a b p q ha hb hp hq h,
    scaled_round_congr a b p q hb hq h]

/-- `double.lt` is the order of the values. -/
theorem double_lt_iff (a b : double) : double.lt a b = true ↔ a.toRat < b.toRat := by
  have key : ∀ (m e k : Int), k ≤ e →
      (m : ℚ) * (2 : ℚ) ^ e = ((m * 2 ^ (e - k).toNat : Int) : ℚ) * (2 : ℚ) ^ k := by
    intro m e k hk
    have h1 : (2 : ℚ) ^ e = (2 : ℚ) ^ (e - k) * (2 : ℚ) ^ k := by
      rw [← zpow_add₀ (by norm_num : (2 : ℚ) ≠ 0)]
      congr 1
      ring
    rw [h1, two_zpow_of_nonneg (e - k) (by omega)]
    push_cast
    ring
  unfold double.lt double.toRat
  dsimp only
  rw [key a.m a.e (min a.e b.e) (min_le_left _ _), key b.m b.e (min a.e b.e) (min_le_right _ _),
    decide_eq_true_iff, mul_lt_mul_right (two_zpow_pos _)]
  exact Int.cast_lt.symm

/-- Two rounded quotients compare as the exact quotients do, as long as the
cross product stays below `2^51`: the rounding error is too small to bridge
the gap between two different fractions with such denominators. -/
theorem double_div_pos_lt (a b p q : Nat) (ha : 0 < a) (hb : 0 < b) (hp : 0 < p)
    (hq : 0 < q) (hbound : p * b ≤ 2 ^ 51) :
    double.lt (double_div_pos a b) (double_div_pos p q) = true ↔ a * q < p * b := by
  have hbq : (0 : ℚ) < (b : ℚ) := by exact_mod_cast hb
  have hqq : (0 : ℚ) < (q : ℚ) := by exact_mod_cast hq
  have hB : (p : ℚ) * (b : ℚ) ≤ 2 ^ 51 := by exact_mod_cast hbound
  obtain ⟨x1, x2⟩ := double_div_pos_error a b ha hb
  obtain ⟨y1, y2⟩ := double_div_pos_error p q hp hq
  rw [double_lt_iff]
  rcases lt_trichotomy (a * q) (p * b) with h | h | h
  · refine ⟨fun _ => h, fun _ => ?_⟩
    have hA : (a : ℚ) * (q : ℚ) + 1 ≤ (p : ℚ) * (b : ℚ) := by exact_mod_cast h
    have : (a : ℚ) / (b : ℚ) * (1 + 1 / 2 ^ 53) < (p : ℚ) / (q : ℚ) * (1 - 1 / 2 ^ 53) := by
      rw [div_mul_eq_mul_div, div_mul_eq_mul_div, div_lt_div_iff₀ hbq hqq]
      linarith
    linarith
  · rw [double_div_pos_congr a b p q ha hb hp hq h]
    exact ⟨fun hc => absurd hc (lt_irrefl _), fun hc => absurd hc (by omega)⟩
  · refine ⟨fun hc => ?_, fun hc => absurd hc (by omega)⟩
    exfalso
    have hA : (p : ℚ) * (b : ℚ) + 1 ≤ (a : ℚ) * (q : ℚ) := by exact_mod_cast h
    have : (p : ℚ) / (q : ℚ) * (1 + 1 / 2 ^ 53) < (a : ℚ) / (b : ℚ) * (1 - 1 / 2 ^ 53) := by
      rw [div_mul_eq_mul_div, div_mul_eq_mul_div, div_lt_div_iff₀ hqq hbq]
      linarith
    linarith

theorem double_div_pos_toRat_pos (a b : Nat) (ha : 0 < a) (hb : 0 < b) :
    0 < (double_div_pos a b).toRat := by
  obtain ⟨x1, _⟩ := double_div_pos_error a b ha hb
  have hx : (0 : ℚ) < (a : ℚ) / (b : ℚ) := by positivity
  have : (0 : ℚ) < (a : ℚ) / (b : ℚ) * (1 - 1 / 2 ^ 53) := by
    apply mul_pos hx
    norm_num
  linarith

/-- `double(a)/double(b) < n/10^k` for `int`s `a` and `b > 0` and a positive
decimal literal: the test comes out as the exact comparison of the fractions,
provided `n * b <= 2^51`. -/
theorem double_div_lt_literal (a b n : Int) (k : Nat) (hb : 0 < b) (hn : 0 < n)
    (hbound : n * b ≤ 2 ^ 51) :
    double.lt (double_div a b) (double_literal n k) = true ↔ a * 10 ^ k < n * b := by
  lift n to Nat using le_of_lt hn
  lift b to Nat using le_of_lt hb
  have hnp : 0 < n := by exact_mod_cast hn
  have hbp : 0 < b := by exact_mod_cast hb
  have h10 : (0 : Int) < 10 ^ k := by positivity
  have h10n : 0 < (10 : Nat) ^ k := by positivity
  have hnb : n * b ≤ 2 ^ 51 := by exact_mod_cast hbound
  have hlit : double_literal (n : Int) k = double_div_pos n (10 ^ k) := by
    unfold double_literal double_div
    have h0 : ((10 : Int) ^ k).natAbs = 10 ^ k := by
      rw [Int.natAbs_pow]; rfl
    have h1 : decide ((n : Int) < 0) = false := decide_eq_false (by omega)
    have h2 : decide ((10 : Int) ^ k < 0) = false := decide_eq_false (by omega)
    simp only [ne_of_gt hn, if_false, h0, h1, h2, Int.natAbs_ofNat]
    rfl
  rw [hlit]
  have hcpos := double_div_pos_toRat_pos n (10 ^ k) hnp h10n
  have hnbpos : (0 : Int) < (n : Int) * (b : Int) := Int.mul_pos hn hb
  rcases lt_trichotomy a 0 with ha | ha | ha
  · -- a negative quotient is below every positive literal
    have hap : 0 < a.natAbs := by omega
    have hv := double_div_pos_toRat_pos a.natAbs b hap hbp
    have hd : double_div a (b : Int)
        = ⟨-(double_div_pos a.natAbs b).m, (double_div_pos a.natAbs b).e⟩ := by
      unfold double_div
      have h1 : decide (a < 0) = true := decide_eq_true ha
      have h2 : decide ((b : Int) < 0) = false := decide_eq_false (by omega)
      simp only [ne_of_lt ha, if_false, h1, h2, Int.natAbs_ofNat]
      rfl
    rw [double_lt_iff, hd]
    have h3 : a * 10 ^ k < 0 := Int.mul_neg_of_neg_of_pos ha h10
    refine ⟨fun _ => by omega, fun _ => ?_⟩
    unfold double.toRat at hv hcpos ⊢
    dsimp only at hv hcpos ⊢
    push_cast
    linarith
  · subst ha
    have hd : double_div 0 (b : Int) = ⟨0, 0⟩ := by
      unfold double_div
      simp
    rw [double_lt_iff, hd]
    refine ⟨fun _ => by omega, fun _ => ?_⟩
    have h0 : (⟨0, 0⟩ : double).toRat = 0 := by
      unfold double.toRat
      simp
    rw [h0]
    exact hcpos
  · lift a to Nat using le_of_lt ha
    have hap : 0 < a := by exact_mod_cast ha
    have hd : double_div (a : Int) (b : Int) = double_div_pos a b := by
      unfold double_div
      have h1 : decide ((a : Int) < 0) = false := decide_eq_false (by omega)
      have h2 : decide ((b : Int) < 0) = false := decide_eq_false (by omega)
      simp only [ne_of_gt ha, if_false, h1, h2, Int.natAbs_ofNat]
      rfl
    rw [hd, double_div_pos_lt a b n (10 ^ k) hap hbp hnp h10n hnb]
    constructor
    · intro h
      exact_mod_cast h
    · intro h
      exact_mod_cast h

/-- The colour bands of the energy bar, on the integers: the two floating-point
tests of `draw_unit_on_tile` come out as `100 * hitpoints < 33 * max_hitpoints`
and `100 * hitpoints < 66 * max_hitpoints`. -/
theorem energy_bar_colour_spec (hitpoints max_hitpoints : Int) (h0 : 0 < max_hitpoints)
    (h1 : max_hitpoints < 2 ^ 31) :
    (energy_bar_colour hitpoints max_hitpoints).2
      = if 100 * hitpoints < 33 * max_hitpoints then ⟨200, 0, 0⟩
        else if 100 * hitpoints < 66 * max_hitpoints then ⟨200, 200, 0⟩
        else ⟨0, 200, 0⟩ := by
  have b1 : (33 : Int) * max_hitpoints ≤ 2 ^ 51 := by omega
  have b2 : (66 : Int) * max_hitpoints ≤ 2 ^ 51 := by omega
  have t1 := double_div_lt_literal hitpoints max_hitpoints 33 2 h0 (by decide) b1
  have t2 := double_div_lt_literal hitpoints max_hitpoints 66 2 h0 (by decide) b2
  have e1 : hitpoints * 10 ^ 2 < 33 * max_hitpoints ↔ 100 * hitpoints < 33 * max_hitpoints := by
    omega
  have e2 : hitpoints * 10 ^ 2 < 66 * max_hitpoints ↔ 100 * hitpoints < 66 * max_hitpoints := by
    omega
  rw [e1] at t1
  rw [e2] at t2
  unfold energy_bar_colour
  simp only [gt_iff_lt, h0, if_true]
  by_cases c1 : 100 * hitpoints < 33 * max_hitpoints
  · rw [if_pos (t1.2 c1), if_pos c1]
  · rw [if_neg (fun h => c1 (t1.1 h)), if_neg c1]
    by_cases c2 : 100 * hitpoints < 66 * max_hitpoints
    · rw [if_pos (t2.2 c2), if_pos c2]
    · rw [if_neg (fun h => c2 (t2.1 h)), if_neg c2]

/-- The health fraction against a threshold in hundredths, on the integers. -/
theorem fraction_lt_iff (hitpoints max_hitpoints c : Int) (h0 : 0 < max_hitpoints) :
    (hitpoints : ℚ) / (max_hitpoints : ℚ) < (c : ℚ) / 100
      ↔ 100 * hitpoints < c * max_hitpoints := by
  have hq : (0 : ℚ) < (max_hitpoints : ℚ) := by exact_mod_cast h0
  rw [div_lt_div_iff₀ hq (by norm_num : (0 : ℚ) < 100)]
  constructor
  · intro h
    have : ((hitpoints * 100 : Int) : ℚ) < ((c * max_hitpoints : Int) : ℚ) := by
      push_cast
      exact h
    have := Int.cast_lt.1 this
    omega
  · intro h
    have : ((hitpoints * 100 : Int) : ℚ) < ((c * max_hitpoints : Int) : ℚ) :=
      Int.cast_lt.2 (by omega)
    push_cast at this
    exact this

/-! ## Energy bar -/

/-- C15, amended: for every unit with `0 < max_hitpoints` (an `int`), the
energy-bar colour is banded by the health fraction `f = hitpoints/max_hitpoints`
at 0.33 and 0.66: red when `f < 0.33`, yellow when `0.33 <= f < 0.66`, green
otherwise. -/
theorem energy_bar_colour_bands (hitpoints max_hitpoints : Int) (h0 : 0 < max_hitpoints)
    (h1 : max_hitpoints < 2 ^ 31) :
    (energy_bar_colour hitpoints max_hitpoints).2
      = if (hitpoints : ℚ) / (max_hitpoints : ℚ) < 33 / 100 then ⟨200, 0, 0⟩
        else if (hitpoints : ℚ) / (max_hitpoints : ℚ) < 66 / 100 then ⟨200, 200, 0⟩
        else ⟨0, 200, 0⟩ := by
  have f1 := fraction_lt_iff hitpoints max_hitpoints 33 h0
  have f2 := fraction_lt_iff hitpoints max_hitpoints 66 h0
  push_cast at f1 f2
  rw [energy_bar_colour_spec hitpoints max_hitpoints h0 h1]
  simp only [f1, f2]

theorem energy_bar_colour_bands_witness :
    (energy_bar_colour 10 20).2
      = if ((10 : Int) : ℚ) / ((20 : Int) : ℚ) < 33 / 100 then ⟨200, 0, 0⟩
        else if ((10 : Int) : ℚ) / ((20 : Int) : ℚ) < 66 / 100 then ⟨200, 200, 0⟩
        else ⟨0, 200, 0⟩ :=
  energy_bar_colour_bands 10 20 (by decide) (by decide)

/-- C15 as stated fails: the bands are cut at 0.33 and 0.66, not at thirds.  A
unit with 34 of 103 hit points is below one third and gets the yellow bar, not
the red one; a unit with 67 of 101 is below two thirds and gets the green bar,
not the yellow one. -/
theorem energy_bar_thirds_counterexample :
    ((34 : Int) : ℚ) / ((103 : Int) : ℚ) < 1 / 3
      ∧ (energy_bar_colour 34 103).2 = ⟨200, 200, 0⟩
      ∧ (1 : ℚ) / 3 ≤ ((67 : Int) : ℚ) / ((101 : Int) : ℚ)
      ∧ ((67 : Int) : ℚ) / ((101 : Int) : ℚ) < 2 / 3
      ∧ (energy_bar_colour 67 101).2 = ⟨0, 200, 0⟩ := by
  refine ⟨by norm_num, by decide, by norm_num, by norm_num, by decide⟩

theorem energy_bar_mem_unit_layers (g : scene) (r : renderer) (loc : location) (u : unit)
    (with_energy : Bool) (height : Int) (filled : double) (colour : SDL_Color)
    (h : layer.energy_bar height filled colour ∈ unit_layers g r loc u with_energy) :
    colour = (energy_bar_colour u.hitpoints u.max_hitpoints).2 := by
  unfold unit_layers at h
  simp only [List.mem_append, List.mem_map, List.mem_filter] at h
  rcases h with (((h | h) | h) | h) | h
  · split_ifs at h
    · rw [List.mem_singleton] at h; cases h
    · cases h
  · split_ifs at h
    · rw [List.mem_singleton] at h
      injection h with _ _ h3
    · cases h
  · split_ifs at h
    · rw [List.mem_singleton] at h; cases h
    · cases h
  · split_ifs at h
    · rw [List.mem_singleton] at h; cases h
    · cases h
  · obtain ⟨a, _, ha⟩ := h
    cases ha

/-- What the unit pass returns for an occupied hex: nothing, or the layers of
the unit. -/
theorem draw_unit_on_tile_cases (g : scene) (r : renderer) (x y : Int)
    (unit_image : surface) (u : unit) (evs : List layer)
    (hu : g.units_ ⟨x, y⟩ = some u)
    (h : draw_unit_on_tile g r x y unit_image = some evs) :
    evs = [] ∨ ∃ with_energy, evs = unit_layers g r ⟨x, y⟩ u with_energy := by
  cases hl : g.update_locked <;>
    simp only [draw_unit_on_tile, hl, hu, Bool.false_eq_true, if_false, if_true] at h
  · split_ifs at h
    all_goals first
      | (simp only [Option.some.injEq] at h
         exact Or.inl h.symm)
      | (simp only [Option.some.injEq] at h
         exact Or.inr ⟨_, h.symm⟩)
  · simp only [Option.some.injEq] at h
    exact Or.inl h.symm

/-- C16: for every unit with `0 < max_hitpoints` (an `int`) whose energy bar
`draw_unit_on_tile` draws, with health fraction `f = hitpoints/max_hitpoints`:
when `0.33 <= f < 0.66` the bar is drawn in the yellow band (200,200,0), and
when `f < 0.33` in the red band (200,0,0). -/
theorem energy_bar_drawn_in_band (g : scene) (r : renderer) (x y : Int)
    (unit_image : surface) (u : unit) (evs : List layer) (height : Int) (filled : double)
    (colour : SDL_Color) (hu : g.units_ ⟨x, y⟩ = some u)
    (h0 : 0 < u.max_hitpoints) (h1 : u.max_hitpoints < 2 ^ 31)
    (hd : draw_unit_on_tile g r x y unit_image = some evs)
    (hm : layer.energy_bar height filled colour ∈ evs) :
    ((33 : ℚ) / 100 ≤ (u.hitpoints : ℚ) / (u.max_hitpoints : ℚ)
        ∧ (u.hitpoints : ℚ) / (u.max_hitpoints : ℚ) < 66 / 100 → colour = ⟨200, 200, 0⟩)
      ∧ ((u.hitpoints : ℚ) / (u.max_hitpoints : ℚ) < 33 / 100 → colour = ⟨200, 0, 0⟩) := by
  have f1 := fraction_lt_iff u.hitpoints u.max_hitpoints 33 h0
  have f2 := fraction_lt_iff u.hitpoints u.max_hitpoints 66 h0
  push_cast at f1 f2
  have hc : colour = (energy_bar_colour u.hitpoints u.max_hitpoints).2 := by
    rcases draw_unit_on_tile_cases g r x y unit_image u evs hu hd with h | ⟨we, h⟩
    · rw [h] at hm; cases hm
    · rw [h] at hm
      exact energy_bar_mem_unit_layers g r ⟨x, y⟩ u we height filled colour hm
  rw [hc, energy_bar_colour_spec u.hitpoints u.max_hitpoints h0 h1]
  constructor
  · rintro ⟨a1, a2⟩
    rw [if_neg (fun h => absurd (f1.2 h) (not_lt.2 a1)), if_pos (f2.1 a2)]
  · intro a
    rw [if_pos (f1.1 a)]

theorem energy_bar_drawn_in_band_witness :
    (((33 : ℚ) / 100 ≤ (fighter.hitpoints : ℚ) / (fighter.max_hitpoints : ℚ)
          ∧ (fighter.hitpoints : ℚ) / (fighter.max_hitpoints : ℚ) < 66 / 100 →
          (⟨200, 200, 0⟩ : SDL_Color) = ⟨200, 200, 0⟩)
        ∧ ((fighter.hitpoints : ℚ) / (fighter.max_hitpoints : ℚ) < 33 / 100 →
          (⟨200, 200, 0⟩ : SDL_Color) = ⟨200, 0, 0⟩))
      ∧ (((33 : ℚ) / 100 ≤ (archer.hitpoints : ℚ) / (archer.max_hitpoints : ℚ)
          ∧ (archer.hitpoints : ℚ) / (archer.max_hitpoints : ℚ) < 66 / 100 →
          (⟨200, 0, 0⟩ : SDL_Color) = ⟨200, 200, 0⟩)
        ∧ ((archer.hitpoints : ℚ) / (archer.max_hitpoints : ℚ) < 33 / 100 →
          (⟨200, 0, 0⟩ : SDL_Color) = ⟨200, 0, 0⟩)) :=
  ⟨energy_bar_drawn_in_band unit_scene sample_renderer 2 1 none fighter
      [layer.unit_sprite, layer.energy_bar 13 ⟨4503599627370496, -53⟩ ⟨200, 200, 0⟩]
      13 ⟨4503599627370496, -53⟩ ⟨200, 200, 0⟩ (by decide) (by decide) (by decide)
      (by decide) (by decide),
   energy_bar_drawn_in_band unit_scene sample_renderer 3 1 none archer
      [layer.unit_sprite, layer.energy_bar 6 ⟨7205759403792794, -55⟩ ⟨200, 0, 0⟩]
      6 ⟨7205759403792794, -55⟩ ⟨200, 0, 0⟩ (by decide) (by decide) (by decide)
      (by decide) (by decide)⟩

/-! ## Centre hex -/

/-- C11 at its failing input.  On an 800x40 map at zoom 21 (`MinZoom` is 12),
`scroll(100000, 0)` leaves the view at the right edge of the map, `xpos_` =
11365.  The hex that `pixel_position_to_hex` returns for the viewport centre is
(753, 10), while `get_visible_hex_bounds` returns the columns 756 to 800: the
centre hex is left of the visible range. -/
theorem centre_hex_left_of_bounds :
    MinZoom long_display.map_ long_display.map_area = some 12
      ∧ (scroll long_display 100000 0).map (fun d => (d.xpos_, d.ypos_, d.zoom_))
          = some (11365, 0, 21)
      ∧ (scroll long_display 100000 0).bind centre_hex = some ⟨753, 10⟩
      ∧ (scroll long_display 100000 0).bind get_visible_hex_bounds
          = some (⟨756, -1⟩, ⟨800, 23⟩) := by
  refine ⟨by decide, by decide, by decide, by decide⟩

/-- Left of the column pitch the modifier of `pixel_position_to_hex` does not
move right. -/
theorem hex_modifier_left (s x_mod y_mod : Int) (hs : 1 ≤ s) (hy0 : 0 ≤ y_mod)
    (hy1 : y_mod < s) (hx : x_mod < s * 3 / 4) : (hex_modifier s x_mod y_mod).1 ≤ 0 := by
  have eh : Int.tdiv s 2 = s / 2 := tdiv_nonneg_eq _ _ (by omega) (by decide)
  have et : Int.tdiv (s * 3) 2 = s * 3 / 2 := tdiv_nonneg_eq _ _ (by omega) (by decide)
  unfold hex_modifier
  rw [eh, et]
  split_ifs <;> simp <;> omega

/-- Where the column pitch is consistent (zoom `z >= 2` with `z mod 4` equal to
0 or 3), with a non-negative scroll offset and a map area at least one hex
high, the hex that `pixel_position_to_hex` returns for the viewport centre lies
inside the range returned by `get_visible_hex_bounds`. -/
theorem centre_hex_in_bounds (d : display) (hz : 2 ≤ d.zoom_)
    (hmod : d.zoom_ % 4 = 0 ∨ d.zoom_ % 4 = 3) (hx0 : 0 ≤ d.xpos_) (hy0 : 0 ≤ d.ypos_)
    (hw : 0 ≤ d.map_area.w) (hh : d.zoom_ ≤ d.map_area.h) :
    ∃ c b, centre_hex d = some c ∧ get_visible_hex_bounds d = some b
      ∧ in_hex_bounds c b := by
  have hwne := hex_width_ne_zero_of_two_le d hz
  have htw : hex_width d = d.zoom_ * 3 / 4 := tdiv_nonneg_eq _ _ (by omega) (by decide)
  have hH : 0 < d.zoom_ * 3 / 4 := by omega
  have et : Int.tdiv (d.zoom_ * 3) 2 = d.zoom_ * 3 / 2 :=
    tdiv_nonneg_eq _ _ (by omega) (by decide)
  have h2 : d.zoom_ * 3 / 2 = 2 * (d.zoom_ * 3 / 4) := by omega
  have ew : Int.tdiv d.map_area.w 2 = d.map_area.w / 2 := tdiv_nonneg_eq _ _ hw (by decide)
  have eh : Int.tdiv d.map_area.h 2 = d.map_area.h / 2 :=
    tdiv_nonneg_eq _ _ (by omega) (by decide)
  have hhalf : Int.tdiv d.zoom_ 2 = d.zoom_ / 2 := tdiv_nonneg_eq _ _ (by omega) (by decide)
  -- the centre pixel, split into tessellation cell and offset
  have hcx0 : 0 ≤ d.xpos_ + d.map_area.w / 2 := by omega
  have hcy0 : 0 ≤ d.ypos_ + d.map_area.h / 2 := by omega
  have dx := Int.emod_add_ediv (d.xpos_ + d.map_area.w / 2) (d.zoom_ * 3 / 2)
  have dx0 := Int.emod_nonneg (d.xpos_ + d.map_area.w / 2)
    (show d.zoom_ * 3 / 2 ≠ 0 by omega)
  have dx1 := Int.emod_lt_of_pos (d.xpos_ + d.map_area.w / 2)
    (show 0 < d.zoom_ * 3 / 2 by omega)
  have dqx : 0 ≤ (d.xpos_ + d.map_area.w / 2) / (d.zoom_ * 3 / 2) :=
    Int.ediv_nonneg hcx0 (by omega)
  have dy := Int.emod_add_ediv (d.ypos_ + d.map_area.h / 2) d.zoom_
  have dy0 := Int.emod_nonneg (d.ypos_ + d.map_area.h / 2) (show d.zoom_ ≠ 0 by omega)
  have dy1 := Int.emod_lt_of_pos (d.ypos_ + d.map_area.h / 2) (show 0 < d.zoom_ by omega)
  have dqy : 0 ≤ (d.ypos_ + d.map_area.h / 2) / d.zoom_ := Int.ediv_nonneg hcy0 (by omega)
  have hval := pixel_position_to_hex_decomp d (d.xpos_ + d.map_area.w / 2)
    (d.ypos_ + d.map_area.h / 2) (d.zoom_ * 3 / 2)
    ((d.xpos_ + d.map_area.w / 2) / (d.zoom_ * 3 / 2))
    ((d.xpos_ + d.map_area.w / 2) % (d.zoom_ * 3 / 2))
    ((d.ypos_ + d.map_area.h / 2) / d.zoom_) ((d.ypos_ + d.map_area.h / 2) % d.zoom_)
    et.symm (by omega) (by omega) dx.symm dx0 dx1 dqx dy.symm dy0 dy1 dqy
  -- the modifier
  have m1 := (hex_modifier_range d.zoom_ ((d.xpos_ + d.map_area.w / 2) % (d.zoom_ * 3 / 2))
    ((d.ypos_ + d.map_area.h / 2) % d.zoom_))
  have m2 := (hex_modifier_side d.zoom_ ((d.xpos_ + d.map_area.w / 2) % (d.zoom_ * 3 / 2))
    ((d.ypos_ + d.map_area.h / 2) % d.zoom_) (by omega) dy0 dy1).1
  have m3 := hex_modifier_left d.zoom_ ((d.xpos_ + d.map_area.w / 2) % (d.zoom_ * 3 / 2))
    ((d.ypos_ + d.map_area.h / 2) % d.zoom_) (by omega) dy0 dy1
  -- the column of the centre pixel in units of the column pitch
  have hcol : (d.xpos_ + d.map_area.w / 2) / (d.zoom_ * 3 / 4)
      = (d.xpos_ + d.map_area.w / 2) % (d.zoom_ * 3 / 2) / (d.zoom_ * 3 / 4)
        + 2 * ((d.xpos_ + d.map_area.w / 2) / (d.zoom_ * 3 / 2)) := by
    have e1 : d.zoom_ * 3 / 2 * ((d.xpos_ + d.map_area.w / 2) / (d.zoom_ * 3 / 2))
        = d.zoom_ * 3 / 4 * (2 * ((d.xpos_ + d.map_area.w / 2) / (d.zoom_ * 3 / 2))) := by
      nth_rewrite 1 [h2]
      ring
    have e2 : d.xpos_ + d.map_area.w / 2
        = (d.xpos_ + d.map_area.w / 2) % (d.zoom_ * 3 / 2)
          + d.zoom_ * 3 / 4 * (2 * ((d.xpos_ + d.map_area.w / 2) / (d.zoom_ * 3 / 2))) := by
      linarith [dx, e1]
    nth_rewrite 1 [e2]
    exact Int.add_mul_ediv_left _ _ (by omega)
  have hr0 : 0 ≤ (d.xpos_ + d.map_area.w / 2) % (d.zoom_ * 3 / 2) / (d.zoom_ * 3 / 4) :=
    Int.ediv_nonneg dx0 (by omega)
  have hr1 : (d.xpos_ + d.map_area.w / 2) % (d.zoom_ * 3 / 2) / (d.zoom_ * 3 / 4) < 2 :=
    Int.ediv_lt_of_lt_mul hH (by omega)
  have hr2 : (d.xpos_ + d.map_area.w / 2) % (d.zoom_ * 3 / 2) < d.zoom_ * 3 / 4 →
      (d.xpos_ + d.map_area.w / 2) % (d.zoom_ * 3 / 2) / (d.zoom_ * 3 / 4) = 0 :=
    fun h => Int.ediv_eq_zero_of_lt dx0 h
  have hr3 : d.zoom_ * 3 / 4 ≤ (d.xpos_ + d.map_area.w / 2) % (d.zoom_ * 3 / 2) →
      1 ≤ (d.xpos_ + d.map_area.w / 2) % (d.zoom_ * 3 / 2) / (d.zoom_ * 3 / 4) :=
    fun h => Int.le_ediv_of_mul_le hH (by omega)
  -- the four quotients of the visible range
  have qa : Int.tdiv d.xpos_ (hex_width d) = d.xpos_ / (d.zoom_ * 3 / 4) := by
    rw [htw]; exact tdiv_nonneg_eq _ _ hx0 (by omega)
  have qa0 : 0 ≤ d.xpos_ / (d.zoom_ * 3 / 4) := Int.ediv_nonneg hx0 (by omega)
  have qa1 : d.xpos_ / (d.zoom_ * 3 / 4) ≤ (d.xpos_ + d.map_area.w / 2) / (d.zoom_ * 3 / 4) :=
    Int.ediv_le_ediv hH (by omega)
  have qc : Int.tdiv (d.xpos_ + d.map_area.w) (hex_width d)
      = (d.xpos_ + d.map_area.w) / (d.zoom_ * 3 / 4) := by
    rw [htw]; exact tdiv_nonneg_eq _ _ (by omega) (by omega)
  have qc1 : (d.xpos_ + d.map_area.w / 2) / (d.zoom_ * 3 / 4)
      ≤ (d.xpos_ + d.map_area.w) / (d.zoom_ * 3 / 4) := Int.ediv_le_ediv hH (by omega)
  have hoff : ∀ c : Int, 0 ≤ (if is_odd c then Int.tdiv d.zoom_ 2 else 0)
      ∧ (if is_odd c then Int.tdiv d.zoom_ 2 else 0) ≤ d.zoom_ / 2 := by
    intro c
    split_ifs <;> omega
  have qb0 : ∀ c : Int,
      0 ≤ Int.tdiv (d.ypos_ - (if is_odd c then Int.tdiv d.zoom_ 2 else 0)) d.zoom_ := by
    intro c
    apply tdiv_nonneg_of_gt_neg _ _ (by omega)
    have := hoff c
    omega
  have qb1 : ∀ c : Int,
      Int.tdiv (d.ypos_ - (if is_odd c then Int.tdiv d.zoom_ 2 else 0)) d.zoom_
        ≤ (d.ypos_ + d.map_area.h / 2) / d.zoom_ := by
    intro c
    apply tdiv_le_of_lt_mul _ _ _ (by omega) dqy
    have := hoff c
    have := Int.lt_ediv_add_one_mul_self (d.ypos_ + d.map_area.h / 2)
      (show 0 < d.zoom_ by omega)
    omega
  have qe1 : ∀ c : Int,
      (d.ypos_ + d.map_area.h / 2) / d.zoom_
        ≤ Int.tdiv ((d.ypos_ + d.map_area.h) - (if is_odd c then Int.tdiv d.zoom_ 2 else 0))
            d.zoom_ := by
    intro c
    have := hoff c
    rw [tdiv_nonneg_eq _ _ (by omega) (by omega)]
    exact Int.ediv_le_ediv (by omega) (by omega)
  unfold centre_hex
  rw [ew, eh, hval, get_visible_hex_bounds_eq d hwne, qa, qc]
  have qb0' := qb0 (d.xpos_ / (d.zoom_ * 3 / 4))
  have qb1' := qb1 (d.xpos_ / (d.zoom_ * 3 / 4))
  have qe1' := qe1 ((d.xpos_ + d.map_area.w) / (d.zoom_ * 3 / 4))
  refine ⟨_, _, rfl, rfl, ?_⟩
  unfold in_hex_bounds
  dsimp only
  generalize Int.tdiv (d.ypos_ - (if is_odd (d.xpos_ / (d.zoom_ * 3 / 4))
    then Int.tdiv d.zoom_ 2 else 0)) d.zoom_ = B at qb0' qb1' ⊢
  generalize Int.tdiv ((d.ypos_ + d.map_area.h)
    - (if is_odd ((d.xpos_ + d.map_area.w) / (d.zoom_ * 3 / 4))
        then Int.tdiv d.zoom_ 2 else 0)) d.zoom_ = E at qe1' ⊢
  generalize hex_modifier d.zoom_ ((d.xpos_ + d.map_area.w / 2) % (d.zoom_ * 3 / 2))
    ((d.ypos_ + d.map_area.h / 2) % d.zoom_) = m at m1 m2 m3 ⊢
  generalize (d.xpos_ + d.map_area.w / 2) % (d.zoom_ * 3 / 2) / (d.zoom_ * 3 / 4) = R
    at hcol hr0 hr1 hr2 hr3
  generalize (d.xpos_ + d.map_area.w / 2) / (d.zoom_ * 3 / 2) = QX at hcol dqx ⊢
  generalize (d.ypos_ + d.map_area.h / 2) / d.zoom_ = QY at qb1' qe1' dqy ⊢
  generalize (d.xpos_ + d.map_area.w / 2) / (d.zoom_ * 3 / 4) = CX at hcol qa1 qc1
  generalize d.xpos_ / (d.zoom_ * 3 / 4) = A at qa0 qa1 ⊢
  generalize (d.xpos_ + d.map_area.w) / (d.zoom_ * 3 / 4) = C at qc1 ⊢
  by_cases hside : (d.xpos_ + d.map_area.w / 2) % (d.zoom_ * 3 / 2) < d.zoom_ * 3 / 4
  · have r0 := hr2 hside
    have mm := m3 hside
    refine ⟨?_, ?_, ?_, ?_⟩ <;> split_ifs <;> omega
  · have r1 := hr3 (by omega)
    have mm := m2 (by omega) hmod
    refine ⟨?_, ?_, ?_, ?_⟩ <;> split_ifs <;> omega

/-! ## Division by zero in `MinZoom` -/

/-- On a map with at least one column and one row, `MinZoom` is defined exactly
when the map has at least two columns: the divisor `(map.x()*3)/4` is zero for
a single column. -/
theorem MinZoom_defined_iff (map : gamemap) (viewport : SDL_Rect) (hx : 1 ≤ map.x)
    (hy : 1 ≤ map.y) : (MinZoom map viewport).isSome = true ↔ 2 ≤ map.x := by
  have hy0 : map.y ≠ 0 := by omega
  have e : Int.tdiv (map.x * 3) 4 = map.x * 3 / 4 := tdiv_nonneg_eq _ _ (by omega) (by decide)
  unfold MinZoom cdiv
  rw [e]
  by_cases h : 2 ≤ map.x
  · have h1 : map.x * 3 / 4 ≠ 0 := by omega
    simp [h1, hy0, h]
  · have h1 : map.x * 3 / 4 = 0 := by omega
    simp [h1, h]

/-- C30 at its failing input.  A map of one column and five rows is not empty,
yet `(map.x()*3)/4` is 0: `MinZoom` divides by zero, and with it
`bounds_check_position`, `scroll` and every `zoom` with a non-zero amount and a
valid team. -/
theorem MinZoom_single_column_divides_by_zero :
    column_display.map_.empty = false
      ∧ column_display.map_.x = 1 ∧ column_display.map_.y = 5
      ∧ Int.tdiv (column_display.map_.x * 3) 4 = 0
      ∧ MinZoom column_display.map_ column_display.map_area = none
      ∧ (bounds_check_position column_display).isNone = true
      ∧ (scroll column_display 0 0).isNone = true
      ∧ (zoom sample_env still_tick column_display (-1)).isNone = true := by
  refine ⟨by decide, by decide, by decide, by decide, by decide, by decide, by decide,
    by decide⟩

/-! ## Skip budget -/

/-- `draw` never lowers the skip count: it leaves it or adds one. -/
theorem draw_keeps_or_counts_skip (e : env) (t : tick) (d : display) (update force : Bool)
    (f : display × List event) (h : draw e t d update force = some f) :
    f.1.drawSkips_ = d.drawSkips_ ∨ f.1.drawSkips_ = d.drawSkips_ + 1 := by
  have hw : hex_width d ≠ 0 := by
    intro hc
    have hn : get_visible_hex_bounds d = none := by
      simp [get_visible_hex_bounds, cdiv, hc]
    simp [draw, invalidate_animations, hn] at h
  obtain ⟨tl, br, _, hd⟩ := draw_some e t d update force hw
  rw [hd] at h
  simp only [Option.some.injEq] at h
  subst h
  have hs := (draw_frame_in_spec e t d tl br).2.2
  have hr : draw_in e t d update force tl br
      = draw_present t update force (draw_frame_in e t d tl br) := rfl
  rw [hr]
  unfold draw_present
  dsimp only
  split_ifs <;> simp [hs]

set_option maxRecDepth 20000 in
/-- C26 at its failing input.  Five late frames raise `drawSkips_` to 5; the
sixth frame is on time and is presented, and the skip count stays 5; the
seventh frame is late again and passes the pacing test on `drawSkips_ >= 5`,
although the frame before it was presented, not skipped. -/
theorem skip_count_never_reset :
    (draw_sequence sample_env late_ticks sample_display).map
        (fun p => (p.1.drawSkips_, p.2))
      = some (5, [(0, false), (1, false), (2, false), (3, false), (4, false),
                  (5, true), (5, true)]) := by
  decide

/-! ## Smooth scrolling -/

set_option maxRecDepth 40000 in
/-- C28 at its failing input.  On the 40x30 map at the default zoom, hex (7, 3)
is 94 pixels right of and 48 pixels below the centred position (284, 204).
With scroll speed 10 the smooth scroll takes `94 / 20 = 4` steps of
`(94 / 4, 48 / 4) = (23, 12)` pixels: they sum to (92, 48), no step is clamped,
and the hex ends at (286, 204), two pixels right of the centred position. -/
theorem scroll_to_tile_drops_remainder :
    get_location_x sample_renderer.todisplay ⟨7, 3⟩
        - (Int.tdiv sample_renderer.map_area.w 2 - Int.tdiv sample_renderer.zoom_ 2) = 94
      ∧ get_location_y sample_renderer.todisplay ⟨7, 3⟩
        - (Int.tdiv sample_renderer.map_area.h 2 - Int.tdiv sample_renderer.zoom_ 2) = 48
      ∧ (Int.tdiv sample_renderer.map_area.w 2 - Int.tdiv sample_renderer.zoom_ 2,
          Int.tdiv sample_renderer.map_area.h 2 - Int.tdiv sample_renderer.zoom_ 2) = (284, 204)
      ∧ (scroll_to_tile sample_env sample_scene (fun _ => still_tick) sample_renderer 7 3
            SCROLL_TYPE.SCROLL false).map
          (fun p => (p.2.filter call.is_scroll, p.1.xpos_, p.1.ypos_,
            get_location_x p.1.todisplay ⟨7, 3⟩, get_location_y p.1.todisplay ⟨7, 3⟩))
        = some ([call.scroll 23 12, call.scroll 23 12, call.scroll 23 12, call.scroll 23 12],
            92, 48, 286, 204) := by
  refine ⟨by decide, by decide, by decide, by decide⟩

/-! ## Layer order of a visible hex -/

theorem staged_nil (lo hi : Nat) : layer.staged lo hi [] :=
  ⟨by simp, List.Pairwise.nil⟩

theorem staged_const (s : Nat) (l : List layer) (h : ∀ ev ∈ l, layer.stage ev = some s) :
    layer.staged s s l := by
  refine ⟨fun ev hev => ⟨s, h ev hev, le_refl _, le_refl _⟩, ?_⟩
  rw [List.pairwise_iff_forall_sublist]
  intro a b hab
  have ha := h a (hab.subset (by simp))
  have hb := h b (hab.subset (by simp))
  simp [layer.not_after, ha, hb]

theorem staged_single (s : Nat) (ev : layer) (h : layer.stage ev = some s) :
    layer.staged s s [ev] :=
  staged_const s [ev] (by simpa using h)

theorem staged_if (lo hi : Nat) (c : Prop) [Decidable c] (l : List layer)
    (h : layer.staged lo hi l) : layer.staged lo hi (if c then l else []) := by
  split
  · exact h
  · exact staged_nil lo hi

theorem staged_append {lo1 hi1 lo2 hi2 : Nat} {l1 l2 : List layer}
    (h1 : layer.staged lo1 hi1 l1) (h2 : layer.staged lo2 hi2 l2)
    (a : lo1 ≤ hi1) (b : hi1 ≤ lo2) (c : lo2 ≤ hi2) : layer.staged lo1 hi2 (l1 ++ l2) := by
  refine ⟨?_, ?_⟩
  · intro ev hev
    rw [List.mem_append] at hev
    rcases hev with hev | hev
    · obtain ⟨s, hs, h3, h4⟩ := h1.1 ev hev
      exact ⟨s, hs, h3, by omega⟩
    · obtain ⟨s, hs, h3, h4⟩ := h2.1 ev hev
      exact ⟨s, hs, by omega, h4⟩
  · rw [List.pairwise_append]
    refine ⟨h1.2, h2.2, ?_⟩
    intro x hx y hy
    obtain ⟨s, hs, _, h4⟩ := h1.1 x hx
    obtain ⟨t, ht, h5, _⟩ := h2.1 y hy
    simp only [layer.not_after, hs, ht, decide_eq_true_eq]
    omega

theorem staged_terrain (r : renderer) (x y : Int) (image_type : image.TYPE)
    (type : ADJACENT_TERRAIN_TYPE) (s : Nat)
    (h : layer.stage (layer.terrain image_type type) = some s) :
    layer.staged s s (draw_terrain_on_tile r x y image_type type) := by
  unfold draw_terrain_on_tile
  dsimp only
  split
  · exact staged_nil s s
  · exact staged_single s _ h

theorem staged_movement_info (g : scene) (r : renderer) (loc : location) :
    layer.staged 6 6 (draw_movement_info g r loc) := by
  unfold draw_movement_info
  dsimp only
  split
  · exact staged_nil 6 6
  · split
    · exact staged_single 6 _ rfl
    · exact staged_nil 6 6

theorem staged_tod_mask (g : scene) (r : renderer) (mask : String) :
    layer.staged 9 9 (draw_tod_mask g r mask) := by
  apply staged_const
  intro ev hev
  rcases draw_tod_mask_layers g r mask ev hev with h | h | h <;> subst h <;> rfl

theorem staged_footstep (g : scene) (r : renderer) (loc : location) :
    layer.staged 3 3 (draw_footstep g r loc) := by
  apply staged_const
  intro ev hev
  rw [draw_footstep_layers g r loc ev hev]
  rfl

theorem stage_of_is_unit (ev : layer) (h : layer.is_unit ev = true) :
    layer.stage ev = some 4 := by
  cases ev <;> first | rfl | cases h

theorem staged_units (g : scene) (r : renderer) (x y : Int) (unit_image : surface)
    (evs : List layer) (h : draw_unit_on_tile g r x y unit_image = some evs) :
    layer.staged 4 4 evs :=
  staged_const 4 evs (fun ev hev =>
    stage_of_is_unit ev (draw_unit_on_tile_layers g r x y unit_image evs h ev hev))

/-- C22: on every hex that is not shrouded and has a pixel in common with the
map area (updates not locked, viewing team valid), `draw_tile` returns; after
the calls into the halo manager it draws layers that are each one of the twelve
of the order background terrain, village flag, static overlays, footstep,
unit, foreground terrain, movement information, fog, fog/shroud edges,
time-of-day masks, grid, debug highlight, none of them before a layer that
precedes it in that order; and its last action is `update_rect` on the
`zoom_` x `zoom_` rectangle of the hex. -/
theorem draw_tile_layer_order (g : scene) (r : renderer) (x y : Int) (unit_image : surface)
    (hl : g.update_locked = false) (ht : team_valid r.todisplay = true)
    (hs : shrouded g r x y = false) (hv : ¬ tile_disjoint r x y) :
    ∃ evs,
      draw_tile g r x y unit_image
        = some ((draw_halo_on_tile g r x y).1,
            (draw_halo_on_tile g r x y).2 ++ evs
              ++ [layer.update_rect (get_location_x r.todisplay ⟨x, y⟩)
                    (get_location_y r.todisplay ⟨x, y⟩) r.zoom_ r.zoom_])
      ∧ layer.staged 0 11 evs := by
  have hh := (draw_halo_on_tile_spec g r x y).1
  have hview := same_outside_haloes_view hh
  obtain ⟨k1, k2, k3, k4, k5, k6, k7, k8⟩ :=
    readers_ignore_haloes g hh x y unit_image (g.timeofday_at ⟨x, y⟩).image_mask
  have hr : ¬ tile_rejected r x y := by
    unfold tile_disjoint at hv
    unfold tile_rejected
    omega
  obtain ⟨units, hu⟩ := draw_unit_on_tile_some g r x y unit_image ht
  have su := staged_units g r x y unit_image units hu
  unfold tile_rejected at hr
  unfold draw_tile
  simp only [hl, Bool.false_eq_true, if_false]
  rw [hview, if_neg hr]
  simp only [ht, Bool.not_true, Bool.false_eq_true, if_false, k1, k2, k3, k4, k5, k6, k7,
    k8, hs, if_true, hu, Option.bind_eq_bind, Option.some_bind, Option.pure_def,
    Bool.not_false, beq_self_eq_true, Bool.and_true]
  generalize (draw_halo_on_tile g r x y).1 = r1
  generalize tile_image_type g r1 ⟨x, y⟩ = it
  refine ⟨(draw_terrain_on_tile r1 x y it ADJACENT_TERRAIN_TYPE.ADJACENT_BACKGROUND
      ++ (if (g.get_flag ⟨x, y⟩).isSome then [layer.flag] else [])
      ++ ((g.overlays_ ⟨x, y⟩).filter (fun ov => (g.get_image ov).isSome)).map
          (fun ov => layer.overlay ov it))
    ++ draw_footstep g r ⟨x, y⟩ ++ units
    ++ (draw_terrain_on_tile r1 x y it ADJACENT_TERRAIN_TYPE.ADJACENT_FOREGROUND
      ++ draw_movement_info g r1 ⟨x, y⟩
      ++ (if fogged g r x y && (g.get_image "terrain/fog.png").isSome
          then [layer.fog] else [])
      ++ draw_terrain_on_tile r1 x y it ADJACENT_TERRAIN_TYPE.ADJACENT_FOGSHROUD
      ++ draw_tod_mask g r (g.timeofday_at ⟨x, y⟩).image_mask
      ++ (if r.grid_ && (g.get_image "terrain/grid.png").isSome then [layer.grid] else [])
      ++ (if g.debug && decide ((⟨x, y⟩ : location) ∈ r.debugHighlights_)
              && (g.get_image g.cross_image).isSome
          then [layer.cross] else [])), ?_, ?_⟩
  · simp only [List.append_assoc]
  · have s0 := staged_terrain r1 x y it ADJACENT_TERRAIN_TYPE.ADJACENT_BACKGROUND 0 rfl
    have s1 := staged_if 1 1 ((g.get_flag ⟨x, y⟩).isSome = true) [layer.flag]
      (staged_single 1 _ rfl)
    have s2 : layer.staged 2 2
        (((g.overlays_ ⟨x, y⟩).filter (fun ov => (g.get_image ov).isSome)).map
          (fun ov => layer.overlay ov it)) := by
      apply staged_const
      intro ev hev
      rw [List.mem_map] at hev
      obtain ⟨a, _, ha⟩ := hev
      subst ha
      rfl
    have s3 := staged_footstep g r ⟨x, y⟩
    have s5 := staged_terrain r1 x y it ADJACENT_TERRAIN_TYPE.ADJACENT_FOREGROUND 5 rfl
    have s6 := staged_movement_info g r1 ⟨x, y⟩
    have s7 := staged_if 7 7
      ((fogged g r x y && (g.get_image "terrain/fog.png").isSome) = true) [layer.fog]
      (staged_single 7 _ rfl)
    have s8 := staged_terrain r1 x y it ADJACENT_TERRAIN_TYPE.ADJACENT_FOGSHROUD 8 rfl
    have s9 := staged_tod_mask g r (g.timeofday_at ⟨x, y⟩).image_mask
    have s10 := staged_if 10 10
      ((r.grid_ && (g.get_image "terrain/grid.png").isSome) = true) [layer.grid]
      (staged_single 10 _ rfl)
    have s11 := staged_if 11 11
      ((g.debug && decide ((⟨x, y⟩ : location) ∈ r.debugHighlights_)
        && (g.get_image g.cross_image).isSome) = true) [layer.cross]
      (staged_single 11 _ rfl)
    have ground := staged_append (staged_append s0 s1 (by omega) (by omega) (by omega)) s2
      (by omega) (by omega) (by omega)
    have above := staged_append (staged_append (staged_append (staged_append (staged_append
      (staged_append s5 s6 (by omega) (by omega) (by omega)) s7 (by omega) (by omega)
      (by omega)) s8 (by omega) (by omega) (by omega)) s9 (by omega) (by omega) (by omega))
      s10 (by omega) (by omega) (by omega)) s11 (by omega) (by omega) (by omega)
    exact staged_append (staged_append (staged_append ground s3 (by omega) (by omega)
      (by omega)) su (by omega) (by omega) (by omega)) above (by omega) (by omega) (by omega)

theorem draw_tile_layer_order_witness :
    ∃ evs,
      draw_tile unit_scene grid_renderer 2 1 none
        = some ((draw_halo_on_tile unit_scene grid_renderer 2 1).1,
            (draw_halo_on_tile unit_scene grid_renderer 2 1).2 ++ evs
              ++ [layer.update_rect (get_location_x grid_renderer.todisplay ⟨2, 1⟩)
                    (get_location_y grid_renderer.todisplay ⟨2, 1⟩) grid_renderer.zoom_
                    grid_renderer.zoom_])
      ∧ layer.staged 0 11 evs :=
  draw_tile_layer_order unit_scene grid_renderer 2 1 none rfl (by decide) (by decide)
    (by unfold tile_disjoint; decide)

/-! ## Cross-fade of the time-of-day masks -/

/-- One cross-fade step with both masks present: the two fades, the
invalidation and the frame are appended to the calls. -/
theorem new_turn_step_calls (e : env) (g : scene) (ticks : Nat → tick)
    (old_mask new_mask : surface) (n : Int) (acc : renderer × List call) (i : Nat)
    (hw : hex_width acc.1.todisplay ≠ 0) (ho : old_mask ≠ none) (hn : new_mask ≠ none) :
    ∃ s f, new_turn_step e g ticks old_mask new_mask n acc i = some s
      ∧ hex_width s.1.todisplay ≠ 0
      ∧ s.2 = acc.2
          ++ [call.adjust_surface_alpha old_mask (g.ftofxp_one - g.fxpdiv i n),
              call.adjust_surface_alpha new_mask (g.fxpdiv i n),
              call.invalidate_all, call.draw f] := by
  have h1 := hex_width_of_same_view (invalidate_all_view acc.1.todisplay) hw
  obtain ⟨f, hf, hv⟩ := draw_some_view e (ticks i) _ true false h1
  refine ⟨({ acc.1 with
      tod_hex_mask1 := g.adjust_surface_alpha old_mask (g.ftofxp_one - g.fxpdiv i n),
      tod_hex_mask2 := g.adjust_surface_alpha new_mask (g.fxpdiv i n),
      todisplay := f.1 },
    acc.2 ++ [call.adjust_surface_alpha old_mask (g.ftofxp_one - g.fxpdiv i n),
              call.adjust_surface_alpha new_mask (g.fxpdiv i n),
              call.invalidate_all, call.draw f.2]), f.2, ?_, ?_, ?_⟩
  · unfold new_turn_step
    simp only [ho, hn, ne_eq, not_false_eq_true, if_true, hf, Option.bind_eq_bind,
      Option.some_bind, Option.pure_def, List.append_assoc, List.singleton_append,
      List.cons_append, List.nil_append]
  · exact hex_width_of_same_view hv h1
  · rfl

/-- The cross-fade loop with both masks present: four calls per step. -/
theorem new_turn_loop_calls (e : env) (g : scene) (ticks : Nat → tick)
    (old_mask new_mask : surface) (n : Int) (ho : old_mask ≠ none) (hn : new_mask ≠ none)
    (steps : List Nat) :
    ∀ acc : renderer × List call, hex_width acc.1.todisplay ≠ 0 →
      ∃ s frames, steps.foldlM (new_turn_step e g ticks old_mask new_mask n) acc = some s
        ∧ List.length frames = steps.length
        ∧ s.2 = acc.2 ++ (steps.zip frames).flatMap (fun p =>
            [call.adjust_surface_alpha old_mask (g.ftofxp_one - g.fxpdiv p.1 n),
             call.adjust_surface_alpha new_mask (g.fxpdiv p.1 n),
             call.invalidate_all, call.draw p.2]) := by
  induction steps with
  | nil => intro acc _; exact ⟨acc, [], rfl, rfl, by simp⟩
  | cons i rest ih =>
    intro acc hw
    obtain ⟨s, f, hs, hw1, hc⟩ := new_turn_step_calls e g ticks old_mask new_mask n acc i hw ho hn
    obtain ⟨s1, frames, hs1, hl, hc1⟩ := ih s hw1
    refine ⟨s1, f :: frames, ?_, by simp [hl], ?_⟩
    · simp only [List.foldlM_cons, hs, Option.bind_eq_bind, Option.some_bind, hs1]
    · rw [hc1, hc]
      simp [List.flatMap_cons]

theorem fxpdiv_mono (one : Int) (n : Int) (i j : Nat) (hone : 0 ≤ one) (hn : 0 < n)
    (h : i ≤ j) : fxpdiv one i n ≤ fxpdiv one j n := by
  unfold fxpdiv
  have hi : (0 : Int) ≤ (i : Int) * one := mul_nonneg (Int.ofNat_nonneg i) hone
  have hj : (0 : Int) ≤ (j : Int) * one := mul_nonneg (Int.ofNat_nonneg j) hone
  rw [tdiv_nonneg_eq _ _ hi (le_of_lt hn), tdiv_nonneg_eq _ _ hj (le_of_lt hn)]
  apply Int.ediv_le_ediv hn
  exact mul_le_mul_of_nonneg_right (by exact_mod_cast h) hone

/-- C27: a `new_turn()` that is not turbo and not the first turn, with distinct
old and new image masks whose images are both found, on a display whose hexes
have a width, returns after these calls: `set_image_mask("")`, then for each
`i = 0..9` in turn the fade of the old mask to `ftofxp(1.0) - fxpdiv(i, 10)`,
the fade of the new mask to `fxpdiv(i, 10)`, one `invalidate_all()` and one
`draw()`, then the two calls that commit the new phase.  With `fxpdiv` as the
spec has it and `ftofxp(1.0)` non-negative, the two proportions of a step sum
to `ftofxp(1.0)`, the incoming one never falls and the outgoing one never rises
from a step to a later one. -/
theorem new_turn_cross_fade (e : env) (g : scene) (ticks : Nat → tick) (r : renderer)
    (img : image_settings) (hw : hex_width r.todisplay ≠ 0)
    (ht : turbo g r = false) (hf : r.first_turn_ = false)
    (hm : g.get_previous_time_of_day.image_mask ≠ g.get_time_of_day.image_mask)
    (ho : g.get_image g.get_previous_time_of_day.image_mask ≠ none)
    (hn : g.get_image g.get_time_of_day.image_mask ≠ none)
    (hone : 0 ≤ g.ftofxp_one) (hx : ∀ x y, g.fxpdiv x y = fxpdiv g.ftofxp_one x y) :
    (∃ r1 img1 frames, List.length frames = 10
      ∧ new_turn e g ticks r img
        = some (r1, img1,
            [call.set_image_mask ""]
            ++ ((List.range 10).zip frames).flatMap (fun p =>
                [call.adjust_surface_alpha (g.get_image g.get_previous_time_of_day.image_mask)
                   (g.ftofxp_one - fxpdiv g.ftofxp_one p.1 10),
                 call.adjust_surface_alpha (g.get_image g.get_time_of_day.image_mask)
                   (fxpdiv g.ftofxp_one p.1 10),
                 call.invalidate_all, call.draw p.2])
            ++ [call.set_colour_adjustment g.get_time_of_day.red g.get_time_of_day.green
                  g.get_time_of_day.blue,
                call.set_image_mask g.get_time_of_day.image_mask]))
      ∧ (∀ i : Nat, (g.ftofxp_one - fxpdiv g.ftofxp_one i 10) + fxpdiv g.ftofxp_one i 10
          = g.ftofxp_one)
      ∧ (∀ i j : Nat, i ≤ j →
          fxpdiv g.ftofxp_one i 10 ≤ fxpdiv g.ftofxp_one j 10
            ∧ g.ftofxp_one - fxpdiv g.ftofxp_one j 10
              ≤ g.ftofxp_one - fxpdiv g.ftofxp_one i 10) := by
  refine ⟨?_, ?_, ?_⟩
  · obtain ⟨s, frames, hs, hl, hc⟩ := new_turn_loop_calls e g ticks
      (g.get_image g.get_previous_time_of_day.image_mask)
      (g.get_image g.get_time_of_day.image_mask) 10 ho hn (List.range (10 : Int).toNat)
      (r, [call.set_image_mask ""]) hw
    have hfun : (fun p : Nat × List event =>
        [call.adjust_surface_alpha (g.get_image g.get_previous_time_of_day.image_mask)
           (g.ftofxp_one - g.fxpdiv p.1 10),
         call.adjust_surface_alpha (g.get_image g.get_time_of_day.image_mask)
           (g.fxpdiv p.1 10),
         call.invalidate_all, call.draw p.2])
        = (fun p : Nat × List event =>
        [call.adjust_surface_alpha (g.get_image g.get_previous_time_of_day.image_mask)
           (g.ftofxp_one - fxpdiv g.ftofxp_one p.1 10),
         call.adjust_surface_alpha (g.get_image g.get_time_of_day.image_mask)
           (fxpdiv g.ftofxp_one p.1 10),
         call.invalidate_all, call.draw p.2]) := by
      funext p
      rw [hx]
    rw [hfun] at hc
    refine ⟨{ s.1 with tod_hex_mask1 := none, tod_hex_mask2 := none, first_turn_ := false },
      ⟨g.get_time_of_day.image_mask, g.get_time_of_day.red, g.get_time_of_day.green,
        g.get_time_of_day.blue⟩, frames, by simpa using hl, ?_⟩
    unfold new_turn
    simp only [ht, hf, hm, Bool.not_false, Bool.and_self, if_true, hs, Option.bind_eq_bind,
      Option.some_bind, Option.pure_def, ne_eq, not_false_eq_true, hc]
    rfl
  · intro i
    omega
  · intro i j hij
    have := fxpdiv_mono g.ftofxp_one 10 i j hone (by decide) hij
    exact ⟨this, by omega⟩

theorem new_turn_cross_fade_witness :
    (∃ r1 img1 frames, List.length frames = 10
      ∧ new_turn sample_env night_scene (fun _ => still_tick) later_renderer day_settings
        = some (r1, img1,
            [call.set_image_mask ""]
            ++ ((List.range 10).zip frames).flatMap (fun p =>
                [call.adjust_surface_alpha
                   (night_scene.get_image night_scene.get_previous_time_of_day.image_mask)
                   (night_scene.ftofxp_one - fxpdiv night_scene.ftofxp_one p.1 10),
                 call.adjust_surface_alpha
                   (night_scene.get_image night_scene.get_time_of_day.image_mask)
                   (fxpdiv night_scene.ftofxp_one p.1 10),
                 call.invalidate_all, call.draw p.2])
            ++ [call.set_colour_adjustment night_scene.get_time_of_day.red
                  night_scene.get_time_of_day.green night_scene.get_time_of_day.blue,
                call.set_image_mask night_scene.get_time_of_day.image_mask]))
      ∧ (∀ i : Nat, (night_scene.ftofxp_one - fxpdiv night_scene.ftofxp_one i 10)
          + fxpdiv night_scene.ftofxp_one i 10 = night_scene.ftofxp_one)
      ∧ (∀ i j : Nat, i ≤ j →
          fxpdiv night_scene.ftofxp_one i 10 ≤ fxpdiv night_scene.ftofxp_one j 10
            ∧ night_scene.ftofxp_one - fxpdiv night_scene.ftofxp_one j 10
              ≤ night_scene.ftofxp_one - fxpdiv night_scene.ftofxp_one i 10) :=
  new_turn_cross_fade sample_env night_scene (fun _ => still_tick) later_renderer
    day_settings (by decide) (by decide) rfl (by decide) (by decide) (by decide) (by decide)
    (fun _ _ => rfl)

/-! ## Lists -/

/-- The first index below `n` that passes a test. -/
theorem find_range_eq_some (p : Nat → Bool) (n : Nat) :
    ∀ i, (List.range n).find? p = some i ↔ i < n ∧ p i = true ∧ ∀ j, j < i → p j = false := by
  induction n with
  | zero => intro i; simp
  | succ n ih =>
    intro i
    rw [List.range_succ, List.find?_append]
    cases hf : (List.range n).find? p with
    | some k =>
      obtain ⟨h1, h2, h3⟩ := (ih k).1 hf
      simp only [Option.or_some, Option.some.injEq]
      constructor
      · intro h
        subst h
        exact ⟨by omega, h2, h3⟩
      · rintro ⟨_, h5, h6⟩
        rcases Nat.lt_trichotomy k i with h | h | h
        · rw [h6 k h] at h2; cases h2
        · exact h
        · rw [h3 i h] at h5; cases h5
    | none =>
      have hn : ∀ x, x < n → p x = false := by
        intro x hx
        have := List.find?_eq_none.1 hf x (List.mem_range.2 hx)
        simpa using this
      simp only [Option.none_or, List.find?_cons, List.find?_nil]
      constructor
      · intro h
        cases hp : p n with
        | true =>
          rw [hp] at h
          simp only [Option.some.injEq] at h
          subst h
          exact ⟨by omega, hp, hn⟩
        | false =>
          rw [hp] at h
          cases h
      · rintro ⟨h4, h5, _⟩
        have hin : i = n := by
          by_contra hc
          rw [hn i (by omega)] at h5
          cases h5
        subst hin
        rw [h5]


/-! ## Village flag -/

/-- C21, amended: on every hex on which shroud implies fog (every hex that is
not shrouded, which are the hexes `draw_tile` asks for, and every hex that is
fogged), `get_flag` returns an image `s` if and only if the terrain is a
village and some team owns the village, the hex is not shrouded, it is not the
case that the hex is fogged and that team is an enemy of the viewing team, and
`s` is the image of that team's current flag frame; the team is the first one
that passes the test. -/
theorem get_flag_of_visible_owner (g : scene) (r : renderer) (owns_village : Nat → Bool)
    (flags_ : Nat → String) (village : Bool) (x y : Int) (s : String)
    (h : shrouded g r x y = true → fogged g r x y = true) :
    get_flag g r owns_village flags_ village x y = some s
      ↔ village = true
        ∧ ∃ i, i < r.teams_size
          ∧ (owns_village i = true ∧ shrouded g r x y = false
              ∧ ¬ (fogged g r x y = true ∧ g.is_enemy (i + 1) = true))
          ∧ (∀ j, j < i →
              ¬ (owns_village j = true ∧ shrouded g r x y = false
                ∧ ¬ (fogged g r x y = true ∧ g.is_enemy (j + 1) = true)))
          ∧ g.get_image (flags_ i) = some s := by
  have hp : ∀ i, (owns_village i
        && (!fogged g r x y || (!shrouded g r x y && !g.is_enemy (i + 1)))) = true
      ↔ (owns_village i = true ∧ shrouded g r x y = false
          ∧ ¬ (fogged g r x y = true ∧ g.is_enemy (i + 1) = true)) := by
    intro i
    cases owns_village i <;> cases hs : shrouded g r x y <;> cases hf : fogged g r x y
      <;> cases g.is_enemy (i + 1) <;> simp_all
  unfold get_flag
  cases village with
  | false => simp
  | true =>
    simp only [Bool.not_true, Bool.false_eq_true, if_false, true_and]
    cases hfind : (List.range r.teams_size).find? (fun i =>
        owns_village i
          && (!fogged g r x y || (!shrouded g r x y && !g.is_enemy (i + 1)))) with
    | none =>
      constructor
      · intro hc
        cases hc
      · rintro ⟨i, hi, hv, _, _⟩
        have := List.find?_eq_none.1 hfind i (List.mem_range.2 hi)
        exact absurd ((hp i).2 hv) this
    | some k =>
      obtain ⟨h1, h2, h3⟩ := (find_range_eq_some _ _ k).1 hfind
      simp only
      constructor
      · intro hs
        refine ⟨k, h1, (hp k).1 h2, ?_, hs⟩
        intro j hj hc
        have := h3 j hj
        rw [(hp j).2 hc] at this
        cases this
      · rintro ⟨i, hi, hv, hfirst, himg⟩
        have hik : i = k := by
          rcases Nat.lt_trichotomy i k with hlt | heq | hgt
          · have := h3 i hlt
            rw [(hp i).2 hv] at this
            cases this
          · exact heq
          · exact absurd ((hp k).1 h2) (hfirst k hgt)
        subst hik
        exact himg

theorem get_flag_of_visible_owner_witness :
    get_flag fogged_scene sample_renderer (fun i => decide (i = 0)) team_flag true 3 3
        = some "terrain/flag-team1.png"
      ↔ true = true
        ∧ ∃ i, i < sample_renderer.teams_size
          ∧ ((fun i => decide (i = 0)) i = true ∧ shrouded fogged_scene sample_renderer 3 3 = false
              ∧ ¬ (fogged fogged_scene sample_renderer 3 3 = true
                ∧ fogged_scene.is_enemy (i + 1) = true))
          ∧ (∀ j, j < i →
              ¬ ((fun i => decide (i = 0)) j = true
                ∧ shrouded fogged_scene sample_renderer 3 3 = false
                ∧ ¬ (fogged fogged_scene sample_renderer 3 3 = true
                  ∧ fogged_scene.is_enemy (j + 1) = true)))
          ∧ fogged_scene.get_image (team_flag i) = some "terrain/flag-team1.png" :=
  get_flag_of_visible_owner fogged_scene sample_renderer (fun i => decide (i = 0)) team_flag
    true 3 3 "terrain/flag-team1.png" (by decide)

/-- C21 as stated fails.  With shroud but no fog on hex (3, 3), a village of
team 1, `get_flag` returns the flag of team 1 although the hex is shrouded. -/
theorem get_flag_shrouded_counterexample :
    shrouded shrouded_scene sample_renderer 3 3 = true
      ∧ fogged shrouded_scene sample_renderer 3 3 = false
      ∧ get_flag shrouded_scene sample_renderer (fun i => decide (i = 0)) team_flag true 3 3
          = some "terrain/flag-team1.png" := by
  refine ⟨by decide, by decide, by decide⟩

/-! ## Footsteps -/

theorem getLastD_eq_getD (l : List String) (h : l ≠ []) :
    l.getLastD "" = l.getD (l.length - 1) "" := by
  induction l with
  | nil => exact absurd rfl h
  | cons a rest ih =>
    cases rest with
    | nil => rfl
    | cons b rest2 =>
      have := ih (by simp)
      simp only [List.getLastD_cons, List.length_cons, Nat.add_sub_cancel, List.getD_cons_succ] at this ⊢
      rw [← this]

/-- The image chosen with a unit on the first step: the one at the movement
cost minus one, clamped into the list. -/
theorem foot_image_str_clamp (image_category : List String) (cost : Int)
    (h : image_category ≠ []) :
    foot_image_str image_category (some cost)
      = image_category.getD (clamp (cost - 1) 0 (image_category.length - 1)).toNat "" := by
  have hlen : 0 < image_category.length := List.length_pos.2 h
  unfold foot_image_str clamp
  dsimp only
  by_cases h1 : cost - 1 ≥ (image_category.length : Int)
  · rw [if_pos h1, if_neg (by omega), if_pos (by omega), getLastD_eq_getD _ h]
    congr 1
    omega
  · rw [if_neg h1]
    by_cases h2 : cost - 1 > 0
    · rw [if_pos h2, if_neg (by omega), if_neg (by omega)]
    · rw [if_neg h2]
      by_cases h3 : cost - 1 < 0
      · rw [if_pos h3]
        cases image_category with
        | nil => exact absurd rfl h
        | cons a rest => rfl
      · rw [if_neg h3, if_neg (by omega)]
        have : cost - 1 = 0 := by omega
        rw [this]
        cases image_category with
        | nil => exact absurd rfl h
        | cons a rest => rfl

/-- C25, amended: a hex that is not on the displayed route gets no footstep,
and neither does the first step of the route.  For every other hex of the
route, at index `i` (its first occurrence), when each footstep list has an
image and the images are found, a unit `u` stands on the first step, and the
steps `a`, `b` that give the direction (the hex and the next step, or for the
last hex the previous step and the hex) are neighbours, `draw_footstep` draws
a footstep: the left foot exactly when `i` is even, in the first direction
that leads from `a` to `b`, with the image of the chosen list at index
`movement_cost - 1` clamped into `[0, n - 1]`, `n` being the length of the
list. -/
theorem draw_footstep_choice (g : scene) (r : renderer) (cfg : foot_config)
    (location_get_direction : location → Nat → location)
    (movement_cost : unit → location → Int) (loc : location) :
    (loc ∉ r.route_steps →
        draw_footstep_image g r cfg location_get_direction movement_cost loc = none)
      ∧ (r.route_steps.indexOf loc = 0 →
        draw_footstep_image g r cfg location_get_direction movement_cost loc = none)
      ∧ ∀ (a b : location) (u : unit),
        0 < r.route_steps.indexOf loc → r.route_steps.indexOf loc < r.route_steps.length →
        r.route_steps[if r.route_steps.indexOf loc + 1 = r.route_steps.length
          then r.route_steps.indexOf loc - 1 else r.route_steps.indexOf loc]? = some a →
        r.route_steps[(if r.route_steps.indexOf loc + 1 = r.route_steps.length
          then r.route_steps.indexOf loc - 1 else r.route_steps.indexOf loc) + 1]? = some b →
        (∃ n, n < 6 ∧ location_get_direction a n = b) →
        r.route_steps.head?.bind g.units_ = some u →
        (∀ left_foot direction, foot_category cfg left_foot direction ≠ []) →
        (∀ left_foot direction, ∀ name ∈ foot_category cfg left_foot direction,
          (g.get_image name).isSome = true) →
        ∃ fs, draw_footstep_image g r cfg location_get_direction movement_cost loc = some fs
          ∧ fs.left_foot = decide (r.route_steps.indexOf loc % 2 = 0)
          ∧ fs.direction < 6
          ∧ location_get_direction a fs.direction = b
          ∧ (∀ m, m < fs.direction → location_get_direction a m ≠ b)
          ∧ fs.image_str
            = (foot_category cfg fs.left_foot fs.direction).getD
                (clamp (movement_cost u loc - 1) 0
                  ((foot_category cfg fs.left_foot fs.direction).length - 1)).toNat "" := by
  refine ⟨?_, ?_, ?_⟩
  · intro h
    have hi : r.route_steps.indexOf loc = r.route_steps.length := List.indexOf_eq_length.2 h
    simp [draw_footstep_image, hi]
  · intro h
    simp [draw_footstep_image, h]
  · intro a b u h0 hl ha hb hadj hu hcat himg
    generalize hi : r.route_steps.indexOf loc = i at h0 hl ha hb ⊢
    generalize hj : (if i + 1 = r.route_steps.length then i - 1 else i) = j at ha hb
    have hj1 : j + 1 ≠ r.route_steps.length := by
      rw [← hj]
      split_ifs <;> omega
    have hj2 : (if i + 1 = r.route_steps.length ∧ i ≠ 0 then i - 1 else i) = j := by
      rw [← hj]
      by_cases hc : i + 1 = r.route_steps.length
      · rw [if_pos hc, if_pos ⟨hc, by omega⟩]
      · rw [if_neg hc, if_neg (fun hh => hc hh.1)]
    obtain ⟨n, hn, hab⟩ := hadj
    have hex : ∃ d, (List.range 6).find? (fun n => decide (location_get_direction a n = b))
        = some d := by
      cases hf : (List.range 6).find? (fun n => decide (location_get_direction a n = b)) with
      | some d => exact ⟨d, rfl⟩
      | none =>
        have := List.find?_eq_none.1 hf n (List.mem_range.2 hn)
        simp [hab] at this
    obtain ⟨d, hd⟩ := hex
    obtain ⟨d1, d2, d3⟩ := (find_range_eq_some _ 6 d).1 hd
    have hdir : footstep_direction location_get_direction r.route_steps j = d := by
      unfold footstep_direction
      rw [if_pos hj1, ha, hb]
      simp only [hd, Option.getD_some]
    have hne := hcat (decide (i % 2 = 0)) d
    have hempty : (foot_category cfg (decide (i % 2 = 0)) d).isEmpty = false := by
      cases hc : foot_category cfg (decide (i % 2 = 0)) d with
      | nil => exact absurd hc hne
      | cons x xs => rfl
    have hstr := foot_image_str_clamp (foot_category cfg (decide (i % 2 = 0)) d)
      (movement_cost u loc) hne
    have hmem : foot_image_str (foot_category cfg (decide (i % 2 = 0)) d)
        (some (movement_cost u loc)) ∈ foot_category cfg (decide (i % 2 = 0)) d := by
      rw [hstr]
      have hlen : 0 < (foot_category cfg (decide (i % 2 = 0)) d).length :=
        List.length_pos.2 hne
      have hlt : (clamp (movement_cost u loc - 1) 0
          (((foot_category cfg (decide (i % 2 = 0)) d).length : Int) - 1)).toNat
          < (foot_category cfg (decide (i % 2 = 0)) d).length := by
        unfold clamp
        split_ifs <;> omega
      rw [List.getD_eq_getElem _ _ hlt]
      exact List.getElem_mem _
    have hfound := himg _ _ _ hmem
    obtain ⟨img, himg1⟩ := Option.isSome_iff_exists.1 hfound
    refine ⟨⟨foot_image_str (foot_category cfg (decide (i % 2 = 0)) d)
        (some (movement_cost u loc)), decide (i % 2 = 0), d,
      !(decide (d > NORTH) && decide (d ≤ SOUTH)),
      decide (d ≥ SOUTH_EAST) && decide (d ≤ SOUTH_WEST)⟩, ?_, rfl, d1, ?_, ?_, hstr⟩
    · unfold draw_footstep_image
      simp only [hi, hj2, hdir, hempty, hu, Option.map_some', himg1]
      rw [if_neg (by omega)]
      simp
    · simpa using d2
    · intro m hm
      simpa using d3 m hm

theorem draw_footstep_choice_witness :
    ∃ fs, draw_footstep_image unit_scene route_renderer sample_feet hex_neighbour
          (fun _ _ => 5) ⟨3, 2⟩ = some fs
      ∧ fs.left_foot = decide (route_renderer.route_steps.indexOf ⟨3, 2⟩ % 2 = 0)
      ∧ fs.direction < 6
      ∧ hex_neighbour ⟨3, 2⟩ fs.direction = ⟨3, 3⟩
      ∧ (∀ m, m < fs.direction → hex_neighbour ⟨3, 2⟩ m ≠ ⟨3, 3⟩)
      ∧ fs.image_str
        = (foot_category sample_feet fs.left_foot fs.direction).getD
            (clamp ((fun _ _ => 5) fighter (⟨3, 2⟩ : location) - 1) 0
              ((foot_category sample_feet fs.left_foot fs.direction).length - 1)).toNat "" :=
  (draw_footstep_choice unit_scene route_renderer sample_feet hex_neighbour (fun _ _ => 5)
    ⟨3, 2⟩).2.2 ⟨3, 2⟩ ⟨3, 3⟩ fighter (by decide) (by decide) (by decide) (by decide)
    ⟨3, by decide, by decide⟩ (by decide)
    (by intro left_foot direction; unfold foot_category; split_ifs <;> simp [sample_feet])
    (fun _ _ _ _ => rfl)

/-- C25 as stated fails.  Hex (2, 1) lies on the displayed route, as its first
step, and `draw_footstep` returns without drawing; on the third step (3, 2),
with a movement cost of 5 and three images per list, it draws the left foot
facing south with the last image. -/
theorem draw_footstep_first_step_counterexample :
    (⟨2, 1⟩ : location) ∈ route_renderer.route_steps
      ∧ draw_footstep_image unit_scene route_renderer sample_feet hex_neighbour
          (fun _ _ => 5) ⟨2, 1⟩ = none
      ∧ draw_footstep_image unit_scene route_renderer sample_feet hex_neighbour
          (fun _ _ => 5) ⟨3, 2⟩ = some ⟨"foot-left-n-3.png", true, 3, false, true⟩ := by
  refine ⟨by decide, by decide, by decide⟩

/-! ## Layout of the report elements -/

/-- One iteration of the element loop in terms of the size it draws: the
element is reached at the current `x` and `y`; after a line-breaking text the
next line starts at `rect.x`, below the tallest element, with the tracker
reset; otherwise `x` advances by the width drawn. -/
theorem place_element_spec (draw_text : SDL_Rect → String → Int → Int → SDL_Rect)
    (image_size : String → Option (Int × Int)) (rect : SDL_Rect) (s : layout_state)
    (el : element) (hs : 0 ≤ s.tallest) :
    (place_element draw_text image_size rect s el).2.el = el
      ∧ (place_element draw_text image_size rect s el).2.x = s.x
      ∧ (place_element draw_text image_size rect s el).2.y = s.y
      ∧ (place_element draw_text image_size rect s el).1
          = (if ends_line el = true
             then ⟨rect.x,
               s.y + max s.tallest (place_element draw_text image_size rect s el).2.h, 0⟩
             else ⟨s.x + (place_element draw_text image_size rect s el).2.w, s.y,
               max s.tallest (place_element draw_text image_size rect s el).2.h⟩) := by
  have hmax : ∀ a : Int, (if a > s.tallest then a else s.tallest) = max s.tallest a := by
    intro a
    rw [max_def]
    split_ifs <;> omega
  unfold place_element ends_line
  by_cases ht : el.text.isEmpty = false
  · by_cases hb : el.text.back = '\n'
    · simp [ht, hb, hmax]
    · simp [ht, hb, hmax]
  · have ht1 : el.text.isEmpty = true := by simpa using ht
    by_cases hi : el.image.isEmpty = false
    · cases hz : image_size el.image with
      | none => simp [ht1, hi, hz, hs]
      | some img => simp [ht1, hi, hz, hmax]
    · simp [ht1, hi, hs]

theorem line_height_nonneg (line : List placed) : 0 ≤ line_height line := by
  unfold line_height
  induction line with
  | nil => simp
  | cons p rest ih =>
    simp only [List.map_cons, List.foldr_cons]
    exact le_max_of_le_right ih

theorem line_height_cons (p : placed) (line : List placed) :
    line_height (p :: line) = max p.h (line_height line) := rfl

/-- The element loop from any state with a non-negative tracker: where the
element at index `i` is reached, in terms of the lines among the elements
before it. -/
theorem place_from_position (draw_text : SDL_Rect → String → Int → Int → SDL_Rect)
    (image_size : String → Option (Int × Int)) (rect : SDL_Rect) :
    ∀ (els : List element) (s : layout_state), 0 ≤ s.tallest → ∀ (i : Nat) (p : placed),
      (place_from draw_text image_size rect s els)[i]? = some p →
      ((split_lines ((place_from draw_text image_size rect s els).take i)).1 = []
          ∧ p.x = s.x
              + ((split_lines ((place_from draw_text image_size rect s els).take i)).2.map
                  placed.w).sum
          ∧ p.y = s.y)
        ∨ ∃ l ls,
          (split_lines ((place_from draw_text image_size rect s els).take i)).1 = l :: ls
            ∧ p.x = rect.x
              + ((split_lines ((place_from draw_text image_size rect s els).take i)).2.map
                  placed.w).sum
            ∧ p.y = s.y + max s.tallest (line_height l) + (ls.map line_height).sum := by
  intro els
  induction els with
  | nil => intro s _ i p h; simp [place_from] at h
  | cons el rest ih =>
    intro s hs i p h
    obtain ⟨hel, hx, hy, hnext⟩ := place_element_spec draw_text image_size rect s el hs
    generalize hr : place_element draw_text image_size rect s el = r at hel hx hy hnext
    have hps : place_from draw_text image_size rect s (el :: rest)
        = r.2 :: place_from draw_text image_size rect r.1 rest := by
      simp only [place_from, hr]
    rw [hps] at h ⊢
    cases i with
    | zero =>
      simp only [List.getElem?_cons_zero, Option.some.injEq] at h
      subst h
      left
      simp [split_lines, hx, hy]
    | succ i =>
      simp only [List.getElem?_cons_succ] at h
      have hs1 : 0 ≤ r.1.tallest := by
        rw [hnext]
        split
        · exact le_refl _
        · exact le_max_of_le_left hs
      have IH := ih r.1 hs1 i p h
      generalize hT : (place_from draw_text image_size rect r.1 rest).take i = T at IH
      simp only [List.take_succ_cons, hT]
      by_cases hb : ends_line el = true
      · rw [if_pos hb] at hnext
        right
        rcases IH with ⟨h1, h2, h3⟩ | ⟨l, ls, h1, h2, h3⟩
        · refine ⟨[r.2], [], ?_, ?_, ?_⟩
          · simp [split_lines, hel, hb, h1]
          · simp only [split_lines, hel, hb, if_true]
            rw [h2, hnext]
          · rw [h3, hnext]
            have h0 : line_height [r.2] = max r.2.h 0 := rfl
            have hm : max s.tallest (max r.2.h 0) = max s.tallest r.2.h := by
              rw [max_def, max_def, max_def]
              split_ifs <;> omega
            simp [h0, hm]
        · refine ⟨[r.2], l :: ls, ?_, ?_, ?_⟩
          · simp [split_lines, hel, hb, h1]
          · simp only [split_lines, hel, hb, if_true]
            rw [h2]
          · rw [h3, hnext]
            have h0 : line_height [r.2] = max r.2.h 0 := rfl
            have hl := line_height_nonneg l
            have hm : max s.tallest (max r.2.h 0) = max s.tallest r.2.h := by
              rw [max_def, max_def, max_def]
              split_ifs <;> omega
            have hm2 : max (0 : Int) (line_height l) = line_height l := max_eq_right hl
            simp only [h0, hm, List.map_cons, List.sum_cons, hm2]
            ring
      · rw [if_neg hb] at hnext
        have hb1 : ends_line el = false := by simpa using hb
        rcases IH with ⟨h1, h2, h3⟩ | ⟨l, ls, h1, h2, h3⟩
        · left
          refine ⟨?_, ?_, ?_⟩
          · simp [split_lines, hel, hb1, h1]
          · simp only [split_lines, hel, hb1, h1, Bool.false_eq_true, if_false, List.map_cons,
              List.sum_cons]
            rw [h2, hnext]
            ring
          · rw [h3, hnext]
        · right
          refine ⟨r.2 :: l, ls, ?_, ?_, ?_⟩
          · simp [split_lines, hel, hb1, h1]
          · simp only [split_lines, hel, hb1, h1, Bool.false_eq_true, if_false]
            rw [h2]
          · rw [h3, hnext, line_height_cons, max_assoc]

/-- One iteration of the element loop draws the element at the current `x`
and `y` with the size that the primitives give for it there. -/
theorem place_element_area (draw_text : SDL_Rect → String → Int → Int → SDL_Rect)
    (image_size : String → Option (Int × Int)) (rect : SDL_Rect) (s : layout_state)
    (el : element) :
    ((place_element draw_text image_size rect s el).2.drawn,
        (place_element draw_text image_size rect s el).2.w,
        (place_element draw_text image_size rect s el).2.h)
      = element_area draw_text image_size rect
          (place_element draw_text image_size rect s el).2.el
          (place_element draw_text image_size rect s el).2.x
          (place_element draw_text image_size rect s el).2.y := by
  have hne : ∀ t : String, t.isEmpty = false ↔ t ≠ "" := by
    intro t
    rw [Ne, ← String.isEmpty_iff]
    simp
  unfold place_element element_area
  by_cases ht : el.text.isEmpty = false
  · have ht1 := (hne el.text).1 ht
    by_cases hb : el.text.back = '\n'
    · simp [ht, hb, ht1]
    · simp [ht, hb, ht1]
  · have ht1 : el.text.isEmpty = true := by simpa using ht
    have ht2 := eq_true ((String.isEmpty_iff _).1 ht1)
    by_cases hi : el.image.isEmpty = false
    · have hi1 := (hne el.image).1 hi
      cases hz : image_size el.image with
      | none => simp [ht1, ht2, hi, hi1, hz]
      | some img => simp [ht1, ht2, hi, hi1, hz]
    · have hi1 : el.image.isEmpty = true := by simpa using hi
      have hi2 := eq_true ((String.isEmpty_iff _).1 hi1)
      simp [ht1, ht2, hi1, hi2]

theorem place_from_area (draw_text : SDL_Rect → String → Int → Int → SDL_Rect)
    (image_size : String → Option (Int × Int)) (rect : SDL_Rect) :
    ∀ (els : List element) (s : layout_state),
      ∀ p ∈ place_from draw_text image_size rect s els,
        (p.drawn, p.w, p.h) = element_area draw_text image_size rect p.el p.x p.y := by
  intro els
  induction els with
  | nil => intro s p hp; simp [place_from] at hp
  | cons el rest ih =>
    intro s p hp
    simp only [place_from, List.mem_cons] at hp
    rcases hp with hp | hp
    · subst hp
      exact place_element_area draw_text image_size rect s el
    · exact ih _ p hp

/-- C24: for every vector of elements that the loop of `draw_report` runs over,
every rectangle and whatever sizes the text and image primitives return, the
loop handles the elements in order; it draws each element with the size that
the primitives give for it at the place where it is drawn; and it reaches
element `i` with `x` equal to `rect.x` plus the widths drawn for the elements
before it on its line and `y` equal to `rect.y` plus, for each line completed
before it, the height of the tallest element of that line; a line is completed
exactly by a text element whose last character is a line break, and the next
line starts again at `rect.x` with an empty tallest-element tracker.  Elements
that are skipped draw nothing and count with width and height zero. -/
theorem draw_report_layout (draw_text : SDL_Rect → String → Int → Int → SDL_Rect)
    (image_size : String → Option (Int × Int)) (rect : SDL_Rect) (rep : report) :
    (place_elements draw_text image_size rect rep).map placed.el = rep
      ∧ (place_elements draw_text image_size rect rep).map (fun p => (p.drawn, p.w, p.h))
          = (place_elements draw_text image_size rect rep).map
              (fun p => element_area draw_text image_size rect p.el p.x p.y)
      ∧ (place_elements draw_text image_size rect rep).map (fun p => (p.x, p.y))
          = (List.range rep.length).map
              (line_position rect (place_elements draw_text image_size rect rep)) := by
  have hel : ∀ (els : List element) (s : layout_state),
      (place_from draw_text image_size rect s els).map placed.el = els := by
    intro els
    induction els with
    | nil => intro s; rfl
    | cons el rest ih =>
      intro s
      simp only [place_from, List.map_cons, ih, List.cons.injEq, and_true]
      unfold place_element
      split_ifs
      · rfl
      · rfl
      · split <;> rfl
      · rfl
  have hlen : (place_elements draw_text image_size rect rep).length = rep.length := by
    have := congrArg List.length (hel rep ⟨rect.x, rect.y, 0⟩)
    simpa [place_elements] using this
  refine ⟨hel rep _, ?_, ?_⟩
  · apply List.map_congr_left
    intro p hp
    exact place_from_area draw_text image_size rect rep _ p hp
  apply List.ext_getElem?
  intro i
  by_cases hi : i < rep.length
  · have hi1 : i < (place_elements draw_text image_size rect rep).length := by omega
    rw [List.getElem?_map, List.getElem?_map, List.getElem?_range hi,
      List.getElem?_eq_getElem hi1]
    simp only [Option.map_some']
    congr 1
    have key := place_from_position draw_text image_size rect rep ⟨rect.x, rect.y, 0⟩
      (le_refl _) i _ (List.getElem?_eq_getElem hi1)
    unfold line_position
    rcases key with ⟨h1, h2, h3⟩ | ⟨l, ls, h1, h2, h3⟩
    · simp only [place_elements, h1, List.map_nil, List.sum_nil, add_zero]
      rw [Prod.mk.injEq]
      exact ⟨h2, h3⟩
    · have hl := line_height_nonneg l
      simp only [place_elements, h1, List.map_cons, List.sum_cons]
      rw [Prod.mk.injEq]
      refine ⟨h2, ?_⟩
      have h4 : (place_elements draw_text image_size rect rep)[i].y
          = rect.y + max 0 (line_height l) + (ls.map line_height).sum := h3
      rw [max_eq_right hl] at h4
      rw [add_assoc] at h4
      exact h4
  · have hi1 : (place_elements draw_text image_size rect rep).length ≤ i := by omega
    rw [List.getElem?_map, List.getElem?_map, List.getElem?_eq_none hi1,
      List.getElem?_eq_none (by simpa using hi)]
    rfl

/-- The loop on a report of two lines, with characters 8 pixels wide and 12
high and a 16x16 image: the label ends the first line, the image starts the
second line at `rect.x`, 12 pixels lower, and the number follows it. -/
theorem place_elements_two_lines :
    (place_elements fixed_font (fun _ => some (16, 16)) ⟨5, 7, 100, 50⟩ two_line_report).map
        (fun p => (p.x, p.y, p.drawn, p.w, p.h))
      = [(5, 7, true, 48, 12), (5, 19, true, 16, 16), (21, 19, true, 24, 12)] := by
  decide

/-! ## Prefix and postfix of a report -/

/-- Whenever the theme item has a postfix and the report is not empty, the
postfix element is built from a read at the position equal to the size of the
vector: one past its last element. -/
theorem add_affixes_reads_end (rep : report) (prefix_str postfix_str : String)
    (hr : rep ≠ []) (hp : postfix_str ≠ "") :
    ∃ n, (n, n) ∈ (add_affixes rep prefix_str postfix_str).1
      ∧ (add_affixes rep prefix_str postfix_str).2 = none := by
  cases rep with
  | nil => exact absurd rfl hr
  | cons a rest =>
    by_cases h : prefix_str = ""
    · refine ⟨(a :: rest).length, ?_, ?_⟩ <;> simp [add_affixes, h, hp]
    · refine ⟨(a :: rest).length + 1, ?_, ?_⟩ <;> simp [add_affixes, h, hp]

/-- C29 at its failing input.  For the report of the single element "100" and
a theme item with no prefix and the postfix " gold", `draw_report` reads the
tooltip for the postfix element through `report.end()`: position 1 of a vector
of size 1.  With the prefix "Gold: " as well, the read for the prefix is at
position 0 of 1 and the read for the postfix at position 2 of 2. -/
theorem postfix_reads_past_end :
    add_affixes gold_report "" " gold" = ([(1, 1)], none)
      ∧ add_affixes gold_report "Gold: " " gold" = ([(0, 1), (2, 2)], none)
      ∧ add_affixes gold_report "Gold: " ""
          = ([(0, 1)], some [⟨"", "Gold: ", "Gold"⟩, ⟨"", "100", "Gold"⟩]) := by
  refine ⟨by decide, by decide, by decide⟩

/-! ## Fog and shroud edges -/

set_option maxRecDepth 20000 in
/-- C23 at its failing input.  With every edge image present and all six
neighbours of hex (3, 3) shrouded, `get_fog_shroud_graphics` returns the image
that names the six directions six times over, not once; the name starts at
the second direction.  With the neighbours to the north, south-east and south
shrouded it returns one image per arc. -/
theorem get_fog_shroud_graphics_all_six :
    get_fog_shroud_graphics island_scene sample_renderer (hex_neighbour ⟨3, 3⟩)
        sample_symbol (fun _ => true) ⟨3, 3⟩
      = ["terrain/void-ne-se-s-sw-nw-n.png", "terrain/void-ne-se-s-sw-nw-n.png",
         "terrain/void-ne-se-s-sw-nw-n.png", "terrain/void-ne-se-s-sw-nw-n.png",
         "terrain/void-ne-se-s-sw-nw-n.png", "terrain/void-ne-se-s-sw-nw-n.png"]
      ∧ get_fog_shroud_graphics coast_scene sample_renderer (hex_neighbour ⟨3, 3⟩)
          sample_symbol (fun _ => true) ⟨3, 3⟩
        = ["terrain/void-se-s.png", "terrain/void-n.png"] := by
  refine ⟨by decide, by decide⟩
end Wesnoth
